import Mathlib

/-!
Verification of the go-script transpiler front end (lexer and parser).

The Go sources `pkg/lexer/lexer.go`, `pkg/lexer/token.go`, `pkg/parser/parser.go`,
`pkg/ast/ast.go` and `pkg/stdlib/aliases.go` are embedded shallowly below.
A Go `byte` of the input string is modelled as a Lean `Char` (all inputs under
consideration are ASCII, and the Go code indexes the input byte by byte).
Go `int` fields that can be the result of subtraction are modelled as `Int`;
cursor fields that only ever grow are modelled as `Nat`.
-/

namespace GoScript

/-- The Go byte value 0, used by the lexer as its end-of-input sentinel
(`l.ch = 0` in `readChar`). -/
def nulChar : Char := '\x00'

/-- `TokenType` from pkg/lexer/token.go (the constant block starting at `ILLEGAL`). -/
inductive TokenType where
  | ILLEGAL
  | EOF
  | COMMENT
  | IDENT
  | INT
  | FLOAT
  | STRING
  | CHAR
  | AND
  | OR
  | NOT
  | IF
  | ELIF
  | ELSE
  | FOR
  | WHILE
  | FUNC
  | RETURN
  | IMPORT
  | FROM
  | STRUCT
  | INTERFACE
  | VAR
  | CONST
  | TRUE
  | FALSE
  | NIL
  | IN
  | RANGE
  | BREAK
  | CONTINUE
  | DEFER
  | GO
  | CHAN
  | SELECT
  | CASE
  | DEFAULT
  | SWITCH
  | TYPE
  | PACKAGE
  | ASSIGN
  | WALRUS
  | PLUS
  | MINUS
  | MULTIPLY
  | DIVIDE
  | MODULO
  | POWER
  | EQ
  | NOT_EQ
  | LT
  | LT_EQ
  | GT
  | GT_EQ
  | PLUS_EQ
  | MINUS_EQ
  | MULT_EQ
  | DIV_EQ
  | MOD_EQ
  | BITWISE_AND
  | BITWISE_OR
  | BITWISE_XOR
  | LEFT_SHIFT
  | RIGHT_SHIFT
  | BIT_CLEAR
  | INCREMENT
  | DECREMENT
  | COMMA
  | SEMICOLON
  | COLON
  | DOT
  | ARROW
  | CHANNEL
  | LPAREN
  | RPAREN
  | LBRACKET
  | RBRACKET
  | LBRACE
  | RBRACE
  | NEWLINE
  | INDENT
  | DEDENT
  deriving DecidableEq, Repr

/-- `Token` from pkg/lexer/token.go.  The Go field `Type` is spelled `type_`
here (`Type` is reserved in Lean).  `Line`, `Column` and `Position` are Go
`int`s and are computed by subtraction in a few places, hence `Int`. -/
structure Token where
  type_ : TokenType
  Literal : String
  Line : Int
  Column : Int
  Position : Int
  deriving DecidableEq, Repr

/-- `Lexer` from pkg/lexer/lexer.go.  The input string is kept as the list of
its bytes. -/
structure Lexer where
  input : List Char
  position : Nat
  readPosition : Nat
  ch : Char
  line : Nat
  column : Nat
  indentStack : List Nat
  deriving DecidableEq, Repr

/-- `readChar` (lexer.go:29-44). -/
def Lexer.readChar (l : Lexer) : Lexer :=
  let c := if l.input.length ≤ l.readPosition then nulChar else l.input.getD l.readPosition nulChar
  let l' : Lexer :=
    { l with ch := c, position := l.readPosition, readPosition := l.readPosition + 1 }
  if c = '\n' then { l' with line := l'.line + 1, column := 0 }
  else { l' with column := l'.column + 1 }

/-- `New` (lexer.go:17-26): fields left at their Go zero value, then one `readChar`. -/
def Lexer.new (input : String) : Lexer :=
  Lexer.readChar
    { input := input.toList, position := 0, readPosition := 0, ch := nulChar,
      line := 1, column := 0, indentStack := [0] }

/-- `peekChar` (lexer.go:47-52). -/
def Lexer.peekChar (l : Lexer) : Char :=
  if l.input.length ≤ l.readPosition then nulChar else l.input.getD l.readPosition nulChar

/-- `isLetter` (lexer.go:395-397): letters, `_`, and any byte above 127. -/
def isLetter (c : Char) : Bool :=
  ('a' ≤ c && c ≤ 'z') || ('A' ≤ c && c ≤ 'Z') || c = '_' || 127 < c.toNat

/-- `isDigit` (lexer.go:400-402). -/
def isDigit (c : Char) : Bool :=
  '0' ≤ c && c ≤ '9'

@[simp] theorem Lexer.readChar_input (l : Lexer) : l.readChar.input = l.input := by
  unfold Lexer.readChar; dsimp only; split <;> split <;> rfl

@[simp] theorem Lexer.readChar_readPosition (l : Lexer) :
    l.readChar.readPosition = l.readPosition + 1 := by
  unfold Lexer.readChar; dsimp only; split <;> split <;> rfl

@[simp] theorem Lexer.readChar_position (l : Lexer) :
    l.readChar.position = l.readPosition := by
  unfold Lexer.readChar; dsimp only; split <;> split <;> rfl

@[simp] theorem Lexer.readChar_indentStack (l : Lexer) :
    l.readChar.indentStack = l.indentStack := by
  unfold Lexer.readChar; dsimp only; split <;> split <;> rfl

theorem Lexer.readChar_ch (l : Lexer) :
    l.readChar.ch =
      (if l.input.length ≤ l.readPosition then nulChar else l.input.getD l.readPosition nulChar) := by
  unfold Lexer.readChar; dsimp only; split <;> split <;> simp_all

theorem Lexer.readChar_ch_eq_peekChar (l : Lexer) : l.readChar.ch = l.peekChar := by
  rw [Lexer.readChar_ch]; rfl

theorem Lexer.readChar_line_ge (l : Lexer) : l.line ≤ l.readChar.line := by
  unfold Lexer.readChar; dsimp only; split <;> split <;> simp

theorem Lexer.readChar_column (l : Lexer) :
    (l.readChar.ch = '\n' ∧ l.readChar.column = 0) ∨
      (l.readChar.ch ≠ '\n' ∧ l.readChar.column = l.column + 1) := by
  unfold Lexer.readChar
  dsimp only
  split <;> split <;> simp_all

/-- The column invariant: every state produced by `readChar` satisfies it, and
it is exactly what is needed to bound token columns.  (`column` is reset to 0
only when the newly read character is a newline.) -/
def Lexer.ColInv (l : Lexer) : Prop := l.ch ≠ '\n' → 1 ≤ l.column

instance (l : Lexer) : Decidable l.ColInv := by unfold Lexer.ColInv; infer_instance

theorem Lexer.colInv_readChar (l : Lexer) : l.readChar.ColInv := by
  intro h
  rcases l.readChar_column with ⟨hc, _⟩ | ⟨_, hc⟩
  · exact absurd hc h
  · omega

/-- Termination measure for the lexer's scanning loops: strictly decreases on
`readChar` whenever the character just consumed, or the character just read,
is not the end-of-input sentinel. -/
def Lexer.meas (l : Lexer) : Nat :=
  2 * (l.input.length + 1 - l.readPosition) + (if l.ch = nulChar then 0 else 1)

theorem Lexer.meas_readChar_le (l : Lexer) : l.readChar.meas ≤ l.meas := by
  unfold Lexer.meas
  rw [Lexer.readChar_input, Lexer.readChar_readPosition]
  have h1 : (if l.readChar.ch = nulChar then 0 else 1) ≤ 1 := by split <;> omega
  have h2 : (0:Nat) ≤ (if l.ch = nulChar then 0 else 1) := by omega
  rcases le_or_lt (l.input.length + 1) (l.readPosition + 1) with h | h
  · have : l.input.length + 1 - (l.readPosition + 1) = 0 := by omega
    rw [this]
    have hch : l.readChar.ch = nulChar := by
      rw [Lexer.readChar_ch]; split
      · rfl
      · omega
    simp [hch]
  · omega

theorem Lexer.meas_readChar_lt (l : Lexer)
    (h : l.ch ≠ nulChar ∨ l.readChar.ch ≠ nulChar) : l.readChar.meas < l.meas := by
  unfold Lexer.meas
  rw [Lexer.readChar_input, Lexer.readChar_readPosition]
  rcases le_or_lt (l.input.length) (l.readPosition) with hle | hlt
  · have hch : l.readChar.ch = nulChar := by
      rw [Lexer.readChar_ch]; split
      · rfl
      · omega
    have hch' : l.ch ≠ nulChar := by
      rcases h with h | h
      · exact h
      · exact absurd hch h
    have h0 : l.input.length + 1 - (l.readPosition + 1) = 0 := by omega
    rw [h0]
    simp [hch, hch']
  · have h1 : (if l.readChar.ch = nulChar then 0 else 1) ≤ 1 := by split <;> omega
    have h2 : (0:Nat) ≤ (if l.ch = nulChar then 0 else 1) := by omega
    omega

/-- A `for cond(l.ch) { l.readChar() }` scanning loop of the lexer, with an
explicit iteration bound.  `Lexer.meas` strictly decreases at every iteration
(the loop conditions all exclude the sentinel), so the bound `l.meas + 1` used
by `Lexer.scanWhile` never runs out; `Lexer.scanWhile_unfold` proves the Go
loop equation for the wrapper. -/
def Lexer.scanWhileF (cond : Char → Bool) : Nat → Lexer → Lexer
  | 0, l => l
  | fuel + 1, l => if cond l.ch then Lexer.scanWhileF cond fuel l.readChar else l

def Lexer.scanWhile (cond : Char → Bool) (l : Lexer) : Lexer :=
  Lexer.scanWhileF cond (l.meas + 1) l

/-- `skipWhitespace` (lexer.go:64-68): skip spaces, tabs and carriage returns. -/
def Lexer.skipWhitespace (l : Lexer) : Lexer :=
  l.scanWhile (fun c => c = ' ' || c = '\t' || c = '\r')

/-- The scanning loop of `readIdentifier` (lexer.go:73-75). -/
def Lexer.readIdentLoop (l : Lexer) : Lexer :=
  l.scanWhile (fun c => isLetter c || isDigit c)

/-- The Go slice `l.input[a:b]` (`a ≤ b ≤ len` in every reachable use). -/
def sliceStr (input : List Char) (a b : Nat) : String :=
  String.mk ((input.drop a).take (b - a))

/-- `readIdentifier` (lexer.go:71-77): returns the consumed slice and the
advanced lexer. -/
def Lexer.readIdentifier (l : Lexer) : String × Lexer :=
  let l' := l.readIdentLoop
  (sliceStr l.input l.position l'.position, l')

/-- The digit-scanning loops of `readNumber` (lexer.go:84-86, 92-94, 104-106). -/
def Lexer.readDigits (l : Lexer) : Lexer :=
  l.scanWhile isDigit

/-- The decimal-point stage of `readNumber` (lexer.go:89-95): after the integer
digits, a `.` followed by a digit switches to `FLOAT` and consumes the
fractional digits. -/
def Lexer.readNumberFrac (l1 : Lexer) : TokenType × Lexer :=
  if l1.ch = '.' ∧ isDigit l1.peekChar then (TokenType.FLOAT, l1.readChar.readDigits)
  else (TokenType.INT, l1)

/-- The scientific-notation stage of `readNumber` (lexer.go:98-107): an `e`/`E`,
an optional sign, then digits, switching to `FLOAT`. -/
def Lexer.readNumberExp (r : TokenType × Lexer) : TokenType × Lexer :=
  if r.2.ch = 'e' ∨ r.2.ch = 'E' then
    let la := r.2.readChar
    let lb := if la.ch = '+' ∨ la.ch = '-' then la.readChar else la
    (TokenType.FLOAT, lb.readDigits)
  else r

/-- `readNumber` (lexer.go:80-110): integer digits, then the two stages above;
the literal is the consumed slice. -/
def Lexer.readNumber (l : Lexer) : String × TokenType × Lexer :=
  let r := Lexer.readNumberExp (Lexer.readNumberFrac l.readDigits)
  (sliceStr l.input l.position r.2.position, r.1, r.2)

/-- The loop of `readString` (lexer.go:115-123), with an explicit iteration
bound (`l.meas + 1` again suffices, see `Lexer.readStringLoop_eq`): advance,
stop at the delimiter or end-of-input, skip the byte following a backslash. -/
def Lexer.readStringLoopF (delimiter : Char) : Nat → Lexer → Lexer
  | 0, l => l
  | fuel + 1, l =>
    let l1 := l.readChar
    if l1.ch = delimiter ∨ l1.ch = nulChar then l1
    else if l1.ch = '\\' then Lexer.readStringLoopF delimiter fuel l1.readChar
    else Lexer.readStringLoopF delimiter fuel l1

def Lexer.readStringLoop (delimiter : Char) (l : Lexer) : Lexer :=
  Lexer.readStringLoopF delimiter (l.meas + 1) l

/-- `readString` (lexer.go:113-125). -/
def Lexer.readString (l : Lexer) (delimiter : Char) : String × Lexer :=
  let position := l.position + 1
  let l' := Lexer.readStringLoop delimiter l
  (sliceStr l.input position l'.position, l')

/-- The loop of `readComment` (lexer.go:130-132). -/
def Lexer.readCommentLoop (l : Lexer) : Lexer :=
  l.scanWhile (fun c => !(c = '\n') && !(c = nulChar))

/-- `readComment` (lexer.go:128-134). -/
def Lexer.readComment (l : Lexer) : String × Lexer :=
  let l' := l.readCommentLoop
  (sliceStr l.input l.position l'.position, l')

/-- Reachability invariant of the lexer cursor: `readPosition` is one past
`position`, and `ch` caches the byte at `position` (the sentinel once the
input is exhausted).  `readChar` establishes it from any state, so every state
reachable from `Lexer.new` satisfies it. -/
def Lexer.WF (l : Lexer) : Prop :=
  l.readPosition = l.position + 1 ∧
  l.ch = (if l.input.length ≤ l.position then nulChar else l.input.getD l.position nulChar)

instance (l : Lexer) : Decidable l.WF := by unfold Lexer.WF; infer_instance

theorem Lexer.wf_readChar (l : Lexer) : l.readChar.WF := by
  constructor
  · rw [Lexer.readChar_readPosition, Lexer.readChar_position]
  · rw [Lexer.readChar_ch, Lexer.readChar_input, Lexer.readChar_position]

theorem Lexer.wf_new (input : String) : (Lexer.new input).WF := Lexer.wf_readChar _

/-- The facts preserved along any sequence of `readChar` steps: the input is
unchanged, the line number does not decrease, the column invariant and the
cursor invariant are preserved, and under the cursor invariant the position
does not decrease. -/
def Lexer.Invs (l l' : Lexer) : Prop :=
  l'.input = l.input ∧ l.line ≤ l'.line ∧ (l.ColInv → l'.ColInv) ∧
    (l.WF → l'.WF ∧ l.position ≤ l'.position)

theorem Lexer.invs_refl (l : Lexer) : l.Invs l :=
  ⟨rfl, le_refl _, id, fun h => ⟨h, le_refl _⟩⟩

theorem Lexer.invs_trans {a b c : Lexer} (h1 : a.Invs b) (h2 : b.Invs c) : a.Invs c := by
  obtain ⟨i1, n1, c1, w1⟩ := h1
  obtain ⟨i2, n2, c2, w2⟩ := h2
  refine ⟨i2.trans i1, n1.trans n2, fun h => c2 (c1 h), fun h => ?_⟩
  exact ⟨(w2 (w1 h).1).1, (w1 h).2.trans (w2 (w1 h).1).2⟩

theorem Lexer.invs_readChar (l : Lexer) : l.Invs l.readChar := by
  refine ⟨by simp, l.readChar_line_ge, fun _ => l.colInv_readChar, fun h => ⟨l.wf_readChar, ?_⟩⟩
  rw [Lexer.readChar_position, h.1]
  omega

theorem Lexer.readChar_position_wf (l : Lexer) (h : l.WF) :
    l.readChar.position = l.position + 1 := by
  rw [Lexer.readChar_position, h.1]

theorem Lexer.meas_zero_ch (l : Lexer) (h : l.meas = 0) : l.ch = nulChar := by
  unfold Lexer.meas at h
  by_contra hc
  simp [hc] at h

/-- The iteration bound of `scanWhileF` is irrelevant once it exceeds the
measure: any two sufficient bounds give the same result. -/
theorem Lexer.scanWhileF_congr (cond : Char → Bool) (hnul : cond nulChar = false) :
    ∀ (n m : Nat) (l : Lexer), l.meas ≤ n → l.meas ≤ m →
      Lexer.scanWhileF cond n l = Lexer.scanWhileF cond m l := by
  intro n
  induction n with
  | zero =>
    intro m l hn _
    have hch := l.meas_zero_ch (by omega)
    have hcond : cond l.ch = false := by rw [hch]; exact hnul
    cases m with
    | zero => rfl
    | succ m => rw [Lexer.scanWhileF, Lexer.scanWhileF, hcond]; simp
  | succ n ih =>
    intro m l hn hm
    cases m with
    | zero =>
      have hch := l.meas_zero_ch (by omega)
      have hcond : cond l.ch = false := by rw [hch]; exact hnul
      rw [Lexer.scanWhileF, Lexer.scanWhileF, hcond]
      simp
    | succ m =>
      rw [Lexer.scanWhileF, Lexer.scanWhileF]
      by_cases hcond : cond l.ch
      · rw [hcond]
        have hne : l.ch ≠ nulChar := fun hh => by rw [hh] at hcond; rw [hnul] at hcond; exact Bool.noConfusion hcond
        have hlt := l.meas_readChar_lt (Or.inl hne)
        exact ih m l.readChar (by omega) (by omega)
      · simp only [hcond]
        rfl

/-- The Go loop equation for `scanWhile`: run the body once while the condition
holds. -/
theorem Lexer.scanWhile_unfold (cond : Char → Bool) (hnul : cond nulChar = false) (l : Lexer) :
    l.scanWhile cond = if cond l.ch then l.readChar.scanWhile cond else l := by
  unfold Lexer.scanWhile
  rw [Lexer.scanWhileF]
  by_cases hcond : cond l.ch
  · rw [hcond]
    simp only [if_true]
    have hne : l.ch ≠ nulChar := fun hh => by rw [hh] at hcond; rw [hnul] at hcond; exact Bool.noConfusion hcond
    have hlt := l.meas_readChar_lt (Or.inl hne)
    exact Lexer.scanWhileF_congr cond hnul _ _ l.readChar (by omega) (by omega)
  · simp only [hcond]
    rfl

theorem Lexer.invs_scanWhileF (cond : Char → Bool) :
    ∀ (n : Nat) (l : Lexer), l.Invs (Lexer.scanWhileF cond n l) := by
  intro n
  induction n with
  | zero => exact fun l => l.invs_refl
  | succ n ih =>
    intro l
    rw [Lexer.scanWhileF]
    by_cases hcond : cond l.ch
    · rw [hcond]
      simp only [if_true]
      exact Lexer.invs_trans l.invs_readChar (ih l.readChar)
    · simp only [hcond]
      exact l.invs_refl

theorem Lexer.invs_scanWhile (cond : Char → Bool) (l : Lexer) : l.Invs (l.scanWhile cond) :=
  Lexer.invs_scanWhileF cond _ l

theorem Lexer.invs_skipWhitespace (l : Lexer) : l.Invs l.skipWhitespace :=
  Lexer.invs_scanWhile _ l

theorem Lexer.invs_readIdentLoop (l : Lexer) : l.Invs l.readIdentLoop :=
  Lexer.invs_scanWhile _ l

theorem Lexer.invs_readDigits (l : Lexer) : l.Invs l.readDigits :=
  Lexer.invs_scanWhile _ l

theorem Lexer.invs_readCommentLoop (l : Lexer) : l.Invs l.readCommentLoop :=
  Lexer.invs_scanWhile _ l

theorem Lexer.readStringLoopF_congr (d : Char) :
    ∀ (n m : Nat) (l : Lexer), l.meas < n → l.meas < m →
      Lexer.readStringLoopF d n l = Lexer.readStringLoopF d m l := by
  intro n
  induction n with
  | zero => intro m l hn; omega
  | succ n ih =>
    intro m l hn hm
    cases m with
    | zero => omega
    | succ m =>
      rw [Lexer.readStringLoopF, Lexer.readStringLoopF]
      by_cases h1 : l.readChar.ch = d ∨ l.readChar.ch = nulChar
      · simp only [h1, if_true]
      · simp only [h1, if_false]
        have hne : l.readChar.ch ≠ nulChar := fun hh => h1 (Or.inr hh)
        have hlt := l.meas_readChar_lt (Or.inr hne)
        by_cases h2 : l.readChar.ch = '\\'
        · simp only [h2, if_true]
          have hne2 : l.readChar.ch ≠ nulChar := hne
          have hlt2 := l.readChar.meas_readChar_lt (Or.inl hne2)
          exact ih m l.readChar.readChar (by omega) (by omega)
        · simp only [h2, if_false]
          exact ih m l.readChar (by omega) (by omega)

/-- The Go loop equation for `readStringLoop`. -/
theorem Lexer.readStringLoop_eq (d : Char) (l : Lexer) :
    Lexer.readStringLoop d l =
      (if l.readChar.ch = d ∨ l.readChar.ch = nulChar then l.readChar
       else if l.readChar.ch = '\\' then Lexer.readStringLoop d l.readChar.readChar
       else Lexer.readStringLoop d l.readChar) := by
  unfold Lexer.readStringLoop
  rw [Lexer.readStringLoopF]
  by_cases h1 : l.readChar.ch = d ∨ l.readChar.ch = nulChar
  · simp only [h1, if_true]
  · simp only [h1, if_false]
    have hne : l.readChar.ch ≠ nulChar := fun hh => h1 (Or.inr hh)
    have hlt := l.meas_readChar_lt (Or.inr hne)
    by_cases h2 : l.readChar.ch = '\\'
    · simp only [h2, if_true]
      have hlt2 := l.readChar.meas_readChar_lt (Or.inl hne)
      exact Lexer.readStringLoopF_congr d _ _ l.readChar.readChar (by omega) (by omega)
    · simp only [h2, if_false]
      exact Lexer.readStringLoopF_congr d _ _ l.readChar (by omega) (by omega)

theorem Lexer.invs_readStringLoopF (d : Char) :
    ∀ (n : Nat) (l : Lexer), l.Invs (Lexer.readStringLoopF d n l) := by
  intro n
  induction n with
  | zero => exact fun l => l.invs_refl
  | succ n ih =>
    intro l
    rw [Lexer.readStringLoopF]
    by_cases h1 : l.readChar.ch = d ∨ l.readChar.ch = nulChar
    · simp only [h1, if_true]
      exact l.invs_readChar
    · simp only [h1, if_false]
      by_cases h2 : l.readChar.ch = '\\'
      · simp only [h2, if_true]
        exact Lexer.invs_trans l.invs_readChar
          (Lexer.invs_trans l.readChar.invs_readChar (ih l.readChar.readChar))
      · simp only [h2, if_false]
        exact Lexer.invs_trans l.invs_readChar (ih l.readChar)

theorem Lexer.invs_readStringLoop (d : Char) (l : Lexer) :
    l.Invs (Lexer.readStringLoop d l) :=
  Lexer.invs_readStringLoopF d _ l

theorem Lexer.readStringLoopF_ch (d : Char) :
    ∀ (n : Nat) (l : Lexer), l.meas < n →
      ((Lexer.readStringLoopF d n l).ch = d ∨ (Lexer.readStringLoopF d n l).ch = nulChar) := by
  intro n
  induction n with
  | zero => intro l hn; omega
  | succ n ih =>
    intro l hn
    rw [Lexer.readStringLoopF]
    by_cases h1 : l.readChar.ch = d ∨ l.readChar.ch = nulChar
    · rw [if_pos h1]
      exact h1
    · rw [if_neg h1]
      have hne : l.readChar.ch ≠ nulChar := fun hh => h1 (Or.inr hh)
      have hlt := l.meas_readChar_lt (Or.inr hne)
      by_cases h2 : l.readChar.ch = '\\'
      · simp only [h2, if_true]
        have hlt2 := l.readChar.meas_readChar_lt (Or.inl hne)
        exact ih l.readChar.readChar (by omega)
      · simp only [h2, if_false]
        exact ih l.readChar (by omega)

theorem Lexer.readStringLoop_ch (d : Char) (l : Lexer) :
    (Lexer.readStringLoop d l).ch = d ∨ (Lexer.readStringLoop d l).ch = nulChar :=
  Lexer.readStringLoopF_ch d _ l (by omega)

theorem Lexer.colInv_readStringLoopF (d : Char) :
    ∀ (n : Nat) (l : Lexer), l.meas < n → (Lexer.readStringLoopF d n l).ColInv := by
  intro n
  induction n with
  | zero => intro l hn; omega
  | succ n ih =>
    intro l hn
    rw [Lexer.readStringLoopF]
    by_cases h1 : l.readChar.ch = d ∨ l.readChar.ch = nulChar
    · simp only [h1, if_true]
      exact l.colInv_readChar
    · simp only [h1, if_false]
      have hne : l.readChar.ch ≠ nulChar := fun hh => h1 (Or.inr hh)
      have hlt := l.meas_readChar_lt (Or.inr hne)
      by_cases h2 : l.readChar.ch = '\\'
      · simp only [h2, if_true]
        have hlt2 := l.readChar.meas_readChar_lt (Or.inl hne)
        exact ih l.readChar.readChar (by omega)
      · simp only [h2, if_false]
        exact ih l.readChar (by omega)

theorem Lexer.colInv_readStringLoop (d : Char) (l : Lexer) :
    (Lexer.readStringLoop d l).ColInv :=
  Lexer.colInv_readStringLoopF d _ l (by omega)

theorem Lexer.scanWhile_pos (cond : Char → Bool) (hnul : cond nulChar = false) (l : Lexer)
    (h : l.WF) (hc : cond l.ch = true) : l.position + 1 ≤ (l.scanWhile cond).position := by
  rw [Lexer.scanWhile_unfold cond hnul, hc]
  simp only [if_true]
  have h2 := (Lexer.invs_scanWhile cond l.readChar).2.2.2 l.wf_readChar
  have h3 := l.readChar_position_wf h
  omega

theorem Lexer.readIdentLoop_pos (l : Lexer) (h : l.WF)
    (hl : isLetter l.ch ∨ isDigit l.ch) : l.position + 1 ≤ l.readIdentLoop.position := by
  refine Lexer.scanWhile_pos _ (by decide) l h ?_
  rcases hl with hl | hl <;> simp [hl]

theorem Lexer.readDigits_pos (l : Lexer) (h : l.WF) (hd : isDigit l.ch) :
    l.position + 1 ≤ l.readDigits.position :=
  Lexer.scanWhile_pos _ (by decide) l h hd

theorem Lexer.readCommentLoop_pos (l : Lexer) (h : l.WF)
    (hc : l.ch ≠ '\n' ∧ l.ch ≠ nulChar) : l.position + 1 ≤ l.readCommentLoop.position := by
  refine Lexer.scanWhile_pos _ (by decide) l h ?_
  simp [hc.1, hc.2]

-- Past this point the scanning loops are only used through the lemmas above,
-- so they are made irreducible: this keeps definitional unfolding in later
-- proofs from stepping into the fueled recursion.  (Kernel evaluation of
-- closed terms, as used by `decide`, is unaffected.)
attribute [irreducible] Lexer.scanWhile Lexer.readStringLoop

theorem Lexer.invs_readNumberFrac (l1 : Lexer) : l1.Invs (Lexer.readNumberFrac l1).2 := by
  unfold Lexer.readNumberFrac
  split
  · exact Lexer.invs_trans l1.invs_readChar l1.readChar.invs_readDigits
  · exact l1.invs_refl

theorem Lexer.invs_readNumberExp (r : TokenType × Lexer) :
    r.2.Invs (Lexer.readNumberExp r).2 := by
  unfold Lexer.readNumberExp
  dsimp only
  split
  · split
    · exact Lexer.invs_trans r.2.invs_readChar
        (Lexer.invs_trans r.2.readChar.invs_readChar r.2.readChar.readChar.invs_readDigits)
    · exact Lexer.invs_trans r.2.invs_readChar r.2.readChar.invs_readDigits
  · exact r.2.invs_refl

theorem Lexer.readNumberFrac_fst (l1 : Lexer) :
    (Lexer.readNumberFrac l1).1 = TokenType.INT ∨ (Lexer.readNumberFrac l1).1 = TokenType.FLOAT := by
  unfold Lexer.readNumberFrac
  split
  · right; rfl
  · left; rfl

theorem Lexer.readNumberExp_fst (r : TokenType × Lexer) :
    (Lexer.readNumberExp r).1 = r.1 ∨ (Lexer.readNumberExp r).1 = TokenType.FLOAT := by
  unfold Lexer.readNumberExp
  dsimp only
  split
  · right; rfl
  · left; rfl

/-- The `readNumber` pipeline: invariants of the final state, and the fact that
the produced token type is `INT` or `FLOAT`. -/
theorem Lexer.readNumber_facts (l : Lexer) :
    l.Invs (l.readNumber).2.2 ∧
      ((l.readNumber).2.1 = TokenType.INT ∨ (l.readNumber).2.1 = TokenType.FLOAT) := by
  constructor
  · exact Lexer.invs_trans l.invs_readDigits
      (Lexer.invs_trans (Lexer.invs_readNumberFrac l.readDigits)
        (Lexer.invs_readNumberExp (Lexer.readNumberFrac l.readDigits)))
  · rcases Lexer.readNumberExp_fst (Lexer.readNumberFrac l.readDigits) with h | h
    · rw [show (l.readNumber).2.1 = (Lexer.readNumberExp (Lexer.readNumberFrac l.readDigits)).1 from rfl, h]
      exact Lexer.readNumberFrac_fst l.readDigits
    · right
      exact h

theorem Lexer.readNumber_pos (l : Lexer) (h : l.WF) (hd : isDigit l.ch) :
    l.position + 1 ≤ (l.readNumber).2.2.position := by
  have h1 := l.readDigits_pos h hd
  have h2 := ((Lexer.invs_readNumberFrac l.readDigits).2.2.2
    ((l.invs_readDigits).2.2.2 h).1).2
  have h3 := ((Lexer.invs_readNumberExp (Lexer.readNumberFrac l.readDigits)).2.2.2
    ((Lexer.invs_readNumberFrac l.readDigits).2.2.2 ((l.invs_readDigits).2.2.2 h).1).1).2
  calc l.position + 1 ≤ l.readDigits.position := h1
    _ ≤ (Lexer.readNumberFrac l.readDigits).2.position := h2
    _ ≤ (l.readNumber).2.2.position := h3

/-- `Keywords` (token.go:293-326). -/
def Keywords (s : String) : Option TokenType :=
  if s = "and" then some .AND
  else if s = "or" then some .OR
  else if s = "not" then some .NOT
  else if s = "if" then some .IF
  else if s = "elif" then some .ELIF
  else if s = "else" then some .ELSE
  else if s = "for" then some .FOR
  else if s = "while" then some .WHILE
  else if s = "func" then some .FUNC
  else if s = "return" then some .RETURN
  else if s = "import" then some .IMPORT
  else if s = "from" then some .FROM
  else if s = "struct" then some .STRUCT
  else if s = "interface" then some .INTERFACE
  else if s = "var" then some .VAR
  else if s = "const" then some .CONST
  else if s = "true" then some .TRUE
  else if s = "false" then some .FALSE
  else if s = "nil" then some .NIL
  else if s = "in" then some .IN
  else if s = "range" then some .RANGE
  else if s = "break" then some .BREAK
  else if s = "continue" then some .CONTINUE
  else if s = "defer" then some .DEFER
  else if s = "go" then some .GO
  else if s = "chan" then some .CHAN
  else if s = "select" then some .SELECT
  else if s = "case" then some .CASE
  else if s = "default" then some .DEFAULT
  else if s = "switch" then some .SWITCH
  else if s = "type" then some .TYPE
  else if s = "package" then some .PACKAGE
  else none

/-- `LookupIdent` (token.go:329-334). -/
def LookupIdent (ident : String) : TokenType :=
  match Keywords ident with
  | some tok => tok
  | none => TokenType.IDENT

/-- `newToken` (lexer.go:384-392). -/
def newToken (tokenType : TokenType) (ch : Char) (line column position : Nat) : Token :=
  { type_ := tokenType, Literal := String.mk [ch],
    Line := (line : Int), Column := (column : Int), Position := (position : Int) }

/-- The two-byte-operator pattern of `NextToken`: snapshot the current byte,
consume one more, and build the token with `Column`/`Position` shifted back by
one (e.g. lexer.go:196-199 for `==`). -/
def Lexer.twoChar (l : Lexer) (tt : TokenType) : Token × Lexer :=
  let c := l.ch
  let l1 := l.readChar
  ({ type_ := tt, Literal := String.mk [c, l1.ch],
     Line := (l1.line : Int), Column := (l1.column : Int) - 1,
     Position := (l1.position : Int) - 1 }, l1)

/-- A two-byte operator case followed by the final `readChar` of
lexer.go:379 (e.g. the `==` case, lexer.go:196-199). -/
def Lexer.twoCharAdv (l : Lexer) (tt : TokenType) : Token × Lexer :=
  let r := l.twoChar tt
  (r.1, r.2.readChar)

/-- A quoted-literal case (`"` at lexer.go:333-338, `'` at lexer.go:339-344),
followed by the final `readChar`. -/
def Lexer.stringToken (l : Lexer) (tt : TokenType) (delimiter : Char) : Token × Lexer :=
  let r := l.readString delimiter
  ({ type_ := tt, Literal := r.1, Line := (r.2.line : Int),
     Column := (r.2.column : Int), Position := (r.2.position : Int) }, r.2.readChar)

/-- The `#` comment case (lexer.go:345-351); it returns early, without the
final `readChar`. -/
def Lexer.commentToken (l : Lexer) : Token × Lexer :=
  let r := l.readComment
  ({ type_ := .COMMENT, Literal := r.1, Line := (r.2.line : Int),
     Column := (r.2.column : Int), Position := (r.2.position : Int) }, r.2)

/-- The identifier/keyword case (lexer.go:361-367); early return. -/
def Lexer.identToken (l : Lexer) : Token × Lexer :=
  let r := l.readIdentifier
  ({ type_ := LookupIdent r.1, Literal := r.1, Line := (r.2.line : Int),
     Column := (r.2.column : Int) - (r.1.length : Int),
     Position := (r.2.position : Int) - (r.1.length : Int) }, r.2)

/-- The number case (lexer.go:368-373); early return. -/
def Lexer.numberToken (l : Lexer) : Token × Lexer :=
  let r := l.readNumber
  ({ type_ := r.2.1, Literal := r.1, Line := (r.2.2.line : Int),
     Column := (r.2.2.column : Int) - (r.1.length : Int),
     Position := (r.2.2.position : Int) - (r.1.length : Int) }, r.2.2)

@[simp] theorem Lexer.twoCharAdv_snd (l : Lexer) (tt : TokenType) :
    (l.twoCharAdv tt).2 = l.readChar.readChar := rfl

@[simp] theorem Lexer.twoCharAdv_type (l : Lexer) (tt : TokenType) :
    (l.twoCharAdv tt).1.type_ = tt := rfl

@[simp] theorem Lexer.twoCharAdv_Line (l : Lexer) (tt : TokenType) :
    (l.twoCharAdv tt).1.Line = (l.readChar.line : Int) := rfl

@[simp] theorem Lexer.twoCharAdv_Column (l : Lexer) (tt : TokenType) :
    (l.twoCharAdv tt).1.Column = (l.readChar.column : Int) - 1 := rfl

@[simp] theorem Lexer.stringToken_snd (l : Lexer) (tt : TokenType) (d : Char) :
    (l.stringToken tt d).2 = (Lexer.readStringLoop d l).readChar := rfl

@[simp] theorem Lexer.stringToken_type (l : Lexer) (tt : TokenType) (d : Char) :
    (l.stringToken tt d).1.type_ = tt := rfl

@[simp] theorem Lexer.stringToken_Line (l : Lexer) (tt : TokenType) (d : Char) :
    (l.stringToken tt d).1.Line = ((Lexer.readStringLoop d l).line : Int) := rfl

@[simp] theorem Lexer.stringToken_Column (l : Lexer) (tt : TokenType) (d : Char) :
    (l.stringToken tt d).1.Column = ((Lexer.readStringLoop d l).column : Int) := rfl

@[simp] theorem Lexer.commentToken_snd (l : Lexer) : (l.commentToken).2 = l.readCommentLoop := rfl

@[simp] theorem Lexer.commentToken_type (l : Lexer) : (l.commentToken).1.type_ = .COMMENT := rfl

@[simp] theorem Lexer.commentToken_Line (l : Lexer) :
    (l.commentToken).1.Line = (l.readCommentLoop.line : Int) := rfl

@[simp] theorem Lexer.identToken_snd (l : Lexer) : (l.identToken).2 = l.readIdentLoop := rfl

@[simp] theorem Lexer.identToken_type (l : Lexer) :
    (l.identToken).1.type_ = LookupIdent (l.readIdentifier).1 := rfl

@[simp] theorem Lexer.identToken_Line (l : Lexer) :
    (l.identToken).1.Line = (l.readIdentLoop.line : Int) := rfl

@[simp] theorem Lexer.numberToken_snd (l : Lexer) : (l.numberToken).2 = (l.readNumber).2.2 := rfl

@[simp] theorem Lexer.numberToken_type (l : Lexer) :
    (l.numberToken).1.type_ = (l.readNumber).2.1 := rfl

@[simp] theorem Lexer.numberToken_Line (l : Lexer) :
    (l.numberToken).1.Line = ((l.readNumber).2.2.line : Int) := rfl

@[simp] theorem newToken_type (tt : TokenType) (c : Char) (li co po : Nat) :
    (newToken tt c li co po).type_ = tt := rfl

@[simp] theorem newToken_Line (tt : TokenType) (c : Char) (li co po : Nat) :
    (newToken tt c li co po).Line = (li : Int) := rfl

@[simp] theorem newToken_Column (tt : TokenType) (c : Char) (li co po : Nat) :
    (newToken tt c li co po).Column = (co : Int) := rfl

/-- The `case '='` block of `NextToken` (lexer.go:195-202). -/
def Lexer.caseEq (l : Lexer) : Token × Lexer :=
  if l.peekChar = '=' then l.twoCharAdv .EQ
  else (newToken .ASSIGN l.ch l.line l.column l.position, l.readChar)

/-- The `case '+'` block (lexer.go:203-214). -/
def Lexer.casePlus (l : Lexer) : Token × Lexer :=
  if l.peekChar = '=' then l.twoCharAdv .PLUS_EQ
  else if l.peekChar = '+' then l.twoCharAdv .INCREMENT
  else (newToken .PLUS l.ch l.line l.column l.position, l.readChar)

/-- The `case '-'` block (lexer.go:215-230). -/
def Lexer.caseMinus (l : Lexer) : Token × Lexer :=
  if l.peekChar = '=' then l.twoCharAdv .MINUS_EQ
  else if l.peekChar = '-' then l.twoCharAdv .DECREMENT
  else if l.peekChar = '>' then l.twoCharAdv .ARROW
  else (newToken .MINUS l.ch l.line l.column l.position, l.readChar)

/-- The `case '*'` block (lexer.go:231-242). -/
def Lexer.caseMult (l : Lexer) : Token × Lexer :=
  if l.peekChar = '=' then l.twoCharAdv .MULT_EQ
  else if l.peekChar = '*' then l.twoCharAdv .POWER
  else (newToken .MULTIPLY l.ch l.line l.column l.position, l.readChar)

/-- The `case '/'` block (lexer.go:243-250). -/
def Lexer.caseDiv (l : Lexer) : Token × Lexer :=
  if l.peekChar = '=' then l.twoCharAdv .DIV_EQ
  else (newToken .DIVIDE l.ch l.line l.column l.position, l.readChar)

/-- The `case '%'` block (lexer.go:251-258). -/
def Lexer.caseMod (l : Lexer) : Token × Lexer :=
  if l.peekChar = '=' then l.twoCharAdv .MOD_EQ
  else (newToken .MODULO l.ch l.line l.column l.position, l.readChar)

/-- The `case '!'` block (lexer.go:259-266). -/
def Lexer.caseBang (l : Lexer) : Token × Lexer :=
  if l.peekChar = '=' then l.twoCharAdv .NOT_EQ
  else (newToken .ILLEGAL l.ch l.line l.column l.position, l.readChar)

/-- The `case '<'` block (lexer.go:267-282). -/
def Lexer.caseLt (l : Lexer) : Token × Lexer :=
  if l.peekChar = '=' then l.twoCharAdv .LT_EQ
  else if l.peekChar = '<' then l.twoCharAdv .LEFT_SHIFT
  else if l.peekChar = '-' then l.twoCharAdv .CHANNEL
  else (newToken .LT l.ch l.line l.column l.position, l.readChar)

/-- The `case '>'` block (lexer.go:283-294). -/
def Lexer.caseGt (l : Lexer) : Token × Lexer :=
  if l.peekChar = '=' then l.twoCharAdv .GT_EQ
  else if l.peekChar = '>' then l.twoCharAdv .RIGHT_SHIFT
  else (newToken .GT l.ch l.line l.column l.position, l.readChar)

/-- The `case '&'` block (lexer.go:295-302). -/
def Lexer.caseAmp (l : Lexer) : Token × Lexer :=
  if l.peekChar = '^' then l.twoCharAdv .BIT_CLEAR
  else (newToken .BITWISE_AND l.ch l.line l.column l.position, l.readChar)

/-- The `case ':'` block (lexer.go:307-314). -/
def Lexer.caseColon (l : Lexer) : Token × Lexer :=
  if l.peekChar = '=' then l.twoCharAdv .WALRUS
  else (newToken .COLON l.ch l.line l.column l.position, l.readChar)

/-- The `default` block (lexer.go:360-376). -/
def Lexer.caseDefault (l : Lexer) : Token × Lexer :=
  if isLetter l.ch then l.identToken
  else if isDigit l.ch then l.numberToken
  else (newToken .ILLEGAL l.ch l.line l.column l.position, l.readChar)

/-- The `switch l.ch` dispatch of `NextToken` (lexer.go:194-377), applied to the
state left by `skipWhitespace`; a Go `switch` over values is a first-match
if-chain, and each compound `case` block is the correspondingly named
definition above.  Branches marked "Don't advance" in the Go source do not
perform the final `readChar` (lexer.go:379); all other branches do. -/
def Lexer.dispatchToken (l : Lexer) : Token × Lexer :=
  if l.ch = '=' then l.caseEq
  else if l.ch = '+' then l.casePlus
  else if l.ch = '-' then l.caseMinus
  else if l.ch = '*' then l.caseMult
  else if l.ch = '/' then l.caseDiv
  else if l.ch = '%' then l.caseMod
  else if l.ch = '!' then l.caseBang
  else if l.ch = '<' then l.caseLt
  else if l.ch = '>' then l.caseGt
  else if l.ch = '&' then l.caseAmp
  else if l.ch = '|' then (newToken .BITWISE_OR l.ch l.line l.column l.position, l.readChar)
  else if l.ch = '^' then (newToken .BITWISE_XOR l.ch l.line l.column l.position, l.readChar)
  else if l.ch = ':' then l.caseColon
  else if l.ch = ';' then (newToken .SEMICOLON l.ch l.line l.column l.position, l.readChar)
  else if l.ch = ',' then (newToken .COMMA l.ch l.line l.column l.position, l.readChar)
  else if l.ch = '.' then (newToken .DOT l.ch l.line l.column l.position, l.readChar)
  else if l.ch = '(' then (newToken .LPAREN l.ch l.line l.column l.position, l.readChar)
  else if l.ch = ')' then (newToken .RPAREN l.ch l.line l.column l.position, l.readChar)
  else if l.ch = '[' then (newToken .LBRACKET l.ch l.line l.column l.position, l.readChar)
  else if l.ch = ']' then (newToken .RBRACKET l.ch l.line l.column l.position, l.readChar)
  else if l.ch = '{' then (newToken .LBRACE l.ch l.line l.column l.position, l.readChar)
  else if l.ch = '}' then (newToken .RBRACE l.ch l.line l.column l.position, l.readChar)
  else if l.ch = '"' then l.stringToken .STRING '"'
  else if l.ch = '\'' then l.stringToken .CHAR '\''
  else if l.ch = '#' then l.commentToken
  else if l.ch = '\n' then (newToken .NEWLINE l.ch l.line l.column l.position, l.readChar)
  else if l.ch = nulChar then
    ({ type_ := .EOF, Literal := "", Line := (l.line : Int),
       Column := (l.column : Int), Position := (l.position : Int) }, l.readChar)
  else l.caseDefault

/-- `NextToken` (lexer.go:186-381): skip horizontal whitespace, then dispatch on
the current byte. -/
def Lexer.NextToken (l0 : Lexer) : Token × Lexer :=
  (l0.skipWhitespace).dispatchToken

/-- Case-analysis helper for the two-byte-operator compound cases. -/
theorem Lexer.twoCase_cases (l : Lexer) (motive : Token × Lexer → Prop)
    (htwo : ∀ tt : TokenType, l.readChar.ch ≠ '\n' → motive (l.twoCharAdv tt))
    (hone : ∀ tt : TokenType, motive (newToken tt l.ch l.line l.column l.position, l.readChar))
    (tt1 tt2 : TokenType) (pk : Char) (hpk : pk ≠ '\n') :
    motive (if l.peekChar = pk then l.twoCharAdv tt1
            else (newToken tt2 l.ch l.line l.column l.position, l.readChar)) := by
  split_ifs with hp
  · exact htwo tt1 (by rw [Lexer.readChar_ch_eq_peekChar, hp]; exact hpk)
  · exact hone tt2

set_option maxHeartbeats 1000000 in
/-- Case-analysis principle for `dispatchToken`: every branch is a two-byte
operator token, a single-byte token built at the current byte, a quoted
literal, a comment, the newline token, the end-of-file token, an identifier
scan, or a number scan, with the indicated facts about the current byte. -/
theorem Lexer.dispatchToken_cases (l : Lexer) (motive : Token × Lexer → Prop)
    (htwo : ∀ tt : TokenType, l.ch ≠ '\n' → l.readChar.ch ≠ '\n' → motive (l.twoCharAdv tt))
    (hone : ∀ tt : TokenType, l.ch ≠ '\n' →
      motive (newToken tt l.ch l.line l.column l.position, l.readChar))
    (hstr : ∀ (tt : TokenType) (d : Char), d ≠ '\n' → motive (l.stringToken tt d))
    (hcom : l.ch = '#' → motive l.commentToken)
    (hnl : l.ch = '\n' → motive (newToken .NEWLINE l.ch l.line l.column l.position, l.readChar))
    (heof : l.ch = nulChar →
      motive ({ type_ := .EOF, Literal := "", Line := (l.line : Int),
                Column := (l.column : Int), Position := (l.position : Int) }, l.readChar))
    (hid : isLetter l.ch = true → motive l.identToken)
    (hnum : isDigit l.ch = true → motive l.numberToken) :
    motive l.dispatchToken := by
  have tc : ∀ (hch : l.ch ≠ '\n') (tt1 tt2 : TokenType) (pk : Char), pk ≠ '\n' →
      motive (if l.peekChar = pk then l.twoCharAdv tt1
              else (newToken tt2 l.ch l.line l.column l.position, l.readChar)) :=
    fun hch => l.twoCase_cases motive (fun tt h => htwo tt hch h) (fun tt => hone tt hch)
  rw [Lexer.dispatchToken]
  by_cases c1 : l.ch = '='
  · rw [if_pos c1]
    have hch : l.ch ≠ '\n' := by rw [c1]; decide
    unfold Lexer.caseEq
    exact tc hch _ _ '=' (by decide)
  rw [if_neg c1]
  by_cases c2 : l.ch = '+'
  · rw [if_pos c2]
    have hch : l.ch ≠ '\n' := by rw [c2]; decide
    unfold Lexer.casePlus
    split_ifs with hp hp2
    · exact htwo _ hch (by rw [Lexer.readChar_ch_eq_peekChar, hp]; decide)
    · exact htwo _ hch (by rw [Lexer.readChar_ch_eq_peekChar, hp2]; decide)
    · exact hone _ hch
  rw [if_neg c2]
  by_cases c3 : l.ch = '-'
  · rw [if_pos c3]
    have hch : l.ch ≠ '\n' := by rw [c3]; decide
    unfold Lexer.caseMinus
    split_ifs with hp hp2 hp3
    · exact htwo _ hch (by rw [Lexer.readChar_ch_eq_peekChar, hp]; decide)
    · exact htwo _ hch (by rw [Lexer.readChar_ch_eq_peekChar, hp2]; decide)
    · exact htwo _ hch (by rw [Lexer.readChar_ch_eq_peekChar, hp3]; decide)
    · exact hone _ hch
  rw [if_neg c3]
  by_cases c4 : l.ch = '*'
  · rw [if_pos c4]
    have hch : l.ch ≠ '\n' := by rw [c4]; decide
    unfold Lexer.caseMult
    split_ifs with hp hp2
    · exact htwo _ hch (by rw [Lexer.readChar_ch_eq_peekChar, hp]; decide)
    · exact htwo _ hch (by rw [Lexer.readChar_ch_eq_peekChar, hp2]; decide)
    · exact hone _ hch
  rw [if_neg c4]
  by_cases c5 : l.ch = '/'
  · rw [if_pos c5]
    have hch : l.ch ≠ '\n' := by rw [c5]; decide
    unfold Lexer.caseDiv
    exact tc hch _ _ '=' (by decide)
  rw [if_neg c5]
  by_cases c6 : l.ch = '%'
  · rw [if_pos c6]
    have hch : l.ch ≠ '\n' := by rw [c6]; decide
    unfold Lexer.caseMod
    exact tc hch _ _ '=' (by decide)
  rw [if_neg c6]
  by_cases c7 : l.ch = '!'
  · rw [if_pos c7]
    have hch : l.ch ≠ '\n' := by rw [c7]; decide
    unfold Lexer.caseBang
    exact tc hch _ _ '=' (by decide)
  rw [if_neg c7]
  by_cases c8 : l.ch = '<'
  · rw [if_pos c8]
    have hch : l.ch ≠ '\n' := by rw [c8]; decide
    unfold Lexer.caseLt
    split_ifs with hp hp2 hp3
    · exact htwo _ hch (by rw [Lexer.readChar_ch_eq_peekChar, hp]; decide)
    · exact htwo _ hch (by rw [Lexer.readChar_ch_eq_peekChar, hp2]; decide)
    · exact htwo _ hch (by rw [Lexer.readChar_ch_eq_peekChar, hp3]; decide)
    · exact hone _ hch
  rw [if_neg c8]
  by_cases c9 : l.ch = '>'
  · rw [if_pos c9]
    have hch : l.ch ≠ '\n' := by rw [c9]; decide
    unfold Lexer.caseGt
    split_ifs with hp hp2
    · exact htwo _ hch (by rw [Lexer.readChar_ch_eq_peekChar, hp]; decide)
    · exact htwo _ hch (by rw [Lexer.readChar_ch_eq_peekChar, hp2]; decide)
    · exact hone _ hch
  rw [if_neg c9]
  by_cases c10 : l.ch = '&'
  · rw [if_pos c10]
    have hch : l.ch ≠ '\n' := by rw [c10]; decide
    unfold Lexer.caseAmp
    split_ifs with hp
    · exact htwo _ hch (by rw [Lexer.readChar_ch_eq_peekChar, hp]; decide)
    · exact hone _ hch
  rw [if_neg c10]
  by_cases c11 : l.ch = '|'
  · rw [if_pos c11]
    exact hone _ (by rw [c11]; decide)
  rw [if_neg c11]
  by_cases c12 : l.ch = '^'
  · rw [if_pos c12]
    exact hone _ (by rw [c12]; decide)
  rw [if_neg c12]
  by_cases c13 : l.ch = ':'
  · rw [if_pos c13]
    have hch : l.ch ≠ '\n' := by rw [c13]; decide
    unfold Lexer.caseColon
    exact tc hch _ _ '=' (by decide)
  rw [if_neg c13]
  by_cases c14 : l.ch = ';'
  · rw [if_pos c14]
    exact hone _ (by rw [c14]; decide)
  rw [if_neg c14]
  by_cases c15 : l.ch = ','
  · rw [if_pos c15]
    exact hone _ (by rw [c15]; decide)
  rw [if_neg c15]
  by_cases c16 : l.ch = '.'
  · rw [if_pos c16]
    exact hone _ (by rw [c16]; decide)
  rw [if_neg c16]
  by_cases c17 : l.ch = '('
  · rw [if_pos c17]
    exact hone _ (by rw [c17]; decide)
  rw [if_neg c17]
  by_cases c18 : l.ch = ')'
  · rw [if_pos c18]
    exact hone _ (by rw [c18]; decide)
  rw [if_neg c18]
  by_cases c19 : l.ch = '['
  · rw [if_pos c19]
    exact hone _ (by rw [c19]; decide)
  rw [if_neg c19]
  by_cases c20 : l.ch = ']'
  · rw [if_pos c20]
    exact hone _ (by rw [c20]; decide)
  rw [if_neg c20]
  by_cases c21 : l.ch = '{'
  · rw [if_pos c21]
    exact hone _ (by rw [c21]; decide)
  rw [if_neg c21]
  by_cases c22 : l.ch = '}'
  · rw [if_pos c22]
    exact hone _ (by rw [c22]; decide)
  rw [if_neg c22]
  by_cases c23 : l.ch = '"'
  · rw [if_pos c23]
    exact hstr _ _ (by decide)
  rw [if_neg c23]
  by_cases c24 : l.ch = '\''
  · rw [if_pos c24]
    exact hstr _ _ (by decide)
  rw [if_neg c24]
  by_cases c25 : l.ch = '#'
  · rw [if_pos c25]
    exact hcom c25
  rw [if_neg c25]
  by_cases c26 : l.ch = '\n'
  · rw [if_pos c26]
    exact hnl c26
  rw [if_neg c26]
  by_cases c27 : l.ch = nulChar
  · rw [if_pos c27]
    exact heof c27
  rw [if_neg c27]
  unfold Lexer.caseDefault
  split_ifs with hl hd
  · exact hid hl
  · exact hnum hd
  · exact hone _ c26

theorem Lexer.pos_step1 (l : Lexer) (h : l.WF) : l.position + 1 ≤ l.readChar.position :=
  le_of_eq (l.readChar_position_wf h).symm

theorem Lexer.pos_step2 (l : Lexer) (h : l.WF) : l.position + 1 ≤ l.readChar.readChar.position := by
  have h1 := l.readChar_position_wf h
  have h2 := l.readChar.readChar_position_wf l.wf_readChar
  omega

theorem Lexer.pos_string (l : Lexer) (h : l.WF) (d : Char) :
    l.position + 1 ≤ (Lexer.readStringLoop d l).readChar.position := by
  have h1 := (Lexer.invs_readStringLoop d l).2.2.2 h
  have h2 := (Lexer.readStringLoop d l).readChar_position_wf h1.1
  have h3 := h1.2
  omega

/-- Every branch of the dispatch preserves the input, is monotone in line and
position, and preserves the column and cursor invariants. -/
theorem Lexer.dispatch_snd_invs (l : Lexer) : l.Invs (l.dispatchToken).2 := by
  refine l.dispatchToken_cases (fun r => l.Invs r.2) ?_ ?_ ?_ ?_ ?_ ?_ ?_ ?_
  · intro tt _ _
    rw [Lexer.twoCharAdv_snd]
    exact Lexer.invs_trans l.invs_readChar l.readChar.invs_readChar
  · intro tt _
    exact l.invs_readChar
  · intro tt d _
    rw [Lexer.stringToken_snd]
    exact Lexer.invs_trans (Lexer.invs_readStringLoop _ l) (Lexer.invs_readChar _)
  · intro _
    rw [Lexer.commentToken_snd]
    exact l.invs_readCommentLoop
  · intro _
    exact l.invs_readChar
  · intro _
    exact l.invs_readChar
  · intro _
    rw [Lexer.identToken_snd]
    exact l.invs_readIdentLoop
  · intro _
    rw [Lexer.numberToken_snd]
    exact (Lexer.readNumber_facts l).1

/-- Every branch of the dispatch advances `position` by at least one (under the
cursor invariant): each branch either ends in the final `readChar` or performed
a scan of at least one byte. -/
theorem Lexer.dispatch_pos (l : Lexer) (h : l.WF) :
    l.position + 1 ≤ (l.dispatchToken).2.position := by
  refine l.dispatchToken_cases (fun r => l.position + 1 ≤ r.2.position) ?_ ?_ ?_ ?_ ?_ ?_ ?_ ?_
  · intro tt _ _
    rw [Lexer.twoCharAdv_snd]
    exact l.pos_step2 h
  · intro tt _
    exact l.pos_step1 h
  · intro tt d _
    rw [Lexer.stringToken_snd]
    exact l.pos_string h d
  · intro hc
    rw [Lexer.commentToken_snd]
    exact l.readCommentLoop_pos h (by rw [hc]; exact ⟨by decide, by decide⟩)
  · intro _
    exact l.pos_step1 h
  · intro _
    exact l.pos_step1 h
  · intro hl
    rw [Lexer.identToken_snd]
    exact l.readIdentLoop_pos h (Or.inl hl)
  · intro hd
    rw [Lexer.numberToken_snd]
    exact l.readNumber_pos h hd

/-- At the sentinel character, the dispatch produces exactly the end-of-file
token of lexer.go:354-359 and performs the final `readChar`. -/
theorem Lexer.dispatch_atEnd (l : Lexer) (hch : l.ch = nulChar) :
    l.dispatchToken =
      ({ type_ := .EOF, Literal := "", Line := (l.line : Int),
         Column := (l.column : Int), Position := (l.position : Int) }, l.readChar) := by
  rw [Lexer.dispatchToken]
  rw [if_neg (by rw [hch]; decide), if_neg (by rw [hch]; decide), if_neg (by rw [hch]; decide),
    if_neg (by rw [hch]; decide), if_neg (by rw [hch]; decide), if_neg (by rw [hch]; decide),
    if_neg (by rw [hch]; decide), if_neg (by rw [hch]; decide), if_neg (by rw [hch]; decide),
    if_neg (by rw [hch]; decide), if_neg (by rw [hch]; decide), if_neg (by rw [hch]; decide),
    if_neg (by rw [hch]; decide), if_neg (by rw [hch]; decide), if_neg (by rw [hch]; decide),
    if_neg (by rw [hch]; decide), if_neg (by rw [hch]; decide), if_neg (by rw [hch]; decide),
    if_neg (by rw [hch]; decide), if_neg (by rw [hch]; decide), if_neg (by rw [hch]; decide),
    if_neg (by rw [hch]; decide), if_neg (by rw [hch]; decide), if_neg (by rw [hch]; decide),
    if_neg (by rw [hch]; decide), if_neg (by rw [hch]; decide), if_pos hch]

theorem Lexer.skipWhitespace_eq_self (l : Lexer)
    (h : ¬(l.ch = ' ' ∨ l.ch = '\t' ∨ l.ch = '\r')) : l.skipWhitespace = l := by
  unfold Lexer.skipWhitespace
  rw [Lexer.scanWhile_unfold _ (by decide) l]
  have hc : ¬((l.ch = ' ' || l.ch = '\t' || l.ch = '\r') = true) := by
    simp only [Bool.or_eq_true, decide_eq_true_eq]
    tauto
  rw [if_neg hc]

theorem Lexer.NextToken_snd_invs (l : Lexer) : l.Invs (l.NextToken).2 :=
  Lexer.invs_trans l.invs_skipWhitespace (Lexer.dispatch_snd_invs _)

theorem Lexer.NextToken_pos (l : Lexer) (h : l.WF) :
    l.position + 1 ≤ (l.NextToken).2.position := by
  have h1 := (l.invs_skipWhitespace).2.2.2 h
  have h2 := Lexer.dispatch_pos l.skipWhitespace h1.1
  unfold Lexer.NextToken
  omega

/-- Once the input is consumed (`position ≥ length`), `NextToken` returns the
end-of-file token built at the current line/column/position and merely advances
the cursor past the sentinel. -/
theorem Lexer.NextToken_atEnd (l : Lexer) (hwf : l.WF) (hend : l.input.length ≤ l.position) :
    l.NextToken =
      ({ type_ := .EOF, Literal := "", Line := (l.line : Int),
         Column := (l.column : Int), Position := (l.position : Int) }, l.readChar) := by
  have hch : l.ch = nulChar := by rw [hwf.2, if_pos hend]
  unfold Lexer.NextToken
  rw [Lexer.skipWhitespace_eq_self l (by rw [hch]; decide), Lexer.dispatch_atEnd l hch]

/-- The lexer state after `n` calls to `NextToken` on a fresh lexer. -/
def lexStateAfter (input : String) : Nat → Lexer
  | 0 => Lexer.new input
  | n + 1 => ((lexStateAfter input n).NextToken).2

/-- The `n`-th token (0-based) returned by repeated `NextToken` calls. -/
def tokenAt (input : String) (n : Nat) : Token :=
  ((lexStateAfter input n).NextToken).1

theorem wf_lexStateAfter (input : String) (n : Nat) : (lexStateAfter input n).WF := by
  induction n with
  | zero => exact Lexer.wf_new input
  | succ n ih => exact (((lexStateAfter input n).NextToken_snd_invs).2.2.2 ih).1

theorem input_lexStateAfter (input : String) (n : Nat) :
    (lexStateAfter input n).input = input.toList := by
  induction n with
  | zero =>
    show (Lexer.readChar _).input = input.toList
    rw [Lexer.readChar_input]
  | succ n ih =>
    show ((lexStateAfter input n).NextToken).2.input = input.toList
    rw [((lexStateAfter input n).NextToken_snd_invs).1, ih]

theorem pos_lexStateAfter (input : String) (n : Nat) : n ≤ (lexStateAfter input n).position := by
  induction n with
  | zero => omega
  | succ n ih =>
    have h := (lexStateAfter input n).NextToken_pos (wf_lexStateAfter input n)
    show n + 1 ≤ ((lexStateAfter input n).NextToken).2.position
    omega

theorem colInv_lexStateAfter (input : String) (n : Nat) : (lexStateAfter input n).ColInv := by
  induction n with
  | zero => exact Lexer.colInv_readChar _
  | succ n ih => exact ((lexStateAfter input n).NextToken_snd_invs).2.2.1 ih

theorem line_lexStateAfter (input : String) (n : Nat) : 1 ≤ (lexStateAfter input n).line := by
  induction n with
  | zero =>
    have h := Lexer.readChar_line_ge
      { input := input.toList, position := 0, readPosition := 0, ch := nulChar,
        line := 1, column := 0, indentStack := [0] }
    exact h
  | succ n ih => exact le_trans ih ((lexStateAfter input n).NextToken_snd_invs).2.1

/-- Once the cursor has passed the end of the input, the next call returns an
end-of-file token and the input stays consumed. -/
theorem consumed_step (input : String) (n : Nat)
    (h : (lexStateAfter input n).input.length ≤ (lexStateAfter input n).position) :
    (tokenAt input n).type_ = TokenType.EOF ∧
      (lexStateAfter input (n + 1)).input.length ≤ (lexStateAfter input (n + 1)).position := by
  have hwf := wf_lexStateAfter input n
  have hAtEnd := (lexStateAfter input n).NextToken_atEnd hwf h
  constructor
  · unfold tokenAt
    rw [hAtEnd]
  · show ((lexStateAfter input n).NextToken).2.input.length ≤
      ((lexStateAfter input n).NextToken).2.position
    rw [hAtEnd]
    rw [Lexer.readChar_input, Lexer.readChar_position, hwf.1]
    omega

theorem consumed_mono (input : String) (n m : Nat)
    (h : (lexStateAfter input n).input.length ≤ (lexStateAfter input n).position)
    (hnm : n ≤ m) :
    (lexStateAfter input m).input.length ≤ (lexStateAfter input m).position := by
  induction m, hnm using Nat.le_induction with
  | base => exact h
  | succ m hnm ih => exact (consumed_step input m ih).2

/-- **C5**: for every input string, once the lexer has consumed the whole input
(its cursor has reached or passed the end, so the current character is the
sentinel), every subsequent call to `NextToken` returns a token of
end-of-file kind, indefinitely.  The embedding is total, so no exception or
panic is possible on any call. -/
theorem claim_C5_eof_forever (input : String) (n m : Nat)
    (hconsumed : (lexStateAfter input n).input.length ≤ (lexStateAfter input n).position)
    (hnm : n ≤ m) : (tokenAt input m).type_ = TokenType.EOF :=
  (consumed_step input m (consumed_mono input n m hconsumed hnm)).1

theorem claim_C5_witness :
    (lexStateAfter "x" 1).input.length ≤ (lexStateAfter "x" 1).position ∧
      (tokenAt "x" 3).type_ = TokenType.EOF :=
  ⟨by with_unfolding_all decide,
   claim_C5_eof_forever "x" 1 3 (by with_unfolding_all decide) (by omega)⟩

/-- **C6**: lexing `"42"` yields exactly one token, of integer kind with
literal text `"42"` (the next token is end-of-file); lexing `"3.14"`,
`"1.5e10"` and `"2.5E-3"` each yield exactly one token, of float kind, whose
literal text equals the input verbatim. -/
theorem claim_C6_literal_fidelity :
    ((tokenAt "42" 0).type_ = TokenType.INT ∧ (tokenAt "42" 0).Literal = "42" ∧
      (tokenAt "42" 1).type_ = TokenType.EOF) ∧
    ((tokenAt "3.14" 0).type_ = TokenType.FLOAT ∧ (tokenAt "3.14" 0).Literal = "3.14" ∧
      (tokenAt "3.14" 1).type_ = TokenType.EOF) ∧
    ((tokenAt "1.5e10" 0).type_ = TokenType.FLOAT ∧ (tokenAt "1.5e10" 0).Literal = "1.5e10" ∧
      (tokenAt "1.5e10" 1).type_ = TokenType.EOF) ∧
    ((tokenAt "2.5E-3" 0).type_ = TokenType.FLOAT ∧ (tokenAt "2.5E-3" 0).Literal = "2.5E-3" ∧
      (tokenAt "2.5E-3" 1).type_ = TokenType.EOF) := by
  with_unfolding_all decide

/-- **C10**: a `NextToken` call on a lexer whose current character is not the
end-of-input sentinel advances the position by at least one (in fact every
call does, under the cursor invariant); consequently only finitely many
non-EOF tokens are produced: from the `n`-th call on, where `n` is the input
length, every token is of end-of-file kind. -/
theorem claim_C10_progress :
    (∀ l : Lexer, l.WF → l.ch ≠ nulChar → l.position + 1 ≤ (l.NextToken).2.position) ∧
    (∀ (input : String) (n : Nat), input.toList.length ≤ n →
      (tokenAt input n).type_ = TokenType.EOF) := by
  constructor
  · intro l hwf _
    exact l.NextToken_pos hwf
  · intro input n hn
    have h1 := pos_lexStateAfter input n
    have h2 := input_lexStateAfter input n
    refine (consumed_step input n ?_).1
    rw [h2]
    omega

theorem claim_C10_witness :
    ((Lexer.new "ab").position + 1 ≤ ((Lexer.new "ab").NextToken).2.position) ∧
      (tokenAt "ab" 2).type_ = TokenType.EOF :=
  ⟨claim_C10_progress.1 (Lexer.new "ab") (by with_unfolding_all decide)
      (by with_unfolding_all decide),
   claim_C10_progress.2 "ab" 2 (by decide)⟩

/-- The token types produced by the identifier/keyword scan (`LookupIdent`):
`IDENT` and every keyword kind. -/
def identLikeType (t : TokenType) : Bool :=
  match t with
  | .IDENT | .AND | .OR | .NOT | .IF | .ELIF | .ELSE | .FOR | .WHILE | .FUNC
  | .RETURN | .IMPORT | .FROM | .STRUCT | .INTERFACE | .VAR | .CONST | .TRUE
  | .FALSE | .NIL | .IN | .RANGE | .BREAK | .CONTINUE | .DEFER | .GO | .CHAN
  | .SELECT | .CASE | .DEFAULT | .SWITCH | .TYPE | .PACKAGE => true
  | _ => false

theorem lookupIdent_identLike (s : String) : identLikeType (LookupIdent s) = true := by
  unfold LookupIdent Keywords
  by_cases h1 : s = "and"
  · rw [if_pos h1]; rfl
  rw [if_neg h1]
  by_cases h2 : s = "or"
  · rw [if_pos h2]; rfl
  rw [if_neg h2]
  by_cases h3 : s = "not"
  · rw [if_pos h3]; rfl
  rw [if_neg h3]
  by_cases h4 : s = "if"
  · rw [if_pos h4]; rfl
  rw [if_neg h4]
  by_cases h5 : s = "elif"
  · rw [if_pos h5]; rfl
  rw [if_neg h5]
  by_cases h6 : s = "else"
  · rw [if_pos h6]; rfl
  rw [if_neg h6]
  by_cases h7 : s = "for"
  · rw [if_pos h7]; rfl
  rw [if_neg h7]
  by_cases h8 : s = "while"
  · rw [if_pos h8]; rfl
  rw [if_neg h8]
  by_cases h9 : s = "func"
  · rw [if_pos h9]; rfl
  rw [if_neg h9]
  by_cases h10 : s = "return"
  · rw [if_pos h10]; rfl
  rw [if_neg h10]
  by_cases h11 : s = "import"
  · rw [if_pos h11]; rfl
  rw [if_neg h11]
  by_cases h12 : s = "from"
  · rw [if_pos h12]; rfl
  rw [if_neg h12]
  by_cases h13 : s = "struct"
  · rw [if_pos h13]; rfl
  rw [if_neg h13]
  by_cases h14 : s = "interface"
  · rw [if_pos h14]; rfl
  rw [if_neg h14]
  by_cases h15 : s = "var"
  · rw [if_pos h15]; rfl
  rw [if_neg h15]
  by_cases h16 : s = "const"
  · rw [if_pos h16]; rfl
  rw [if_neg h16]
  by_cases h17 : s = "true"
  · rw [if_pos h17]; rfl
  rw [if_neg h17]
  by_cases h18 : s = "false"
  · rw [if_pos h18]; rfl
  rw [if_neg h18]
  by_cases h19 : s = "nil"
  · rw [if_pos h19]; rfl
  rw [if_neg h19]
  by_cases h20 : s = "in"
  · rw [if_pos h20]; rfl
  rw [if_neg h20]
  by_cases h21 : s = "range"
  · rw [if_pos h21]; rfl
  rw [if_neg h21]
  by_cases h22 : s = "break"
  · rw [if_pos h22]; rfl
  rw [if_neg h22]
  by_cases h23 : s = "continue"
  · rw [if_pos h23]; rfl
  rw [if_neg h23]
  by_cases h24 : s = "defer"
  · rw [if_pos h24]; rfl
  rw [if_neg h24]
  by_cases h25 : s = "go"
  · rw [if_pos h25]; rfl
  rw [if_neg h25]
  by_cases h26 : s = "chan"
  · rw [if_pos h26]; rfl
  rw [if_neg h26]
  by_cases h27 : s = "select"
  · rw [if_pos h27]; rfl
  rw [if_neg h27]
  by_cases h28 : s = "case"
  · rw [if_pos h28]; rfl
  rw [if_neg h28]
  by_cases h29 : s = "default"
  · rw [if_pos h29]; rfl
  rw [if_neg h29]
  by_cases h30 : s = "switch"
  · rw [if_pos h30]; rfl
  rw [if_neg h30]
  by_cases h31 : s = "type"
  · rw [if_pos h31]; rfl
  rw [if_neg h31]
  by_cases h32 : s = "package"
  · rw [if_pos h32]; rfl
  rw [if_neg h32]
  rfl

/-- Line/column guarantees of a single dispatch: the line is always at least 1;
the column is at least 1 except for newline tokens, comment tokens, and the
tokens coming out of the identifier/keyword and number scans (whose column
arithmetic is corrupted when the lexeme is immediately followed by a line
break). -/
theorem Lexer.dispatch_token_line_col (l : Lexer) (hc : l.ColInv) (hl : 1 ≤ l.line) :
    1 ≤ (l.dispatchToken).1.Line ∧
      ((l.dispatchToken).1.type_ ≠ .NEWLINE → (l.dispatchToken).1.type_ ≠ .COMMENT →
        identLikeType (l.dispatchToken).1.type_ = false →
        (l.dispatchToken).1.type_ ≠ .INT → (l.dispatchToken).1.type_ ≠ .FLOAT →
        1 ≤ (l.dispatchToken).1.Column) := by
  refine l.dispatchToken_cases
    (fun r => 1 ≤ r.1.Line ∧
      (r.1.type_ ≠ .NEWLINE → r.1.type_ ≠ .COMMENT → identLikeType r.1.type_ = false →
        r.1.type_ ≠ .INT → r.1.type_ ≠ .FLOAT → 1 ≤ r.1.Column))
    ?_ ?_ ?_ ?_ ?_ ?_ ?_ ?_
  · intro tt hch hch2
    constructor
    · rw [Lexer.twoCharAdv_Line]
      have h1 := l.readChar_line_ge
      exact_mod_cast le_trans hl h1
    · intro _ _ _ _ _
      rw [Lexer.twoCharAdv_Column]
      rcases l.readChar_column with ⟨hnl, _⟩ | ⟨_, hcol⟩
      · exact absurd hnl hch2
      · have hcol1 : 1 ≤ l.column := hc hch
        rw [hcol]
        push_cast
        omega
  · intro tt hch
    constructor
    · rw [newToken_Line]
      exact_mod_cast hl
    · intro _ _ _ _ _
      rw [newToken_Column]
      exact_mod_cast hc hch
  · intro tt d hd
    constructor
    · rw [Lexer.stringToken_Line]
      have h1 := (Lexer.invs_readStringLoop d l).2.1
      exact_mod_cast le_trans hl h1
    · intro _ _ _ _ _
      rw [Lexer.stringToken_Column]
      have hcol := Lexer.colInv_readStringLoop d l
      have hch : (Lexer.readStringLoop d l).ch ≠ '\n' := by
        rcases Lexer.readStringLoop_ch d l with h | h
        · rw [h]; exact hd
        · rw [h]; decide
      exact_mod_cast hcol hch
  · intro _
    constructor
    · rw [Lexer.commentToken_Line]
      have h1 := (l.invs_readCommentLoop).2.1
      exact_mod_cast le_trans hl h1
    · intro _ hcm _ _ _
      exact absurd (Lexer.commentToken_type l) hcm
  · intro _
    constructor
    · rw [newToken_Line]
      exact_mod_cast hl
    · intro hn _ _ _ _
      exact absurd (newToken_type _ _ _ _ _) hn
  · intro hch
    constructor
    · show (1 : Int) ≤ (l.line : Int)
      exact_mod_cast hl
    · intro _ _ _ _ _
      show (1 : Int) ≤ (l.column : Int)
      have hne : l.ch ≠ '\n' := by rw [hch]; decide
      exact_mod_cast hc hne
  · intro _
    constructor
    · rw [Lexer.identToken_Line]
      have h1 := (l.invs_readIdentLoop).2.1
      exact_mod_cast le_trans hl h1
    · intro _ _ hil _ _
      rw [Lexer.identToken_type, lookupIdent_identLike] at hil
      exact Bool.noConfusion hil
  · intro _
    constructor
    · rw [Lexer.numberToken_Line]
      have h1 := (Lexer.readNumber_facts l).1.2.1
      exact_mod_cast le_trans hl h1
    · intro _ _ _ hint hfl
      rcases (Lexer.readNumber_facts l).2 with h | h
      · rw [Lexer.numberToken_type] at hint
        exact absurd h hint
      · rw [Lexer.numberToken_type] at hfl
        exact absurd h hfl

theorem Lexer.NextToken_token_line_col (l : Lexer) (hc : l.ColInv) (hl : 1 ≤ l.line) :
    1 ≤ ((l.NextToken).1).Line ∧
      ((l.NextToken).1.type_ ≠ .NEWLINE → (l.NextToken).1.type_ ≠ .COMMENT →
        identLikeType (l.NextToken).1.type_ = false →
        (l.NextToken).1.type_ ≠ .INT → (l.NextToken).1.type_ ≠ .FLOAT →
        1 ≤ (l.NextToken).1.Column) := by
  have h1 := l.invs_skipWhitespace
  exact Lexer.dispatch_token_line_col l.skipWhitespace (h1.2.2.1 hc) (le_trans hl h1.2.1)

/-- **C8, counterexample**: the claim says every produced token carries
`Column ≥ 1`; but on the input `"\n"` the produced newline token carries
`Column = 0` (the column counter is reset by `readChar` before the token is
built), refuting the claim as stated. -/
theorem claim_C8_counterexample :
    (tokenAt "\n" 0).type_ = TokenType.NEWLINE ∧ (tokenAt "\n" 0).Column < 1 := by
  with_unfolding_all decide

/-- **C8, amended**: every token returned by `NextToken` carries a 1-based line
number (`Line ≥ 1`); `Column ≥ 1` holds for every token except newline
tokens, comment tokens, and the identifier/keyword and integer/float tokens
produced by the scanning branches (where the position is snapshotted only
after consuming lookahead, so a directly following line break corrupts the
column arithmetic). -/
theorem claim_C8_amended (input : String) (n : Nat) :
    1 ≤ (tokenAt input n).Line ∧
      ((tokenAt input n).type_ ≠ .NEWLINE → (tokenAt input n).type_ ≠ .COMMENT →
        identLikeType (tokenAt input n).type_ = false →
        (tokenAt input n).type_ ≠ .INT → (tokenAt input n).type_ ≠ .FLOAT →
        1 ≤ (tokenAt input n).Column) :=
  Lexer.NextToken_token_line_col _ (colInv_lexStateAfter input n) (line_lexStateAfter input n)

theorem claim_C8_amended_witness : 1 ≤ (tokenAt "+" 0).Column :=
  (claim_C8_amended "+" 0).2 (by with_unfolding_all decide) (by with_unfolding_all decide)
    (by with_unfolding_all decide) (by with_unfolding_all decide) (by with_unfolding_all decide)

/-! ## Parser embedding

The Go parser (pkg/parser/parser.go) pulls tokens from a `lexer.Lexer` one at
a time.  By the EOF-idempotence theorem `claim_C5_eof_forever` and the
progress facts behind `claim_C10_progress`, any lexer yields a finite list of
tokens followed by end-of-file tokens forever; the parser state is therefore
embedded with the not-yet-consumed finite token list `toks`, and pulling past
its end synthesises an EOF token (`eofToken`).  Loops become recursion on an
explicit fuel argument (`none` = fuel ran out); the adequacy theorems below
show the canonical fuel bound never runs out, which is the Go program's
termination. -/

/-- `TokenTypeString` (token.go:120-293). -/
def TokenTypeString (tokenType : TokenType) : String :=
  match tokenType with
  | .ILLEGAL => "ILLEGAL"
  | .EOF => "EOF"
  | .COMMENT => "COMMENT"
  | .IDENT => "IDENT"
  | .INT => "INT"
  | .FLOAT => "FLOAT"
  | .STRING => "STRING"
  | .CHAR => "CHAR"
  | .AND => "AND"
  | .OR => "OR"
  | .NOT => "NOT"
  | .IF => "IF"
  | .ELIF => "ELIF"
  | .ELSE => "ELSE"
  | .FOR => "FOR"
  | .WHILE => "WHILE"
  | .FUNC => "FUNC"
  | .RETURN => "RETURN"
  | .IMPORT => "IMPORT"
  | .FROM => "FROM"
  | .STRUCT => "STRUCT"
  | .INTERFACE => "INTERFACE"
  | .VAR => "VAR"
  | .CONST => "CONST"
  | .TRUE => "TRUE"
  | .FALSE => "FALSE"
  | .NIL => "NIL"
  | .IN => "IN"
  | .RANGE => "RANGE"
  | .BREAK => "BREAK"
  | .CONTINUE => "CONTINUE"
  | .DEFER => "DEFER"
  | .GO => "GO"
  | .CHAN => "CHAN"
  | .SELECT => "SELECT"
  | .CASE => "CASE"
  | .DEFAULT => "DEFAULT"
  | .SWITCH => "SWITCH"
  | .TYPE => "TYPE"
  | .PACKAGE => "PACKAGE"
  | .ASSIGN => "ASSIGN"
  | .WALRUS => "WALRUS"
  | .PLUS => "PLUS"
  | .MINUS => "MINUS"
  | .MULTIPLY => "MULTIPLY"
  | .DIVIDE => "DIVIDE"
  | .MODULO => "MODULO"
  | .POWER => "POWER"
  | .EQ => "EQ"
  | .NOT_EQ => "NOT_EQ"
  | .LT => "LT"
  | .LT_EQ => "LT_EQ"
  | .GT => "GT"
  | .GT_EQ => "GT_EQ"
  | .PLUS_EQ => "PLUS_EQ"
  | .MINUS_EQ => "MINUS_EQ"
  | .MULT_EQ => "MULT_EQ"
  | .DIV_EQ => "DIV_EQ"
  | .MOD_EQ => "MOD_EQ"
  | .BITWISE_AND => "BITWISE_AND"
  | .BITWISE_OR => "BITWISE_OR"
  | .BITWISE_XOR => "BITWISE_XOR"
  | .LEFT_SHIFT => "LEFT_SHIFT"
  | .RIGHT_SHIFT => "RIGHT_SHIFT"
  | .BIT_CLEAR => "BIT_CLEAR"
  | .INCREMENT => "INCREMENT"
  | .DECREMENT => "DECREMENT"
  | .COMMA => "COMMA"
  | .SEMICOLON => "SEMICOLON"
  | .COLON => "COLON"
  | .DOT => "DOT"
  | .ARROW => "ARROW"
  | .CHANNEL => "CHANNEL"
  | .LPAREN => "LPAREN"
  | .RPAREN => "RPAREN"
  | .LBRACKET => "LBRACKET"
  | .RBRACKET => "RBRACKET"
  | .LBRACE => "LBRACE"
  | .RBRACE => "RBRACE"
  | .NEWLINE => "NEWLINE"
  | .INDENT => "INDENT"
  | .DEDENT => "DEDENT"

/-! ### AST (pkg/ast/ast.go)

Go interface values (`ast.Expression`, `ast.Statement`) and struct pointers
can be `nil`; `Option` marks every position the parser can actually leave
nil.  `ast.Statement` values produced by `parseStatement` wrap a *typed*
pointer and are never the nil interface even when the pointer inside is nil,
hence `Statement` constructors carrying `Option` payloads. -/

/-- `ast.Literal.Value` (an `interface{}` holding int64, float64, string,
bool or nil).  A float's value is kept as its source text: the claims below
never observe the numeric value of a float. -/
inductive LitVal where
  | intVal (i : Int)
  | floatVal (text : String)
  | strVal (s : String)
  | boolVal (b : Bool)
  | nilVal

inductive Expression where
  | identifier (Value : String)
  | literal (type_ : String) (Value : LitVal)
  | unaryExpr (Operator : String) (Operand : Option Expression)
  | binaryExpr (Left : Option Expression) (Operator : String) (Right : Option Expression)
  | callExpr (Function : Option Expression) (Arguments : Option (List (Option Expression)))
  | indexExpr (Object : Option Expression) (Index : Option Expression)
  | selectorExpr (Object : Option Expression) (Selector : String)
  | arrayLiteral (Elements : Option (List (Option Expression)))
  | mapLiteral (Pairs : List (Option Expression × Option Expression))

/-- `ast.TypeSpec` (recursive through `KeyType`/`ValueType`, so an inductive
rather than a structure; fields in source order). -/
inductive TypeSpec where
  | mk (Name : String) (IsPointer IsSlice IsArray : Bool) (ArraySize : Int)
      (KeyType ValueType : Option TypeSpec)

structure Parameter where
  Name : String
  type_ : Option TypeSpec

structure Field where
  Name : String
  type_ : Option TypeSpec
  Tag : String

structure VarDecl where
  Name : String
  type_ : Option TypeSpec
  Value : Option Expression
  IsWalrus : Bool

structure ReturnStmt where
  Value : Option Expression

structure ExpressionStmt where
  Expression : Option Expression

mutual
inductive Statement where
  | funcDecl (d : Option FunctionDecl)
  | structDecl (d : Option StructDecl)
  | varDecl (d : Option VarDecl)
  | ifStmt (s : Option IfStmt)
  | forStmt (s : Option ForStmt)
  | whileStmt (s : Option WhileStmt)
  | returnStmt (s : ReturnStmt)
  | exprStmt (s : ExpressionStmt)
  | blockStmt (b : BlockStmt)
inductive FunctionDecl where
  | mk (Name : String) (Parameters : List Parameter) (ReturnType : Option TypeSpec)
      (Body : Option BlockStmt) (Receiver : Option Parameter)
inductive StructDecl where
  | mk (Name : String) (Fields : List Field) (Methods : List FunctionDecl)
inductive IfStmt where
  | mk (Condition : Option Expression) (ThenBranch ElseBranch : Option Statement)
inductive ForStmt where
  | mk (Init : Option Statement) (Condition : Option Expression)
      (Update : Option Statement) (Body : Option BlockStmt)
      (IsRange : Bool) (RangeVar : String) (RangeExpr : Option Expression)
inductive WhileStmt where
  | mk (Condition : Option Expression) (Body : Option BlockStmt)
inductive BlockStmt where
  | mk (Statements : List Statement)
end

structure ImportDecl where
  Path : String
  Alias : String
  Items : List String

structure Program where
  Package : String
  Imports : List ImportDecl
  Statements : List Statement

/-! ### Parser state and basic helpers (parser.go:14-171) -/

/-- The token the stream model synthesises past the end of the finite token
list, standing for the EOF tokens the real lexer returns forever. -/
def eofToken : Token :=
  { type_ := .EOF, Literal := "", Line := 0, Column := 0, Position := 0 }

/-- The Go zero value of `lexer.Token` (`ILLEGAL` is the zero `TokenType`),
the value of `curToken`/`peekToken` before `New` reads the first tokens. -/
def zeroToken : Token :=
  { type_ := .ILLEGAL, Literal := "", Line := 0, Column := 0, Position := 0 }

structure Parser where
  toks : List Token
  curToken : Token
  peekToken : Token
  errors : List String

/-- Pull the next non-comment token from the stream: `p.peekToken =
p.l.NextToken()` followed by the comment-skipping loop of `Parser.nextToken`
(parser.go:117-124). -/
def nextNonComment : List Token → Token × List Token
  | [] => (eofToken, [])
  | t :: ts => if t.type_ = .COMMENT then nextNonComment ts else (t, ts)

/-- `Parser.nextToken` (parser.go:117-124). -/
def Parser.nextToken (p : Parser) : Parser :=
  let r := nextNonComment p.toks
  { p with curToken := p.peekToken, peekToken := r.1, toks := r.2 }

/-- `New` (parser.go:62-106): zero-valued token fields, empty error list, two
`nextToken` calls.  The prefix/infix registrations are static and are
embedded as the dispatch in `parseExpressionF`/`exprLoopF` below. -/
def Parser.new (toks : List Token) : Parser :=
  (Parser.nextToken (Parser.nextToken
    { toks := toks, curToken := zeroToken, peekToken := zeroToken, errors := [] }))

def Parser.curTokenIs (p : Parser) (t : TokenType) : Bool :=
  p.curToken.type_ = t

def Parser.peekTokenIs (p : Parser) (t : TokenType) : Bool :=
  p.peekToken.type_ = t

/-- `peekError` (parser.go:130-134). -/
def Parser.peekError (p : Parser) (t : TokenType) : Parser :=
  { p with errors := p.errors ++
      ["expected next token to be " ++ TokenTypeString t ++ ", got " ++
        TokenTypeString p.peekToken.type_ ++ " instead"] }

/-- `noPrefixParseFnError` (parser.go:136-139). -/
def Parser.noPrefixFnError (p : Parser) (t : TokenType) : Parser :=
  { p with errors := p.errors ++
      ["no prefix parse function for " ++ TokenTypeString t ++ " found"] }

/-- `expectPeek` (parser.go:148-156). -/
def Parser.expectPeek (p : Parser) (t : TokenType) : Bool × Parser :=
  if p.peekTokenIs t then (true, p.nextToken) else (false, p.peekError t)

/-! ### Precedences (parser.go:31-59) -/

def LOWEST : Nat := 1
def EQUALS : Nat := 2
def LESSGREATER : Nat := 3
def SUM : Nat := 4
def PRODUCT : Nat := 5
def PREFIX : Nat := 6
def CALL : Nat := 7
def INDEX : Nat := 8

/-- The `precedences` map (parser.go:44-59); `none` = key absent. -/
def precedences (t : TokenType) : Option Nat :=
  match t with
  | .EQ => some EQUALS
  | .NOT_EQ => some EQUALS
  | .LT => some LESSGREATER
  | .GT => some LESSGREATER
  | .LT_EQ => some LESSGREATER
  | .GT_EQ => some LESSGREATER
  | .PLUS => some SUM
  | .MINUS => some SUM
  | .DIVIDE => some PRODUCT
  | .MULTIPLY => some PRODUCT
  | .MODULO => some PRODUCT
  | .POWER => some PRODUCT
  | .LPAREN => some CALL
  | .LBRACKET => some INDEX
  | .DOT => some INDEX
  | _ => none

/-- `peekPrecedence` (parser.go:158-163). -/
def Parser.peekPrecedence (p : Parser) : Nat :=
  match precedences p.peekToken.type_ with
  | some v => v
  | none => LOWEST

/-- `curPrecedence` (parser.go:165-170). -/
def Parser.curPrecedence (p : Parser) : Nat :=
  match precedences p.curToken.type_ with
  | some v => v
  | none => LOWEST

/-- The token types with a registered prefix parse function
(parser.go:69-80). -/
def hasPrefixFn (t : TokenType) : Bool :=
  match t with
  | .IDENT | .INT | .FLOAT | .STRING | .TRUE | .FALSE | .NIL
  | .MINUS | .NOT | .LPAREN | .LBRACKET | .LBRACE => true
  | _ => false

/-- The token types with a registered infix parse function
(parser.go:82-99). -/
def hasInfixFn (t : TokenType) : Bool :=
  match t with
  | .PLUS | .MINUS | .DIVIDE | .MULTIPLY | .MODULO | .POWER
  | .EQ | .NOT_EQ | .LT | .GT | .LT_EQ | .GT_EQ | .AND | .OR
  | .LPAREN | .LBRACKET | .DOT => true
  | _ => false

/-! ### Go strconv semantics used by the literal parsers -/

/-- Go `strconv`'s `lower`: ASCII lowercase via bit 0x20. -/
def goLower (c : Char) : Char := Char.ofNat (c.toNat ||| 0x20)

/-- The digit/underscore placement check `strconv.underscoreOK`, the loop
state `saw` being '^' (start), '0' (digit), '_' (underscore), '!' (other). -/
def goUnderscoreLoop (hex : Bool) (saw : Char) : List Char → Bool
  | [] => saw ≠ '_'
  | c :: rest =>
    if ('0' ≤ c ∧ c ≤ '9') ∨ (hex ∧ 'a' ≤ goLower c ∧ goLower c ≤ 'f') then
      goUnderscoreLoop hex '0' rest
    else if c = '_' then
      if saw ≠ '0' then false else goUnderscoreLoop hex '_' rest
    else if saw = '_' then false
    else goUnderscoreLoop hex '!' rest

def goUnderscoreOK (s : List Char) : Bool :=
  let s1 := match s with
    | c :: rest => if c = '-' ∨ c = '+' then rest else s
    | [] => s
  match s1 with
  | '0' :: c2 :: rest =>
    if goLower c2 = 'b' ∨ goLower c2 = 'o' ∨ goLower c2 = 'x' then
      goUnderscoreLoop (goLower c2 = 'x') '0' rest
    else goUnderscoreLoop false '^' s1
  | _ => goUnderscoreLoop false '^' s1

/-- One digit of `strconv.ParseUint`'s loop: value of `c`, or `none` on a
non-digit (Go's `default: syntax error`). -/
def goDigitVal (c : Char) : Option Nat :=
  if '0' ≤ c ∧ c ≤ '9' then some (c.toNat - '0'.toNat)
  else if 'a' ≤ goLower c then some ((goLower c).toNat - 'a'.toNat + 10)
  else none

/-- The accumulation loop of `strconv.ParseUint`; underscores are skipped
(base-0 mode) and position-checked afterwards via `goUnderscoreOK`.  Go
reports range overflow as it accumulates and this model checks the final
value instead: both make `err != nil` for exactly the same strings, and the
callers only branch on `err != nil`. -/
def goUintLoop (base : Nat) (acc : Option Nat) : List Char → Option Nat
  | [] => acc
  | c :: rest =>
    if c = '_' then goUintLoop base acc rest
    else match goDigitVal c with
      | none => none
      | some d =>
        if d ≥ base then none
        else match acc with
          | none => none
          | some n => goUintLoop base (some (n * base + d)) rest

/-- `strconv.ParseUint(s, 0, 64)`: `some n` iff Go returns `err == nil`,
and then `n` is Go's value. -/
def goParseUint0 (s : List Char) : Option Nat :=
  match s with
  | [] => none
  | _ =>
    let bs : Nat × List Char :=
      match s with
      | '0' :: c2 :: rest =>
        if s.length ≥ 3 ∧ goLower c2 = 'b' then (2, rest)
        else if s.length ≥ 3 ∧ goLower c2 = 'o' then (8, rest)
        else if s.length ≥ 3 ∧ goLower c2 = 'x' then (16, rest)
        else (8, c2 :: rest)
      | '0' :: rest => (8, rest)
      | _ => (10, s)
    if (s.contains '_') ∧ ¬(goUnderscoreOK s) then none
    else match goUintLoop bs.1 (some 0) bs.2 with
      | none => none
      | some n => if n ≥ 2 ^ 64 then none else some n

/-- `strconv.ParseInt(s, 0, 64)`: `some v` iff Go returns `err == nil`
(syntax and range errors alike make `err != nil`), and then `v` is Go's
value. -/
def goParseInt (s : String) : Option Int :=
  match s.toList with
  | [] => none
  | c :: rest =>
    let neg : Bool := c = '-'
    let digits : List Char := if c = '+' ∨ c = '-' then rest else c :: rest
    match goParseUint0 digits with
    | none => none
    | some un =>
      if neg then (if un > 2 ^ 63 then none else some (-(un : Int)))
      else (if un ≥ 2 ^ 63 then none else some (un : Int))

/-- `strconv.Atoi` as used with its error ignored (parser.go:434):
`size, _ := strconv.Atoi(lit)` leaves the zero value 0 on error. -/
def goAtoiLenient (s : String) : Int :=
  match goParseInt s with
  | some v => v
  | none => 0

/-- Whether `strconv.ParseFloat(s, 64)` returns `err == nil`, as a syntax
check over Go's float grammar (decimal or hex mantissa-exponent forms, inf /
nan words, base-0 underscore rules).  Magnitude range errors, which Go also
reports through `err`, are not modelled: the parser only ever branches on
`err != nil`, and no claim below exercises an out-of-range float. -/
def goFloatDigits (hex : Bool) : List Char → Bool × List Char
  | [] => (false, [])
  | c :: rest =>
    if ('0' ≤ c ∧ c ≤ '9') ∨ (hex ∧ 'a' ≤ goLower c ∧ goLower c ≤ 'f') ∨ c = '_' then
      let r := goFloatDigits hex rest
      (c ≠ '_' ∨ r.1, r.2)
    else (false, c :: rest)

def goFloatExpPart (s : List Char) : Bool :=
  let s1 := match s with
    | c :: rest => if c = '+' ∨ c = '-' then rest else s
    | [] => s
  let r := goFloatDigits false s1
  r.1 ∧ r.2 = []

def goParseFloatOk (s : String) : Bool :=
  let cs := s.toList
  let s1 := match cs with
    | c :: rest => if c = '+' ∨ c = '-' then rest else cs
    | [] => cs
  let lower1 := s1.map goLower
  if lower1 = "inf".toList ∨ lower1 = "infinity".toList ∨ lower1 = "nan".toList then
    true
  else
    let hex : Bool := match s1 with
      | '0' :: c2 :: _ => goLower c2 = 'x'
      | _ => false
    let mant : List Char := if hex then s1.drop 2 else s1
    let d1 := goFloatDigits hex mant
    let intSeen := d1.1
    let afterInt := d1.2
    let fr : Bool × List Char := match afterInt with
      | '.' :: rest => goFloatDigits hex rest
      | _ => (false, afterInt)
    let digitsSeen := intSeen ∨ fr.1
    let afterFrac := fr.2
    if ¬ digitsSeen then false
    else if cs.contains '_' ∧ ¬ goUnderscoreOK cs then false
    else if hex then
      match afterFrac with
      | c :: rest => (goLower c = 'p') ∧ goFloatExpPart rest
      | [] => false
    else
      match afterFrac with
      | c :: rest => (goLower c = 'e') ∧ goFloatExpPart rest
      | [] => true

/-- `strings.Trim(s, quote)`: strip every leading and trailing double quote
(parser.go:263, 271). -/
def stringsTrimQuotes (s : String) : String :=
  String.mk (((s.toList.dropWhile (fun c => c = '"')).reverse.dropWhile
    (fun c => c = '"')).reverse)

/-- `ImportAliases` lookup composed with the fallback, i.e. `GetRealPackagePath`
(stdlib/aliases.go:113-120 over the map at lines 7-108). -/
def GetRealPackagePath (alias_ : String) : String :=
  if alias_ = "json" then "encoding/json"
  else if alias_ = "base64" then "encoding/base64"
  else if alias_ = "hex" then "encoding/hex"
  else if alias_ = "xml" then "encoding/xml"
  else if alias_ = "csv" then "encoding/csv"
  else if alias_ = "fs" then "io/fs"
  else if alias_ = "io" then "io"
  else if alias_ = "ioutil" then "io/ioutil"
  else if alias_ = "path" then "path"
  else if alias_ = "filepath" then "path/filepath"
  else if alias_ = "os" then "os"
  else if alias_ = "http" then "net/http"
  else if alias_ = "url" then "net/url"
  else if alias_ = "net" then "net"
  else if alias_ = "mail" then "net/mail"
  else if alias_ = "crypto" then "crypto"
  else if alias_ = "md5" then "crypto/md5"
  else if alias_ = "sha1" then "crypto/sha1"
  else if alias_ = "sha256" then "crypto/sha256"
  else if alias_ = "rand" then "crypto/rand"
  else if alias_ = "tls" then "crypto/tls"
  else if alias_ = "time" then "time"
  else if alias_ = "strings" then "strings"
  else if alias_ = "strconv" then "strconv"
  else if alias_ = "regexp" then "regexp"
  else if alias_ = "math" then "math"
  else if alias_ = "big" then "math/big"
  else if alias_ = "rand_math" then "math/rand"
  else if alias_ = "gzip" then "compress/gzip"
  else if alias_ = "zip" then "archive/zip"
  else if alias_ = "tar" then "archive/tar"
  else if alias_ = "sql" then "database/sql"
  else if alias_ = "log" then "log"
  else if alias_ = "fmt" then "fmt"
  else if alias_ = "sync" then "sync"
  else if alias_ = "context" then "context"
  else if alias_ = "reflect" then "reflect"
  else if alias_ = "runtime" then "runtime"
  else if alias_ = "testing" then "testing"
  else if alias_ = "sort" then "sort"
  else if alias_ = "heap" then "container/heap"
  else if alias_ = "list" then "container/list"
  else if alias_ = "ring" then "container/ring"
  else if alias_ = "image" then "image"
  else if alias_ = "color" then "image/color"
  else if alias_ = "png" then "image/png"
  else if alias_ = "jpeg" then "image/jpeg"
  else if alias_ = "gif" then "image/gif"
  else if alias_ = "template" then "text/template"
  else if alias_ = "html_template" then "html/template"
  else if alias_ = "html" then "html"
  else if alias_ = "scanner" then "text/scanner"
  else if alias_ = "tabwriter" then "text/tabwriter"
  else if alias_ = "exec" then "os/exec"
  else if alias_ = "signal" then "os/signal"
  else if alias_ = "user" then "os/user"
  else if alias_ = "bytes" then "bytes"
  else if alias_ = "bufio" then "bufio"
  else if alias_ = "errors" then "errors"
  else if alias_ = "unicode" then "unicode"
  else if alias_ = "utf8" then "unicode/utf8"
  else if alias_ = "utf16" then "unicode/utf16"
  else alias_

/-- `isStandardLibrary` (parser.go:304-316); a missing key reads Go map zero
value `false`. -/
def isStandardLibrary (pkg : String) : Bool :=
  if pkg = "os" then true
  else if pkg = "fmt" then true
  else if pkg = "time" then true
  else if pkg = "json" then true
  else if pkg = "math" then true
  else if pkg = "strings" then true
  else if pkg = "strconv" then true
  else if pkg = "io" then true
  else if pkg = "bufio" then true
  else if pkg = "net" then true
  else if pkg = "http" then true
  else if pkg = "url" then true
  else if pkg = "path" then true
  else if pkg = "filepath" then true
  else if pkg = "sort" then true
  else if pkg = "sync" then true
  else if pkg = "context" then true
  else if pkg = "errors" then true
  else if pkg = "log" then true
  else if pkg = "regexp" then true
  else if pkg = "crypto" then true
  else if pkg = "encoding" then true
  else if pkg = "database" then true
  else if pkg = "html" then true
  else if pkg = "image" then true
  else if pkg = "mime" then true
  else if pkg = "reflect" then true
  else if pkg = "runtime" then true
  else if pkg = "testing" then true
  else if pkg = "unsafe" then true
  else false

/-! ### Fueled parser functions

Every Go parser loop/recursion becomes recursion on an explicit fuel
argument; `none` means the fuel ran out.  All inner calls use the once-
decremented fuel, so the recursions are structural and kernel-computable.
The adequacy theorems below show a fuel of `16 * μ + 16` never runs out. -/

/-- `%q` of a literal in the two `could not parse` messages.  Go escapes
non-printable characters inside the quotes; no claim observes these message
strings beyond non-emptiness, and the plain-quote form is used here. -/
def goQuote (s : String) : String := "\"" ++ s ++ "\""

/-- The `for p.peekTokenIs(lexer.NEWLINE) { p.nextToken() }` skip loops
(parser.go:374-376 and five more sites). -/
def skipPeekNewlinesF : Nat → Parser → Option Parser
  | 0, _ => none
  | fuel+1, p =>
    if p.peekTokenIs .NEWLINE then skipPeekNewlinesF fuel p.nextToken else some p

/-- The `for p.curTokenIs(lexer.NEWLINE) { p.nextToken() }` skip loops of
`ParseProgram` (parser.go:189-191, 199-201). -/
def skipCurNewlinesF : Nat → Parser → Option Parser
  | 0, _ => none
  | fuel+1, p =>
    if p.curTokenIs .NEWLINE then skipCurNewlinesF fuel p.nextToken else some p

/-- `parseTypeSpec` (parser.go:414-462); the inner `Option` is Go's nil
`*ast.TypeSpec`. -/
def parseTypeSpecF : Nat → Parser → Option (Option TypeSpec × Parser)
  | 0, _ => none
  | fuel+1, p =>
    let ptr : Bool := p.curTokenIs .MULTIPLY
    let p := if p.curTokenIs .MULTIPLY then p.nextToken else p
    if p.curTokenIs .LBRACKET then
      let p := p.nextToken
      if p.curTokenIs .RBRACKET then
        let p := p.nextToken
        match parseTypeSpecF fuel p with
        | none => none
        | some (vt, p) => some (some (.mk "" ptr true false 0 none vt), p)
      else
        let size : Int :=
          if p.curTokenIs .INT then goAtoiLenient p.curToken.Literal else 0
        match p.expectPeek .RBRACKET with
        | (false, p) => some (none, p)
        | (true, p) =>
          let p := p.nextToken
          match parseTypeSpecF fuel p with
          | none => none
          | some (vt, p) => some (some (.mk "" ptr false true size none vt), p)
    else if p.curTokenIs .IDENT ∧ p.curToken.Literal = "map" then
      match p.expectPeek .LBRACKET with
      | (false, p) => some (none, p)
      | (true, p) =>
        let p := p.nextToken
        match parseTypeSpecF fuel p with
        | none => none
        | some (kt, p) =>
          match p.expectPeek .RBRACKET with
          | (false, p) => some (none, p)
          | (true, p) =>
            let p := p.nextToken
            match parseTypeSpecF fuel p with
            | none => none
            | some (vt, p) => some (some (.mk "" ptr false false 0 kt vt), p)
    else
      some (some (.mk p.curToken.Literal ptr false false 0 none none), p)

/-- One parameter of `parseFunctionParameters` (parser.go:392-397 and its
copy in the comma loop, 400-407): name from the current token, then an
optional type. -/
def parseOneParamF : Nat → Parser → Option (Parameter × Parser)
  | 0, _ => none
  | fuel+1, p =>
    let name := p.curToken.Literal
    if p.peekTokenIs .IDENT then
      let p := p.nextToken
      match parseTypeSpecF fuel p with
      | none => none
      | some (ts, p) => some (⟨name, ts⟩, p)
    else some (⟨name, none⟩, p)

/-- The `for p.peekTokenIs(lexer.COMMA)` loop of `parseFunctionParameters`
(parser.go:399-409). -/
def paramsLoopF : Nat → List Parameter → Parser → Option (List Parameter × Parser)
  | 0, _, _ => none
  | fuel+1, acc, p =>
    if p.peekTokenIs .COMMA then
      let p := p.nextToken
      let p := p.nextToken
      match parseOneParamF fuel p with
      | none => none
      | some (prm, p) => paramsLoopF fuel (acc ++ [prm]) p
    else some (acc, p)

/-- `parseFunctionParameters` (parser.go:384-412). -/
def parseFunctionParametersF : Nat → Parser → Option (List Parameter × Parser)
  | 0, _ => none
  | fuel+1, p =>
    if p.peekTokenIs .RPAREN then some ([], p)
    else
      let p := p.nextToken
      match parseOneParamF fuel p with
      | none => none
      | some (prm, p) => paramsLoopF fuel [prm] p

/-- The item loop of the `from "path" import a, b` form
(parser.go:245-257). -/
def fromItemsLoopF : Nat → List String → Parser → Option (List String × Parser)
  | 0, _, _ => none
  | fuel+1, items, p =>
    let items := if p.curTokenIs .IDENT then items ++ [p.curToken.Literal] else items
    if ¬ p.peekTokenIs .COMMA then some (items, p)
    else
      let p := p.nextToken
      let p := p.nextToken
      fromItemsLoopF fuel items p

/-- The item loop of the parenthesised `import (...)` form
(parser.go:265-277): each string item is quote-trimmed, alias-resolved and
re-quoted. -/
def parenItemsLoopF : Nat → List String → Parser → Option (List String × Parser)
  | 0, _, _ => none
  | fuel+1, items, p =>
    if ¬ p.curTokenIs .RPAREN ∧ ¬ p.curTokenIs .EOF then
      let items :=
        if p.curTokenIs .STRING then
          items ++
            ["\"" ++ GetRealPackagePath (stringsTrimQuotes p.curToken.Literal) ++ "\""]
        else items
      let p := p.nextToken
      let p := if p.curTokenIs .COMMA then p.nextToken else p
      parenItemsLoopF fuel items p
    else some (items, p)

/-- `parseImportDeclaration` (parser.go:228-302); the inner `Option` is Go's
nil `*ast.ImportDecl`.  Note the asymmetry the theorems below exploit: the
quoted and parenthesised forms alias-resolve, the `from` form and the bare
identifier form store the written text as is. -/
def parseImportDeclarationF : Nat → Parser → Option (Option ImportDecl × Parser)
  | 0, _ => none
  | fuel+1, p =>
    if p.curTokenIs .FROM then
      let p := p.nextToken
      if ¬ p.curTokenIs .STRING then some (none, p)
      else
        let path := p.curToken.Literal
        let p := p.nextToken
        match p.expectPeek .IMPORT with
        | (false, p) => some (none, p)
        | (true, p) =>
          let p := p.nextToken
          match fromItemsLoopF fuel [] p with
          | none => none
          | some (items, p) => some (some ⟨path, "", items⟩, p)
    else if p.curTokenIs .IMPORT then
      let p := p.nextToken
      if p.curTokenIs .LPAREN then
        let p := p.nextToken
        match parenItemsLoopF fuel [] p with
        | none => none
        | some (items, p) => some (some ⟨"", "", items⟩, p)
      else if p.curTokenIs .STRING then
        let path :=
          "\"" ++ GetRealPackagePath (stringsTrimQuotes p.curToken.Literal) ++ "\""
        let p := p.nextToken
        if p.curTokenIs .IDENT ∧ p.curToken.Literal = "as" then
          let p := p.nextToken
          if p.curTokenIs .IDENT then some (some ⟨path, p.curToken.Literal, []⟩, p)
          else some (some ⟨path, "", []⟩, p)
        else some (some ⟨path, "", []⟩, p)
      else if p.curTokenIs .IDENT then
        some (some ⟨p.curToken.Literal, "", []⟩, p)
      else some (some ⟨"", "", []⟩, p)
    else some (some ⟨"", "", []⟩, p)

/-- Attach the auto-receiver `self <StructName>` to a parsed method
(parser.go:489-496). -/
def setReceiver (m : FunctionDecl) (structName : String) : FunctionDecl :=
  match m with
  | .mk n ps rt b _ =>
    .mk n ps rt b (some ⟨"self", some (.mk structName false false false 0 none none)⟩)

mutual

/-- `parseStatement` (parser.go:318-343).  Each branch wraps a typed Go
pointer into the `ast.Statement` interface, which is why the result is never
`Option`: a nil pointer inside still makes a non-nil interface value. -/
def parseStatementF : Nat → Parser → Option (Statement × Parser)
  | 0, _ => none
  | fuel+1, p =>
    match p.curToken.type_ with
    | .FUNC =>
      match parseFunctionDeclarationF fuel p with
      | none => none
      | some (d, p) => some (.funcDecl d, p)
    | .STRUCT =>
      match parseStructDeclarationF fuel p with
      | none => none
      | some (d, p) => some (.structDecl d, p)
    | .VAR =>
      match parseVarDeclarationF fuel p with
      | none => none
      | some (d, p) => some (.varDecl d, p)
    | .IF =>
      match parseIfStatementF fuel p with
      | none => none
      | some (s, p) => some (.ifStmt s, p)
    | .FOR =>
      match parseForStatementF fuel p with
      | none => none
      | some (s, p) => some (.forStmt s, p)
    | .WHILE =>
      match parseWhileStatementF fuel p with
      | none => none
      | some (s, p) => some (.whileStmt s, p)
    | .RETURN =>
      match parseReturnStatementF fuel p with
      | none => none
      | some (s, p) => some (.returnStmt s, p)
    | .IDENT =>
      if p.peekTokenIs .WALRUS ∨ p.peekTokenIs .ASSIGN then
        match parseVarDeclarationF fuel p with
        | none => none
        | some (d, p) => some (.varDecl d, p)
      else
        match parseExpressionStatementF fuel p with
        | none => none
        | some (s, p) => some (.exprStmt s, p)
    | _ =>
      match parseExpressionStatementF fuel p with
      | none => none
      | some (s, p) => some (.exprStmt s, p)

/-- `parseFunctionDeclaration` (parser.go:345-382). -/
def parseFunctionDeclarationF : Nat → Parser → Option (Option FunctionDecl × Parser)
  | 0, _ => none
  | fuel+1, p =>
    match p.expectPeek .IDENT with
    | (false, p) => some (none, p)
    | (true, p) =>
      let name := p.curToken.Literal
      match p.expectPeek .LPAREN with
      | (false, p) => some (none, p)
      | (true, p) =>
        match parseFunctionParametersF fuel p with
        | none => none
        | some (params, p) =>
          match p.expectPeek .RPAREN with
          | (false, p) => some (none, p)
          | (true, p) =>
            match (if p.peekTokenIs .IDENT ∨ p.peekTokenIs .LPAREN then
                parseTypeSpecF fuel p.nextToken
              else some (none, p)) with
            | none => none
            | some (rt, p) =>
              match p.expectPeek .COLON with
              | (false, p) => some (none, p)
              | (true, p) =>
                match skipPeekNewlinesF fuel p with
                | none => none
                | some p =>
                  match parseBlockStatementF fuel p with
                  | none => none
                  | some (body, p) =>
                    some (some (.mk name params rt (some body) none), p)

/-- `parseStructDeclaration` (parser.go:464-516). -/
def parseStructDeclarationF : Nat → Parser → Option (Option StructDecl × Parser)
  | 0, _ => none
  | fuel+1, p =>
    match p.expectPeek .IDENT with
    | (false, p) => some (none, p)
    | (true, p) =>
      let name := p.curToken.Literal
      match p.expectPeek .COLON with
      | (false, p) => some (none, p)
      | (true, p) =>
        match skipPeekNewlinesF fuel p with
        | none => none
        | some p =>
          match structLoopF fuel name [] [] p with
          | none => none
          | some (fm, p) => some (some (.mk name fm.1 fm.2), p)

/-- The field/method loop of `parseStructDeclaration` (parser.go:483-513).
The guard transcribes Go operator precedence:
`(!EOF && IDENT) || FUNC`. -/
def structLoopF : Nat → String → List Field → List FunctionDecl → Parser →
    Option ((List Field × List FunctionDecl) × Parser)
  | 0, _, _, _, _ => none
  | fuel+1, name, fields, methods, p =>
    if (¬ p.curTokenIs .EOF ∧ p.curTokenIs .IDENT) ∨ p.curTokenIs .FUNC then
      if p.curTokenIs .NEWLINE then structLoopF fuel name fields methods p.nextToken
      else if p.curTokenIs .FUNC then
        match parseFunctionDeclarationF fuel p with
        | none => none
        | some (method, p) =>
          let methods := match method with
            | some m => methods ++ [setReceiver m name]
            | none => methods
          structLoopF fuel name fields methods p.nextToken
      else
        let fname := p.curToken.Literal
        let p := p.nextToken
        match (if p.curTokenIs .IDENT then parseTypeSpecF fuel p
          else some (none, p)) with
        | none => none
        | some (ft, p) =>
          structLoopF fuel name (fields ++ [⟨fname, ft, ""⟩]) methods p.nextToken
    else some ((fields, methods), p)

/-- `parseVarDeclaration` (parser.go:518-560). -/
def parseVarDeclarationF : Nat → Parser → Option (Option VarDecl × Parser)
  | 0, _ => none
  | fuel+1, p =>
    if p.curTokenIs .VAR then
      match p.expectPeek .IDENT with
      | (false, p) => some (none, p)
      | (true, p) =>
        let name := p.curToken.Literal
        if p.peekTokenIs .IDENT then
          let p := p.nextToken
          match parseTypeSpecF fuel p with
          | none => none
          | some (ts, p) =>
            match p.expectPeek .ASSIGN with
            | (false, p) => some (none, p)
            | (true, p) =>
              let p := p.nextToken
              match parseExpressionF fuel LOWEST p with
              | none => none
              | some (v, p) => some (some ⟨name, ts, v, false⟩, p)
        else if p.peekTokenIs .ASSIGN then
          let p := p.nextToken
          let p := p.nextToken
          match parseExpressionF fuel LOWEST p with
          | none => none
          | some (v, p) => some (some ⟨name, none, v, false⟩, p)
        else some (some ⟨name, none, none, false⟩, p)
    else if p.curTokenIs .IDENT then
      let name := p.curToken.Literal
      if p.peekTokenIs .WALRUS then
        let p := p.nextToken
        let p := p.nextToken
        match parseExpressionF fuel LOWEST p with
        | none => none
        | some (v, p) => some (some ⟨name, none, v, true⟩, p)
      else if p.peekTokenIs .ASSIGN then
        let p := p.nextToken
        let p := p.nextToken
        match parseExpressionF fuel LOWEST p with
        | none => none
        | some (v, p) => some (some ⟨name, none, v, false⟩, p)
      else some (some ⟨name, none, none, false⟩, p)
    else some (some ⟨"", none, none, false⟩, p)

/-- `parseIfStatement` (parser.go:562-597). -/
def parseIfStatementF : Nat → Parser → Option (Option IfStmt × Parser)
  | 0, _ => none
  | fuel+1, p =>
    let p := p.nextToken
    match parseExpressionF fuel LOWEST p with
    | none => none
    | some (cond, p) =>
      match p.expectPeek .COLON with
      | (false, p) => some (none, p)
      | (true, p) =>
        match skipPeekNewlinesF fuel p with
        | none => none
        | some p =>
          match parseBlockStatementF fuel p with
          | none => none
          | some (thenB, p) =>
            if p.peekTokenIs .ELIF ∨ p.peekTokenIs .ELSE then
              let p := p.nextToken
              if p.curTokenIs .ELIF then
                match parseIfStatementF fuel p with
                | none => none
                | some (elseIf, p) =>
                  some (some (.mk cond (some (.blockStmt thenB))
                    (some (.ifStmt elseIf))), p)
              else
                match p.expectPeek .COLON with
                | (false, p) => some (none, p)
                | (true, p) =>
                  match skipPeekNewlinesF fuel p with
                  | none => none
                  | some p =>
                    match parseBlockStatementF fuel p with
                    | none => none
                    | some (elseB, p) =>
                      some (some (.mk cond (some (.blockStmt thenB))
                        (some (.blockStmt elseB))), p)
            else some (some (.mk cond (some (.blockStmt thenB)) none), p)

/-- `parseForStatement` (parser.go:599-638). -/
def parseForStatementF : Nat → Parser → Option (Option ForStmt × Parser)
  | 0, _ => none
  | fuel+1, p =>
    let p := p.nextToken
    if p.peekTokenIs .IN then
      let rv := p.curToken.Literal
      let p := p.nextToken
      let p := p.nextToken
      match parseExpressionF fuel LOWEST p with
      | none => none
      | some (re, p) =>
        match p.expectPeek .COLON with
        | (false, p) => some (none, p)
        | (true, p) =>
          match skipPeekNewlinesF fuel p with
          | none => none
          | some p =>
            match parseBlockStatementF fuel p with
            | none => none
            | some (body, p) =>
              some (some (.mk none none none (some body) true rv re), p)
    else
      match parseStatementF fuel p with
      | none => none
      | some (ini, p) =>
        match p.expectPeek .SEMICOLON with
        | (false, p) => some (none, p)
        | (true, p) =>
          let p := p.nextToken
          match parseExpressionF fuel LOWEST p with
          | none => none
          | some (cond, p) =>
            match p.expectPeek .SEMICOLON with
            | (false, p) => some (none, p)
            | (true, p) =>
              let p := p.nextToken
              match parseStatementF fuel p with
              | none => none
              | some (upd, p) =>
                match p.expectPeek .COLON with
                | (false, p) => some (none, p)
                | (true, p) =>
                  match skipPeekNewlinesF fuel p with
                  | none => none
                  | some p =>
                    match parseBlockStatementF fuel p with
                    | none => none
                    | some (body, p) =>
                      some (some (.mk (some ini) cond (some upd) (some body)
                        false "" none), p)

/-- `parseWhileStatement` (parser.go:640-656). -/
def parseWhileStatementF : Nat → Parser → Option (Option WhileStmt × Parser)
  | 0, _ => none
  | fuel+1, p =>
    let p := p.nextToken
    match parseExpressionF fuel LOWEST p with
    | none => none
    | some (cond, p) =>
      match p.expectPeek .COLON with
      | (false, p) => some (none, p)
      | (true, p) =>
        match skipPeekNewlinesF fuel p with
        | none => none
        | some p =>
          match parseBlockStatementF fuel p with
          | none => none
          | some (body, p) => some (some (.mk cond (some body)), p)

/-- `parseReturnStatement` (parser.go:658-667). -/
def parseReturnStatementF : Nat → Parser → Option (ReturnStmt × Parser)
  | 0, _ => none
  | fuel+1, p =>
    if ¬ p.peekTokenIs .NEWLINE ∧ ¬ p.peekTokenIs .EOF then
      let p := p.nextToken
      match parseExpressionF fuel LOWEST p with
      | none => none
      | some (v, p) => some (⟨v⟩, p)
    else some (⟨none⟩, p)

/-- `parseExpressionStatement` (parser.go:669-673). -/
def parseExpressionStatementF : Nat → Parser → Option (ExpressionStmt × Parser)
  | 0, _ => none
  | fuel+1, p =>
    match parseExpressionF fuel LOWEST p with
    | none => none
    | some (e, p) => some (⟨e⟩, p)

/-- `parseBlockStatement` (parser.go:675-703). -/
def parseBlockStatementF : Nat → Parser → Option (BlockStmt × Parser)
  | 0, _ => none
  | fuel+1, p =>
    match blockLoopF fuel [] p with
    | none => none
    | some (stmts, p) => some (.mk stmts, p)

/-- The statement loop of `parseBlockStatement` (parser.go:679-700); the
`stmt != nil` append guard is always true (interface over typed pointer). -/
def blockLoopF : Nat → List Statement → Parser → Option (List Statement × Parser)
  | 0, _, _ => none
  | fuel+1, acc, p =>
    if p.curTokenIs .EOF then some (acc, p)
    else if p.curTokenIs .NEWLINE then blockLoopF fuel acc p.nextToken
    else if p.curTokenIs .FUNC then some (acc, p)
    else
      match parseStatementF fuel p with
      | none => none
      | some (stmt, p) =>
        let acc := acc ++ [stmt]
        if ¬ p.curTokenIs .EOF then blockLoopF fuel acc p.nextToken
        else blockLoopF fuel acc p

/-- `parseExpression` (parser.go:707-729) with the registered prefix parse
functions (parser.go:731-810 and 817-849) inlined at their dispatch site;
the climbing loop is `exprLoopF`. -/
def parseExpressionF : Nat → Nat → Parser → Option (Option Expression × Parser)
  | 0, _, _ => none
  | fuel+1, precedence, p =>
    match p.curToken.type_ with
    | .IDENT => exprLoopF fuel precedence (some (.identifier p.curToken.Literal)) p
    | .INT =>
      match goParseInt p.curToken.Literal with
      | some v =>
        exprLoopF fuel precedence (some (.literal "int" (.intVal v))) p
      | none =>
        exprLoopF fuel precedence none
          { p with errors := p.errors ++
              ["could not parse " ++ goQuote p.curToken.Literal ++ " as integer"] }
    | .FLOAT =>
      if goParseFloatOk p.curToken.Literal then
        exprLoopF fuel precedence
          (some (.literal "float" (.floatVal p.curToken.Literal))) p
      else
        exprLoopF fuel precedence none
          { p with errors := p.errors ++
              ["could not parse " ++ goQuote p.curToken.Literal ++ " as float"] }
    | .STRING =>
      exprLoopF fuel precedence (some (.literal "string" (.strVal p.curToken.Literal))) p
    | .TRUE =>
      exprLoopF fuel precedence (some (.literal "bool" (.boolVal (p.curTokenIs .TRUE)))) p
    | .FALSE =>
      exprLoopF fuel precedence (some (.literal "bool" (.boolVal (p.curTokenIs .TRUE)))) p
    | .NIL => exprLoopF fuel precedence (some (.literal "nil" .nilVal)) p
    | .MINUS =>
      let op := p.curToken.Literal
      let p := p.nextToken
      match parseExpressionF fuel PREFIX p with
      | none => none
      | some (operand, p) =>
        exprLoopF fuel precedence (some (.unaryExpr op operand)) p
    | .NOT =>
      let op := p.curToken.Literal
      let p := p.nextToken
      match parseExpressionF fuel PREFIX p with
      | none => none
      | some (operand, p) =>
        exprLoopF fuel precedence (some (.unaryExpr op operand)) p
    | .LPAREN =>
      let p := p.nextToken
      match parseExpressionF fuel LOWEST p with
      | none => none
      | some (e, p) =>
        match p.expectPeek .RPAREN with
        | (false, p) => exprLoopF fuel precedence none p
        | (true, p) => exprLoopF fuel precedence e p
    | .LBRACKET =>
      match parseExpressionListF fuel .RBRACKET p with
      | none => none
      | some (elems, p) =>
        exprLoopF fuel precedence (some (.arrayLiteral elems)) p
    | .LBRACE =>
      if p.peekTokenIs .RBRACE then
        exprLoopF fuel precedence (some (.mapLiteral [])) p.nextToken
      else
        let p := p.nextToken
        match mapPairsLoopF fuel [] p with
        | none => none
        | some (none, p) => exprLoopF fuel precedence none p
        | some (some pairs, p) =>
          match p.expectPeek .RBRACE with
          | (false, p) => exprLoopF fuel precedence none p
          | (true, p) => exprLoopF fuel precedence (some (.mapLiteral pairs)) p
    | t => some (none, p.noPrefixFnError t)

/-- The infix-continuation (climbing) loop of `parseExpression`
(parser.go:717-728) with the registered infix parse functions
(parser.go:774-789, 852-880) inlined after the `p.nextToken()`: the new
current token is the lookahead the function was registered under. -/
def exprLoopF : Nat → Nat → Option Expression → Parser → Option (Option Expression × Parser)
  | 0, _, _, _ => none
  | fuel+1, precedence, leftExp, p =>
    if ¬ p.peekTokenIs .NEWLINE ∧ ¬ p.peekTokenIs .EOF ∧ ¬ p.peekTokenIs .INDENT ∧
        ¬ p.peekTokenIs .DEDENT ∧ precedence < p.peekPrecedence then
      if hasInfixFn p.peekToken.type_ then
        let p := p.nextToken
        match p.curToken.type_ with
        | .LPAREN =>
          match parseExpressionListF fuel .RPAREN p with
          | none => none
          | some (args, p) =>
            exprLoopF fuel precedence (some (.callExpr leftExp args)) p
        | .LBRACKET =>
          let p := p.nextToken
          match parseExpressionF fuel LOWEST p with
          | none => none
          | some (idx, p) =>
            match p.expectPeek .RBRACKET with
            | (false, p) => exprLoopF fuel precedence none p
            | (true, p) =>
              exprLoopF fuel precedence (some (.indexExpr leftExp idx)) p
        | .DOT =>
          match p.expectPeek .IDENT with
          | (false, p) => exprLoopF fuel precedence none p
          | (true, p) =>
            exprLoopF fuel precedence
              (some (.selectorExpr leftExp p.curToken.Literal)) p
        | _ =>
          let op := p.curToken.Literal
          let prec2 := p.curPrecedence
          let p := p.nextToken
          match parseExpressionF fuel prec2 p with
          | none => none
          | some (right, p) =>
            exprLoopF fuel precedence (some (.binaryExpr leftExp op right)) p
      else some (leftExp, p)
    else some (leftExp, p)

/-- The key/value loop of `parseMapLiteral` (parser.go:828-843); the inner
`none` is the `return nil` aborting the whole map literal. -/
def mapPairsLoopF : Nat → List (Option Expression × Option Expression) → Parser →
    Option (Option (List (Option Expression × Option Expression)) × Parser)
  | 0, _, _ => none
  | fuel+1, pairs, p =>
    match parseExpressionF fuel LOWEST p with
    | none => none
    | some (key, p) =>
      match p.expectPeek .COLON with
      | (false, p) => some (none, p)
      | (true, p) =>
        let p := p.nextToken
        match parseExpressionF fuel LOWEST p with
        | none => none
        | some (value, p) =>
          let pairs := pairs ++ [(key, value)]
          if ¬ p.peekTokenIs .COMMA then some (some pairs, p)
          else
            let p := p.nextToken
            let p := p.nextToken
            mapPairsLoopF fuel pairs p

/-- `parseExpressionList` (parser.go:882-903); the inner `Option` is the nil
slice returned when the closing token is missing. -/
def parseExpressionListF : Nat → TokenType → Parser →
    Option (Option (List (Option Expression)) × Parser)
  | 0, _, _ => none
  | fuel+1, endT, p =>
    if p.peekTokenIs endT then some (some [], p.nextToken)
    else
      let p := p.nextToken
      match parseExpressionF fuel LOWEST p with
      | none => none
      | some (e, p) =>
        match exprListLoopF fuel [e] p with
        | none => none
        | some (args, p) =>
          match p.expectPeek endT with
          | (false, p) => some (none, p)
          | (true, p) => some (some args, p)

/-- The comma loop of `parseExpressionList` (parser.go:893-897). -/
def exprListLoopF : Nat → List (Option Expression) → Parser →
    Option (List (Option Expression) × Parser)
  | 0, _, _ => none
  | fuel+1, args, p =>
    if p.peekTokenIs .COMMA then
      let p := p.nextToken
      let p := p.nextToken
      match parseExpressionF fuel LOWEST p with
      | none => none
      | some (e, p) => exprListLoopF fuel (args ++ [e]) p
    else some (args, p)

end

/-- The import loop of `ParseProgram` (parser.go:194-202). -/
def importsLoopF : Nat → List ImportDecl → Parser → Option (List ImportDecl × Parser)
  | 0, _, _ => none
  | fuel+1, acc, p =>
    if p.curTokenIs .IMPORT ∨ p.curTokenIs .FROM then
      match parseImportDeclarationF fuel p with
      | none => none
      | some (d, p) =>
        let acc := match d with
          | some d => acc ++ [d]
          | none => acc
        match skipCurNewlinesF fuel p with
        | none => none
        | some p => importsLoopF fuel acc p
    else some (acc, p)

/-- The statement loop of `ParseProgram` (parser.go:205-223); statements are
always appended (the `stmt != nil` guard is an interface over a typed
pointer, never nil). -/
def statementsLoopF : Nat → List Statement → Parser → Option (List Statement × Parser)
  | 0, _, _ => none
  | fuel+1, acc, p =>
    if ¬ p.curTokenIs .EOF then
      if p.curTokenIs .NEWLINE ∨ p.curTokenIs .INDENT ∨ p.curTokenIs .DEDENT then
        statementsLoopF fuel acc p.nextToken
      else
        match parseStatementF fuel p with
        | none => none
        | some (stmt, p) =>
          let acc := acc ++ [stmt]
          if ¬ p.curTokenIs .EOF then statementsLoopF fuel acc p.nextToken
          else statementsLoopF fuel acc p
    else some (acc, p)

/-- `ParseProgram` (parser.go:174-226). -/
def ParseProgramF : Nat → Parser → Option (Program × Parser)
  | 0, _ => none
  | fuel+1, p =>
    let pkgp : String × Parser :=
      if p.curTokenIs .PACKAGE then
        let p := p.nextToken
        if p.curTokenIs .IDENT then (p.curToken.Literal, p.nextToken) else ("", p)
      else ("main", p)
    match skipCurNewlinesF fuel pkgp.2 with
    | none => none
    | some p =>
      match importsLoopF fuel [] p with
      | none => none
      | some (imports, p) =>
        match statementsLoopF fuel [] p with
        | none => none
        | some (stmts, p) => some (⟨pkgp.1, imports, stmts⟩, p)

/-- Collect the lexer's tokens up to and including the first EOF token.  By
`claim_C10_progress` a fuel of `input.length + 2` always reaches EOF; the
claims below apply this to concrete inputs only, where the computation shows
the produced list ends in the EOF token. -/
def tokenizeAux : Nat → Lexer → List Token
  | 0, _ => []
  | fuel+1, l =>
    let r := l.NextToken
    if r.1.type_ = .EOF then [r.1] else r.1 :: tokenizeAux fuel r.2

def tokensOf (input : String) : List Token :=
  tokenizeAux (input.length + 2) (Lexer.new input)

/-! ### Parser claims -/

/-- Run the whole pipeline on a concrete source string; 1000 is simply a
fuel large enough for the tiny concrete inputs of the claims below. -/
def parseInput (s : String) : Option (Program × Parser) :=
  ParseProgramF 1000 (Parser.new (tokensOf s))

/-- **C1**: `1 + 2 * 3` parses as `1 + (2 * 3)` — a binary `+` whose left
operand is the literal 1 and whose right operand is a nested binary `*` over
2 and 3 — with no errors; and in the static precedence table the
multiplicative operators (`*`, `/`, `%`, `**`) all sit strictly above the
additive ones (`+`, `-`), which sit strictly above the relational and
equality ones. -/
theorem claim_C1_precedence :
    ((parseInput "1 + 2 * 3").map (fun r => (r.1.Statements, r.2.errors)) =
      some ([Statement.exprStmt ⟨some (.binaryExpr
        (some (.literal "int" (.intVal 1))) "+"
        (some (.binaryExpr (some (.literal "int" (.intVal 2))) "*"
          (some (.literal "int" (.intVal 3))))))⟩], [])) ∧
    (precedences .MULTIPLY = some PRODUCT ∧ precedences .DIVIDE = some PRODUCT ∧
      precedences .MODULO = some PRODUCT ∧ precedences .POWER = some PRODUCT ∧
      precedences .PLUS = some SUM ∧ precedences .MINUS = some SUM ∧
      precedences .LT = some LESSGREATER ∧ precedences .GT = some LESSGREATER ∧
      precedences .LT_EQ = some LESSGREATER ∧ precedences .GT_EQ = some LESSGREATER ∧
      precedences .EQ = some EQUALS ∧ precedences .NOT_EQ = some EQUALS ∧
      SUM < PRODUCT ∧ LESSGREATER < SUM ∧ EQUALS < LESSGREATER) :=
  ⟨by with_unfolding_all rfl, by decide⟩

/-- **C3** (evidence of the code bug): the struct guard
`!curTokenIs(EOF) && curTokenIs(IDENT) || curTokenIs(FUNC)` is false on the
NEWLINE after `struct Person:`, so the one-field-one-method struct parses to
a `StructDecl` with *empty* `Fields` and `Methods`; the field line and the
method then leak out as top-level statements. -/
theorem claim_C3_struct_empty :
    (parseInput
        "struct Person:\n    name string\n    func greet():\n        return \"Hello\"").map
      (fun r => r.1.Statements.head?) =
      some (some (.structDecl (some (.mk "Person" [] [])))) := by
  with_unfolding_all rfl

/-- **C4, counterexample**: the claim says every surface import form stores
an alias-resolved path, but the unquoted identifier form stores the written
name verbatim: `import json` keeps `"json"` even though the alias table maps
it to `encoding/json`. -/
theorem claim_C4_counterexample :
    (parseInput "import json").map (fun r => r.1.Imports) =
        some [{ Path := "json", Alias := "", Items := [] }] ∧
      GetRealPackagePath "json" = "encoding/json" ∧
      ("json" : String) ≠ "\"encoding/json\"" ∧ ("json" : String) ≠ "encoding/json" :=
  ⟨by with_unfolding_all rfl, by decide, by decide, by decide⟩

/-- **C4, amended**: alias resolution at construction time holds for the
quoted single form and for every item of the parenthesised list form (each
stored as `"` + GetRealPackagePath(trimmed) + `"`), while the unquoted
identifier form stores the identifier verbatim, unresolved. -/
theorem claim_C4_amended :
    (∀ (fuel : Nat) (p : Parser), p.curToken.type_ = .IMPORT →
      p.nextToken.curToken.type_ = .STRING →
      ∃ al pr, parseImportDeclarationF (fuel+1) p = some (some
        ⟨"\"" ++ GetRealPackagePath (stringsTrimQuotes p.nextToken.curToken.Literal)
          ++ "\"", al, []⟩, pr)) ∧
    (∀ (fuel : Nat) (p : Parser), p.curToken.type_ = .IMPORT →
      p.nextToken.curToken.type_ = .IDENT →
      parseImportDeclarationF (fuel+1) p =
        some (some ⟨p.nextToken.curToken.Literal, "", []⟩, p.nextToken)) ∧
    (∀ (fuel : Nat) (acc : List String) (p : Parser) r,
      parenItemsLoopF fuel acc p = some r → ∀ s ∈ r.1, s ∈ acc ∨
        ∃ lit, s = "\"" ++ GetRealPackagePath (stringsTrimQuotes lit) ++ "\"") := by
  refine ⟨?_, ?_, ?_⟩
  · intro fuel p him hs
    have h1 : ¬ (p.curTokenIs .FROM = true) := by
      simp [Parser.curTokenIs, him]
    have h2 : p.curTokenIs .IMPORT = true := by
      simp [Parser.curTokenIs, him]
    have h3 : ¬ (p.nextToken.curTokenIs .LPAREN = true) := by
      simp [Parser.curTokenIs, hs]
    have h4 : p.nextToken.curTokenIs .STRING = true := by
      simp [Parser.curTokenIs, hs]
    simp only [parseImportDeclarationF]
    rw [if_neg h1, if_pos h2, if_neg h3, if_pos h4]
    by_cases ha : (p.nextToken.nextToken.curTokenIs .IDENT = true) ∧
        p.nextToken.nextToken.curToken.Literal = "as"
    · rw [if_pos ha]
      by_cases hb : p.nextToken.nextToken.nextToken.curTokenIs .IDENT = true
      · rw [if_pos hb]
        exact ⟨_, _, rfl⟩
      · rw [if_neg hb]
        exact ⟨_, _, rfl⟩
    · rw [if_neg ha]
      exact ⟨_, _, rfl⟩
  · intro fuel p him hi
    have h1 : ¬ (p.curTokenIs .FROM = true) := by
      simp [Parser.curTokenIs, him]
    have h2 : p.curTokenIs .IMPORT = true := by
      simp [Parser.curTokenIs, him]
    have h3 : ¬ (p.nextToken.curTokenIs .LPAREN = true) := by
      simp [Parser.curTokenIs, hi]
    have h4 : ¬ (p.nextToken.curTokenIs .STRING = true) := by
      simp [Parser.curTokenIs, hi]
    have h5 : p.nextToken.curTokenIs .IDENT = true := by
      simp [Parser.curTokenIs, hi]
    simp only [parseImportDeclarationF]
    rw [if_neg h1, if_pos h2, if_neg h3, if_neg h4, if_pos h5]
  · intro fuel
    induction fuel with
    | zero => intro acc p r h; exact Option.noConfusion h
    | succ fuel ih =>
      intro acc p r h s hs
      by_cases hg : ¬ (p.curTokenIs .RPAREN = true) ∧ ¬ (p.curTokenIs .EOF = true)
      · rw [parenItemsLoopF, if_pos hg] at h
        by_cases hstr : p.curTokenIs .STRING = true
        · rw [if_pos hstr] at h
          rcases ih _ _ _ h s hs with hmem | hex
          · rcases List.mem_append.mp hmem with hmem2 | hmem2
            · exact Or.inl hmem2
            · exact Or.inr ⟨p.curToken.Literal, by simpa using hmem2⟩
          · exact Or.inr hex
        · rw [if_neg hstr] at h
          exact ih _ _ _ h s hs
      · rw [parenItemsLoopF, if_neg hg] at h
        obtain rfl : (acc, p) = r := by injection h
        exact Or.inl hs

theorem claim_C4_amended_witness :
    ∃ al pr, parseImportDeclarationF 1000 (Parser.new (tokensOf "import \"json\"")) =
      some (some ⟨"\"encoding/json\"", al, []⟩, pr) := by
  have h := claim_C4_amended.1 999 (Parser.new (tokensOf "import \"json\""))
    (by with_unfolding_all decide) (by with_unfolding_all decide)
  have hq : "\"" ++ GetRealPackagePath (stringsTrimQuotes
      (Parser.new (tokensOf "import \"json\"")).nextToken.curToken.Literal) ++ "\"" =
      "\"encoding/json\"" := by with_unfolding_all decide
  rw [hq] at h
  exact h

/-- **C7**: the infix-continuation loop of `parseExpression` stops
unconditionally — returning the left expression with the parser untouched,
consuming nothing — whenever the lookahead token is a NEWLINE, EOF, INDENT
or DEDENT token, for every precedence threshold, left expression and parser
state. -/
theorem claim_C7_boundary (fuel precedence : Nat) (leftExp : Option Expression)
    (p : Parser)
    (h : p.peekToken.type_ = .NEWLINE ∨ p.peekToken.type_ = .EOF ∨
      p.peekToken.type_ = .INDENT ∨ p.peekToken.type_ = .DEDENT) :
    exprLoopF (fuel+1) precedence leftExp p = some (leftExp, p) := by
  simp only [exprLoopF]
  rw [if_neg]
  intro hg
  rcases hg with ⟨h1, h2, h3, h4, -⟩
  simp only [Parser.peekTokenIs, decide_eq_true_eq] at h1 h2 h3 h4
  rcases h with h | h | h | h <;> simp_all

theorem claim_C7_boundary_witness :
    exprLoopF 1 LOWEST none (Parser.new []) = some (none, Parser.new []) :=
  claim_C7_boundary 0 LOWEST none (Parser.new []) (Or.inr (Or.inl (by decide)))

/-- The comment-free invariant on the parser's token window. -/
def Parser.noComment (p : Parser) : Prop :=
  p.curToken.type_ ≠ .COMMENT ∧ p.peekToken.type_ ≠ .COMMENT

theorem nextNonComment_fst (ts : List Token) :
    (nextNonComment ts).1.type_ ≠ .COMMENT := by
  induction ts with
  | nil => intro h; exact TokenType.noConfusion (h : TokenType.EOF = TokenType.COMMENT)
  | cons t ts ih =>
    rw [nextNonComment]
    by_cases h : t.type_ = .COMMENT
    · rw [if_pos h]; exact ih
    · rw [if_neg h]; exact h

theorem noComment_nextToken (p : Parser) (h : p.peekToken.type_ ≠ .COMMENT) :
    p.nextToken.noComment :=
  ⟨h, nextNonComment_fst p.toks⟩

def nextTokenIter : Nat → Parser → Parser
  | 0, p => p
  | n+1, p => nextTokenIter n p.nextToken

/-- **C9**: after construction and through any number of `nextToken` steps —
and every parser operation advances the token window only through
`nextToken` — the current token is never a comment token: `nextToken`
filters comments out of the lookahead, so a comment can never reach
statement dispatch or expression-start position. -/
theorem claim_C9_no_comment (toks : List Token) (n : Nat) :
    (nextTokenIter n (Parser.new toks)).noComment := by
  have key : ∀ (m : Nat) (p : Parser), p.noComment →
      (nextTokenIter m p).noComment := by
    intro m
    induction m with
    | zero => intro p h; exact h
    | succ m ih => intro p h; exact ih _ (noComment_nextToken _ h.2)
  refine key n _ (noComment_nextToken _ (nextNonComment_fst _))

/-! ### Termination of the parser (claim C2)

The measure `Parser.meas` drops strictly at every `nextToken` except in the
fully exhausted state (no tokens left, current and lookahead both EOF), and
every loop of the parser either consumes a token per iteration or exits
immediately in the exhausted state.  The adequacy theorems show that a fuel
of `16 * meas + 16` is enough for every parser function on every state, so
the fueled embedding never returns `none` there: that is the termination of
the Go functions, whose recursion structure the fuel merely instruments. -/

def Parser.meas (p : Parser) : Nat :=
  3 * p.toks.length + (if p.peekToken.type_ = .EOF then 0 else 2) +
    (if p.curToken.type_ = .EOF then 0 else 1)

/-- The state in which `nextToken` no longer makes progress. -/
def Parser.exhausted (p : Parser) : Prop :=
  p.toks = [] ∧ p.peekToken.type_ = .EOF ∧ p.curToken.type_ = .EOF

theorem nextNonComment_length_le (ts : List Token) :
    (nextNonComment ts).2.length ≤ ts.length := by
  induction ts with
  | nil => exact Nat.le_refl _
  | cons t ts ih =>
    rw [nextNonComment]
    by_cases h : t.type_ = .COMMENT
    · rw [if_pos h]; exact le_trans ih (Nat.le_succ _)
    · rw [if_neg h]; exact Nat.le_succ _

theorem nextNonComment_length_lt (t : Token) (ts : List Token) :
    (nextNonComment (t :: ts)).2.length < (t :: ts).length := by
  rw [nextNonComment]
  by_cases h : t.type_ = .COMMENT
  · rw [if_pos h]; exact Nat.lt_succ_of_le (nextNonComment_length_le ts)
  · rw [if_neg h]; exact Nat.lt_succ_of_le (Nat.le_refl _)

theorem Parser.meas_nextToken (p : Parser) :
    p.nextToken.meas < p.meas ∨ (p.exhausted ∧ p.nextToken.meas = p.meas) := by
  have hmeq : p.nextToken.meas = 3 * (nextNonComment p.toks).2.length +
      (if (nextNonComment p.toks).1.type_ = .EOF then 0 else 2) +
      (if p.peekToken.type_ = .EOF then 0 else 1) := rfl
  match hts : p.toks with
  | [] =>
    have hnc : nextNonComment p.toks = (eofToken, []) := by rw [hts]; rfl
    by_cases hpk : p.peekToken.type_ = .EOF
    · by_cases hcur : p.curToken.type_ = .EOF
      · refine Or.inr ⟨⟨hts, hpk, hcur⟩, ?_⟩
        rw [hmeq, hnc]
        simp [Parser.meas, hts, hpk, hcur, eofToken]
      · refine Or.inl ?_
        rw [hmeq, hnc]
        simp [Parser.meas, hts, hpk, hcur, eofToken]
    · by_cases hcur : p.curToken.type_ = .EOF
      · refine Or.inl ?_
        rw [hmeq, hnc]
        simp [Parser.meas, hts, hpk, hcur, eofToken]
      · refine Or.inl ?_
        rw [hmeq, hnc]
        simp [Parser.meas, hts, hpk, hcur, eofToken]
  | t :: ts =>
    refine Or.inl ?_
    have hlen : (nextNonComment p.toks).2.length < p.toks.length := by
      rw [hts]; exact nextNonComment_length_lt t ts
    rw [hmeq]
    simp only [Parser.meas]
    have h2 : (if (nextNonComment p.toks).1.type_ = TokenType.EOF
        then 0 else 2) ≤ 2 := by split <;> omega
    have h4 : (if p.peekToken.type_ = TokenType.EOF then 0 else 1) ≤
        (if p.peekToken.type_ = TokenType.EOF then 0 else 2) := by
      split <;> omega
    omega

theorem Parser.meas_nextToken_le (p : Parser) : p.nextToken.meas ≤ p.meas := by
  rcases p.meas_nextToken with h | ⟨-, h⟩
  · exact le_of_lt h
  · exact le_of_eq h

theorem Parser.not_exhausted_of_cur (p : Parser) (h : p.curToken.type_ ≠ .EOF) :
    ¬ p.exhausted := fun he => h he.2.2

theorem Parser.not_exhausted_of_peek (p : Parser) (h : p.peekToken.type_ ≠ .EOF) :
    ¬ p.exhausted := fun he => h he.2.1

theorem Parser.meas_nextToken_lt (p : Parser) (h : ¬ p.exhausted) :
    p.nextToken.meas < p.meas := by
  rcases p.meas_nextToken with h1 | ⟨h1, -⟩
  · exact h1
  · exact absurd h1 h

theorem Parser.meas_nextToken_lt_cur (p : Parser) (h : p.curToken.type_ ≠ .EOF) :
    p.nextToken.meas < p.meas := p.meas_nextToken_lt (p.not_exhausted_of_cur h)

theorem Parser.meas_nextToken_lt_peek (p : Parser) (h : p.peekToken.type_ ≠ .EOF) :
    p.nextToken.meas < p.meas := p.meas_nextToken_lt (p.not_exhausted_of_peek h)

theorem Parser.exhausted_nextToken (p : Parser) (h : p.exhausted) :
    p.nextToken.exhausted := by
  refine ⟨?_, ?_, h.2.1⟩ <;>
    simp [Parser.nextToken, h.1, nextNonComment, eofToken]

theorem Parser.meas_peekError (p : Parser) (t : TokenType) :
    (p.peekError t).meas = p.meas := rfl

theorem Parser.meas_noPrefixFnError (p : Parser) (t : TokenType) :
    (p.noPrefixFnError t).meas = p.meas := rfl

theorem Parser.cur_peekError (p : Parser) (t : TokenType) :
    (p.peekError t).curToken = p.curToken := rfl

theorem Parser.peek_peekError (p : Parser) (t : TokenType) :
    (p.peekError t).peekToken = p.peekToken := rfl

theorem Parser.cur_nextToken (p : Parser) :
    p.nextToken.curToken = p.peekToken := rfl

/-- Case analysis for `expectPeek`. -/
theorem Parser.expectPeek_cases (p : Parser) (t : TokenType) :
    (p.expectPeek t = (true, p.nextToken) ∧ p.peekToken.type_ = t) ∨
    (p.expectPeek t = (false, p.peekError t) ∧ p.peekToken.type_ ≠ t) := by
  unfold Parser.expectPeek
  by_cases h : p.peekToken.type_ = t
  · left
    exact ⟨by rw [if_pos (by simp [Parser.peekTokenIs, h])], h⟩
  · right
    exact ⟨by rw [if_neg (by simp [Parser.peekTokenIs, h])], h⟩

theorem Parser.exhausted_meas (p : Parser) (h : p.exhausted) : p.meas = 0 := by
  simp [Parser.meas, h.1, h.2.1, h.2.2]

theorem Parser.meas_pos_of_cur (p : Parser) (h : p.curToken.type_ ≠ .EOF) :
    1 ≤ p.meas := by
  simp only [Parser.meas, if_neg h]
  omega

/-! ### Adequacy of the standalone parser functions

`F_adq` reads: a fuel of `16 * meas + c` (for a small per-function constant
`c`) is enough for `F` to return `some`, and the returned state's measure
never exceeds the input's. -/

theorem skipPeekNewlinesF_adq : ∀ (fuel : Nat) (p : Parser),
    16 * p.meas + 2 ≤ fuel →
    ∃ p2, skipPeekNewlinesF fuel p = some p2 ∧ p2.meas ≤ p.meas := by
  intro fuel
  induction fuel with
  | zero => intro p h; omega
  | succ fuel ih =>
    intro p h
    by_cases hn : p.peekTokenIs .NEWLINE = true
    · have hpk : p.peekToken.type_ = .NEWLINE := by
        simpa [Parser.peekTokenIs] using hn
      have hlt : p.nextToken.meas < p.meas :=
        p.meas_nextToken_lt_peek (by rw [hpk]; decide)
      obtain ⟨p2, h1, h2⟩ := ih p.nextToken (by omega)
      refine ⟨p2, ?_, le_trans h2 (le_of_lt hlt)⟩
      simp only [skipPeekNewlinesF]
      rw [if_pos hn]
      exact h1
    · refine ⟨p, ?_, le_refl _⟩
      simp only [skipPeekNewlinesF]
      rw [if_neg hn]

theorem skipCurNewlinesF_adq : ∀ (fuel : Nat) (p : Parser),
    16 * p.meas + 2 ≤ fuel →
    ∃ p2, skipCurNewlinesF fuel p = some p2 ∧ p2.meas ≤ p.meas := by
  intro fuel
  induction fuel with
  | zero => intro p h; omega
  | succ fuel ih =>
    intro p h
    by_cases hn : p.curTokenIs .NEWLINE = true
    · have hcur : p.curToken.type_ = .NEWLINE := by
        simpa [Parser.curTokenIs] using hn
      have hlt : p.nextToken.meas < p.meas :=
        p.meas_nextToken_lt_cur (by rw [hcur]; decide)
      obtain ⟨p2, h1, h2⟩ := ih p.nextToken (by omega)
      refine ⟨p2, ?_, le_trans h2 (le_of_lt hlt)⟩
      simp only [skipCurNewlinesF]
      rw [if_pos hn]
      exact h1
    · refine ⟨p, ?_, le_refl _⟩
      simp only [skipCurNewlinesF]
      rw [if_neg hn]

theorem parseTypeSpecF_adq : ∀ (fuel : Nat) (p : Parser),
    16 * p.meas + 2 ≤ fuel →
    ∃ r, parseTypeSpecF fuel p = some r ∧ r.2.meas ≤ p.meas := by
  intro fuel
  induction fuel with
  | zero => intro p h; omega
  | succ fuel ih =>
    intro p h
    simp only [parseTypeSpecF]
    by_cases hmul : p.curTokenIs .MULTIPLY = true
    · rw [if_pos hmul]
      have hmul2 : p.curToken.type_ = .MULTIPLY := by
        simpa [Parser.curTokenIs] using hmul
      have hq0 : p.nextToken.meas < p.meas :=
        p.meas_nextToken_lt_cur (by rw [hmul2]; decide)
      by_cases hlb : (p.nextToken).curTokenIs .LBRACKET = true
      · rw [if_pos hlb]
        have hlb2 : (p.nextToken).curToken.type_ = .LBRACKET := by
          simpa [Parser.curTokenIs] using hlb
        have hq1 : (p.nextToken).nextToken.meas < (p.nextToken).meas :=
          Parser.meas_nextToken_lt_cur _ (by rw [hlb2]; decide)
        by_cases hrb : (p.nextToken).nextToken.curTokenIs .RBRACKET = true
        · rw [if_pos hrb]
          have hrb2 : (p.nextToken).nextToken.curToken.type_ = .RBRACKET := by
            simpa [Parser.curTokenIs] using hrb
          have hq2 : (p.nextToken).nextToken.nextToken.meas < (p.nextToken).nextToken.meas :=
            Parser.meas_nextToken_lt_cur _ (by rw [hrb2]; decide)
          obtain ⟨⟨vt, p2⟩, hr, hm⟩ := ih ((p.nextToken).nextToken.nextToken) (by omega)
          have hm2 : p2.meas ≤ (p.nextToken).nextToken.nextToken.meas := hm
          rw [hr]
          dsimp only
          refine ⟨_, rfl, ?_⟩
          show p2.meas ≤ p.meas
          omega
        · rw [if_neg hrb]
          rcases Parser.expectPeek_cases ((p.nextToken).nextToken) .RBRACKET with ⟨he, hp⟩ | ⟨he, hp⟩
          · rw [he]
            dsimp only
            have hq2 : (p.nextToken).nextToken.nextToken.meas < (p.nextToken).nextToken.meas :=
              Parser.meas_nextToken_lt_peek _ (by rw [hp]; decide)
            have hcur3 : (p.nextToken).nextToken.nextToken.curToken.type_ = .RBRACKET := by
              rw [Parser.cur_nextToken, hp]
            have hq3 : (p.nextToken).nextToken.nextToken.nextToken.meas <
                (p.nextToken).nextToken.nextToken.meas :=
              Parser.meas_nextToken_lt_cur _ (by rw [hcur3]; decide)
            obtain ⟨⟨vt, p2⟩, hr, hm⟩ := ih ((p.nextToken).nextToken.nextToken.nextToken) (by omega)
            have hm2 : p2.meas ≤ (p.nextToken).nextToken.nextToken.nextToken.meas := hm
            rw [hr]
            dsimp only
            refine ⟨_, rfl, ?_⟩
            show p2.meas ≤ p.meas
            omega
          · rw [he]
            dsimp only
            refine ⟨_, rfl, ?_⟩
            show ((p.nextToken).nextToken.peekError .RBRACKET).meas ≤ p.meas
            exact le_trans (le_of_eq (Parser.meas_peekError _ _)) (by omega)
      · rw [if_neg hlb]
        by_cases hmap : (p.nextToken).curTokenIs .IDENT ∧ (p.nextToken).curToken.Literal = "map"
        · rw [if_pos hmap]
          rcases Parser.expectPeek_cases (p.nextToken) .LBRACKET with ⟨he, hp⟩ | ⟨he, hp⟩
          · rw [he]
            dsimp only
            have hq1 : (p.nextToken).nextToken.meas < (p.nextToken).meas :=
              Parser.meas_nextToken_lt_peek _ (by rw [hp]; decide)
            have hcur2 : (p.nextToken).nextToken.curToken.type_ = .LBRACKET := by
              rw [Parser.cur_nextToken, hp]
            have hq2 : (p.nextToken).nextToken.nextToken.meas < (p.nextToken).nextToken.meas :=
              Parser.meas_nextToken_lt_cur _ (by rw [hcur2]; decide)
            obtain ⟨⟨kt, p2⟩, hr, hm⟩ := ih ((p.nextToken).nextToken.nextToken) (by omega)
            have hm2 : p2.meas ≤ (p.nextToken).nextToken.nextToken.meas := hm
            rw [hr]
            dsimp only
            rcases Parser.expectPeek_cases p2 .RBRACKET with ⟨he2, hp2⟩ | ⟨he2, hp2⟩
            · rw [he2]
              dsimp only
              have hq4 : p2.nextToken.meas < p2.meas :=
                Parser.meas_nextToken_lt_peek _ (by rw [hp2]; decide)
              have hcur5 : p2.nextToken.curToken.type_ = .RBRACKET := by
                rw [Parser.cur_nextToken, hp2]
              have hq5 : p2.nextToken.nextToken.meas < p2.nextToken.meas :=
                Parser.meas_nextToken_lt_cur _ (by rw [hcur5]; decide)
              obtain ⟨⟨vt, p3⟩, hr2, hm3⟩ := ih (p2.nextToken.nextToken) (by omega)
              have hm4 : p3.meas ≤ p2.nextToken.nextToken.meas := hm3
              rw [hr2]
              dsimp only
              refine ⟨_, rfl, ?_⟩
              show p3.meas ≤ p.meas
              omega
            · rw [he2]
              dsimp only
              refine ⟨_, rfl, ?_⟩
              show (p2.peekError .RBRACKET).meas ≤ p.meas
              exact le_trans (le_of_eq (Parser.meas_peekError _ _)) (by omega)
          · rw [he]
            dsimp only
            refine ⟨_, rfl, ?_⟩
            show ((p.nextToken).peekError .LBRACKET).meas ≤ p.meas
            exact le_trans (le_of_eq (Parser.meas_peekError _ _)) (by omega)
        · rw [if_neg hmap]
          refine ⟨_, rfl, ?_⟩
          show (p.nextToken).meas ≤ p.meas
          omega
    · rw [if_neg hmul]
      have hq0 : p.meas ≤ p.meas := le_refl _
      by_cases hlb : (p).curTokenIs .LBRACKET = true
      · rw [if_pos hlb]
        have hlb2 : (p).curToken.type_ = .LBRACKET := by
          simpa [Parser.curTokenIs] using hlb
        have hq1 : (p).nextToken.meas < (p).meas :=
          Parser.meas_nextToken_lt_cur _ (by rw [hlb2]; decide)
        by_cases hrb : (p).nextToken.curTokenIs .RBRACKET = true
        · rw [if_pos hrb]
          have hrb2 : (p).nextToken.curToken.type_ = .RBRACKET := by
            simpa [Parser.curTokenIs] using hrb
          have hq2 : (p).nextToken.nextToken.meas < (p).nextToken.meas :=
            Parser.meas_nextToken_lt_cur _ (by rw [hrb2]; decide)
          obtain ⟨⟨vt, p2⟩, hr, hm⟩ := ih ((p).nextToken.nextToken) (by omega)
          have hm2 : p2.meas ≤ (p).nextToken.nextToken.meas := hm
          rw [hr]
          dsimp only
          refine ⟨_, rfl, ?_⟩
          show p2.meas ≤ p.meas
          omega
        · rw [if_neg hrb]
          rcases Parser.expectPeek_cases ((p).nextToken) .RBRACKET with ⟨he, hp⟩ | ⟨he, hp⟩
          · rw [he]
            dsimp only
            have hq2 : (p).nextToken.nextToken.meas < (p).nextToken.meas :=
              Parser.meas_nextToken_lt_peek _ (by rw [hp]; decide)
            have hcur3 : (p).nextToken.nextToken.curToken.type_ = .RBRACKET := by
              rw [Parser.cur_nextToken, hp]
            have hq3 : (p).nextToken.nextToken.nextToken.meas <
                (p).nextToken.nextToken.meas :=
              Parser.meas_nextToken_lt_cur _ (by rw [hcur3]; decide)
            obtain ⟨⟨vt, p2⟩, hr, hm⟩ := ih ((p).nextToken.nextToken.nextToken) (by omega)
            have hm2 : p2.meas ≤ (p).nextToken.nextToken.nextToken.meas := hm
            rw [hr]
            dsimp only
            refine ⟨_, rfl, ?_⟩
            show p2.meas ≤ p.meas
            omega
          · rw [he]
            dsimp only
            refine ⟨_, rfl, ?_⟩
            show ((p).nextToken.peekError .RBRACKET).meas ≤ p.meas
            exact le_trans (le_of_eq (Parser.meas_peekError _ _)) (by omega)
      · rw [if_neg hlb]
        by_cases hmap : (p).curTokenIs .IDENT ∧ (p).curToken.Literal = "map"
        · rw [if_pos hmap]
          rcases Parser.expectPeek_cases (p) .LBRACKET with ⟨he, hp⟩ | ⟨he, hp⟩
          · rw [he]
            dsimp only
            have hq1 : (p).nextToken.meas < (p).meas :=
              Parser.meas_nextToken_lt_peek _ (by rw [hp]; decide)
            have hcur2 : (p).nextToken.curToken.type_ = .LBRACKET := by
              rw [Parser.cur_nextToken, hp]
            have hq2 : (p).nextToken.nextToken.meas < (p).nextToken.meas :=
              Parser.meas_nextToken_lt_cur _ (by rw [hcur2]; decide)
            obtain ⟨⟨kt, p2⟩, hr, hm⟩ := ih ((p).nextToken.nextToken) (by omega)
            have hm2 : p2.meas ≤ (p).nextToken.nextToken.meas := hm
            rw [hr]
            dsimp only
            rcases Parser.expectPeek_cases p2 .RBRACKET with ⟨he2, hp2⟩ | ⟨he2, hp2⟩
            · rw [he2]
              dsimp only
              have hq4 : p2.nextToken.meas < p2.meas :=
                Parser.meas_nextToken_lt_peek _ (by rw [hp2]; decide)
              have hcur5 : p2.nextToken.curToken.type_ = .RBRACKET := by
                rw [Parser.cur_nextToken, hp2]
              have hq5 : p2.nextToken.nextToken.meas < p2.nextToken.meas :=
                Parser.meas_nextToken_lt_cur _ (by rw [hcur5]; decide)
              obtain ⟨⟨vt, p3⟩, hr2, hm3⟩ := ih (p2.nextToken.nextToken) (by omega)
              have hm4 : p3.meas ≤ p2.nextToken.nextToken.meas := hm3
              rw [hr2]
              dsimp only
              refine ⟨_, rfl, ?_⟩
              show p3.meas ≤ p.meas
              omega
            · rw [he2]
              dsimp only
              refine ⟨_, rfl, ?_⟩
              show (p2.peekError .RBRACKET).meas ≤ p.meas
              exact le_trans (le_of_eq (Parser.meas_peekError _ _)) (by omega)
          · rw [he]
            dsimp only
            refine ⟨_, rfl, ?_⟩
            show ((p).peekError .LBRACKET).meas ≤ p.meas
            exact le_trans (le_of_eq (Parser.meas_peekError _ _)) (by omega)
        · rw [if_neg hmap]
          refine ⟨_, rfl, ?_⟩
          show (p).meas ≤ p.meas
          omega

theorem parseOneParamF_adq : ∀ (fuel : Nat) (p : Parser),
    16 * p.meas + 2 ≤ fuel →
    ∃ r, parseOneParamF fuel p = some r ∧ r.2.meas ≤ p.meas := by
  intro fuel p h
  match fuel with
  | 0 => omega
  | fuel+1 =>
    simp only [parseOneParamF]
    by_cases hi : p.peekTokenIs .IDENT = true
    · rw [if_pos hi]
      have hpk : p.peekToken.type_ = .IDENT := by
        simpa [Parser.peekTokenIs] using hi
      have hq1 : p.nextToken.meas < p.meas :=
        p.meas_nextToken_lt_peek (by rw [hpk]; decide)
      obtain ⟨⟨ts, p2⟩, hr, hm⟩ := parseTypeSpecF_adq fuel p.nextToken (by omega)
      have hm2 : p2.meas ≤ p.nextToken.meas := hm
      rw [hr]
      dsimp only
      refine ⟨_, rfl, ?_⟩
      show p2.meas ≤ p.meas
      omega
    · rw [if_neg hi]
      exact ⟨_, rfl, le_refl _⟩

theorem paramsLoopF_adq : ∀ (fuel : Nat) (acc : List Parameter) (p : Parser),
    16 * p.meas + 2 ≤ fuel →
    ∃ r, paramsLoopF fuel acc p = some r ∧ r.2.meas ≤ p.meas := by
  intro fuel
  induction fuel with
  | zero => intro acc p h; omega
  | succ fuel ih =>
    intro acc p h
    simp only [paramsLoopF]
    by_cases hc : p.peekTokenIs .COMMA = true
    · rw [if_pos hc]
      have hpk : p.peekToken.type_ = .COMMA := by
        simpa [Parser.peekTokenIs] using hc
      have hq1 : p.nextToken.meas < p.meas :=
        p.meas_nextToken_lt_peek (by rw [hpk]; decide)
      have hq2 : p.nextToken.nextToken.meas ≤ p.nextToken.meas :=
        Parser.meas_nextToken_le _
      obtain ⟨⟨prm, p2⟩, hr, hm⟩ := parseOneParamF_adq fuel p.nextToken.nextToken (by omega)
      have hm2 : p2.meas ≤ p.nextToken.nextToken.meas := hm
      rw [hr]
      dsimp only
      obtain ⟨r2, hr2, hm3⟩ := ih (acc ++ [prm]) p2 (by omega)
      exact ⟨r2, hr2, by omega⟩
    · rw [if_neg hc]
      exact ⟨_, rfl, le_refl _⟩

theorem parseFunctionParametersF_adq : ∀ (fuel : Nat) (p : Parser),
    16 * p.meas + 3 ≤ fuel →
    ∃ r, parseFunctionParametersF fuel p = some r ∧ r.2.meas ≤ p.meas := by
  intro fuel p h
  match fuel with
  | 0 => omega
  | fuel+1 =>
    simp only [parseFunctionParametersF]
    by_cases hr0 : p.peekTokenIs .RPAREN = true
    · rw [if_pos hr0]
      exact ⟨_, rfl, le_refl _⟩
    · rw [if_neg hr0]
      have hq1 : p.nextToken.meas ≤ p.meas := Parser.meas_nextToken_le _
      obtain ⟨⟨prm, p2⟩, hr, hm⟩ := parseOneParamF_adq fuel p.nextToken (by omega)
      have hm2 : p2.meas ≤ p.nextToken.meas := hm
      rw [hr]
      dsimp only
      obtain ⟨r2, hr2, hm3⟩ := paramsLoopF_adq fuel [prm] p2 (by omega)
      exact ⟨r2, hr2, by omega⟩

theorem fromItemsLoopF_adq : ∀ (fuel : Nat) (items : List String) (p : Parser),
    16 * p.meas + 2 ≤ fuel →
    ∃ r, fromItemsLoopF fuel items p = some r ∧ r.2.meas ≤ p.meas := by
  intro fuel
  induction fuel with
  | zero => intro items p h; omega
  | succ fuel ih =>
    intro items p h
    simp only [fromItemsLoopF]
    by_cases hc : p.peekTokenIs .COMMA = true
    · rw [if_neg (by simp [hc] : ¬ ¬ p.peekTokenIs .COMMA = true)]
      have hpk : p.peekToken.type_ = .COMMA := by
        simpa [Parser.peekTokenIs] using hc
      have hq1 : p.nextToken.meas < p.meas :=
        p.meas_nextToken_lt_peek (by rw [hpk]; decide)
      have hq2 : p.nextToken.nextToken.meas ≤ p.nextToken.meas :=
        Parser.meas_nextToken_le _
      obtain ⟨r2, hr2, hm3⟩ := ih (if p.curTokenIs .IDENT = true then
        items ++ [p.curToken.Literal] else items) p.nextToken.nextToken (by omega)
      exact ⟨r2, hr2, by omega⟩
    · rw [if_pos hc]
      exact ⟨_, rfl, le_refl _⟩

theorem parenItemsLoopF_adq : ∀ (fuel : Nat) (items : List String) (p : Parser),
    16 * p.meas + 2 ≤ fuel →
    ∃ r, parenItemsLoopF fuel items p = some r ∧ r.2.meas ≤ p.meas := by
  intro fuel
  induction fuel with
  | zero => intro items p h; omega
  | succ fuel ih =>
    intro items p h
    simp only [parenItemsLoopF]
    by_cases hg : ¬ p.curTokenIs .RPAREN = true ∧ ¬ p.curTokenIs .EOF = true
    · rw [if_pos hg]
      have hcur : p.curToken.type_ ≠ .EOF := by
        intro hx
        exact hg.2 (by simp [Parser.curTokenIs, hx])
      have hq1 : p.nextToken.meas < p.meas := p.meas_nextToken_lt_cur hcur
      by_cases hcm : p.nextToken.curTokenIs .COMMA = true
      · rw [if_pos hcm]
        have hq2 : p.nextToken.nextToken.meas ≤ p.nextToken.meas :=
          Parser.meas_nextToken_le _
        obtain ⟨r2, hr2, hm3⟩ := ih (if p.curTokenIs .STRING = true then
            items ++ ["\"" ++ GetRealPackagePath (stringsTrimQuotes p.curToken.Literal)
              ++ "\""] else items)
          p.nextToken.nextToken (by omega)
        exact ⟨r2, hr2, by omega⟩
      · rw [if_neg hcm]
        obtain ⟨r2, hr2, hm3⟩ := ih (if p.curTokenIs .STRING = true then
            items ++ ["\"" ++ GetRealPackagePath (stringsTrimQuotes p.curToken.Literal)
              ++ "\""] else items)
          p.nextToken (by omega)
        exact ⟨r2, hr2, by omega⟩
    · rw [if_neg hg]
      exact ⟨_, rfl, le_refl _⟩

theorem parseImportDeclarationF_adq : ∀ (fuel : Nat) (p : Parser),
    16 * p.meas + 3 ≤ fuel →
    ∃ r, parseImportDeclarationF fuel p = some r ∧ r.2.meas ≤ p.meas ∧
      (p.curToken.type_ = .IMPORT ∨ p.curToken.type_ = .FROM →
        r.2.meas < p.meas) := by
  intro fuel p h
  match fuel with
  | 0 => omega
  | fuel+1 =>
    simp only [parseImportDeclarationF]
    by_cases hfrom : p.curTokenIs .FROM = true
    · rw [if_pos hfrom]
      have hcur : p.curToken.type_ = .FROM := by
        simpa [Parser.curTokenIs] using hfrom
      have hq1 : p.nextToken.meas < p.meas :=
        p.meas_nextToken_lt_cur (by rw [hcur]; decide)
      by_cases hstr : p.nextToken.curTokenIs .STRING = true
      · rw [if_neg (by simp [hstr] : ¬ ¬ p.nextToken.curTokenIs .STRING = true)]
        have hcur1 : p.nextToken.curToken.type_ = .STRING := by
          simpa [Parser.curTokenIs] using hstr
        have hq2 : p.nextToken.nextToken.meas < p.nextToken.meas :=
          Parser.meas_nextToken_lt_cur _ (by rw [hcur1]; decide)
        rcases Parser.expectPeek_cases p.nextToken.nextToken .IMPORT with ⟨he, hp⟩ | ⟨he, hp⟩
        · rw [he]
          dsimp only
          have hq3 : p.nextToken.nextToken.nextToken.meas <
              p.nextToken.nextToken.meas :=
            Parser.meas_nextToken_lt_peek _ (by rw [hp]; decide)
          have hq4 : p.nextToken.nextToken.nextToken.nextToken.meas ≤
              p.nextToken.nextToken.nextToken.meas := Parser.meas_nextToken_le _
          obtain ⟨⟨items, p2⟩, hr, hm⟩ :=
            fromItemsLoopF_adq fuel [] p.nextToken.nextToken.nextToken.nextToken (by omega)
          have hm2 : p2.meas ≤ p.nextToken.nextToken.nextToken.nextToken.meas := hm
          rw [hr]
          dsimp only
          have hlt : p2.meas < p.meas := by omega
          exact ⟨_, rfl, le_of_lt hlt, fun _ => hlt⟩
        · rw [he]
          dsimp only
          have hpe := Parser.meas_peekError p.nextToken.nextToken .IMPORT
          have hlt : (p.nextToken.nextToken.peekError .IMPORT).meas < p.meas := by omega
          exact ⟨_, rfl, le_of_lt hlt, fun _ => hlt⟩
      · rw [if_pos (by simp [hstr] : ¬ p.nextToken.curTokenIs .STRING = true)]
        exact ⟨_, rfl, le_of_lt hq1, fun _ => hq1⟩
    · rw [if_neg hfrom]
      by_cases himp : p.curTokenIs .IMPORT = true
      · rw [if_pos himp]
        have hcur : p.curToken.type_ = .IMPORT := by
          simpa [Parser.curTokenIs] using himp
        have hq1 : p.nextToken.meas < p.meas :=
          p.meas_nextToken_lt_cur (by rw [hcur]; decide)
        by_cases hlp : p.nextToken.curTokenIs .LPAREN = true
        · rw [if_pos hlp]
          have hcur1 : p.nextToken.curToken.type_ = .LPAREN := by
            simpa [Parser.curTokenIs] using hlp
          have hq2 : p.nextToken.nextToken.meas < p.nextToken.meas :=
            Parser.meas_nextToken_lt_cur _ (by rw [hcur1]; decide)
          obtain ⟨⟨items, p2⟩, hr, hm⟩ :=
            parenItemsLoopF_adq fuel [] p.nextToken.nextToken (by omega)
          have hm2 : p2.meas ≤ p.nextToken.nextToken.meas := hm
          rw [hr]
          dsimp only
          have hlt : p2.meas < p.meas := by omega
          exact ⟨_, rfl, le_of_lt hlt, fun _ => hlt⟩
        · rw [if_neg hlp]
          by_cases hstr : p.nextToken.curTokenIs .STRING = true
          · rw [if_pos hstr]
            have hcur1 : p.nextToken.curToken.type_ = .STRING := by
              simpa [Parser.curTokenIs] using hstr
            have hq2 : p.nextToken.nextToken.meas < p.nextToken.meas :=
              Parser.meas_nextToken_lt_cur _ (by rw [hcur1]; decide)
            by_cases has : p.nextToken.nextToken.curTokenIs .IDENT ∧
                p.nextToken.nextToken.curToken.Literal = "as"
            · rw [if_pos has]
              have hcur2 : p.nextToken.nextToken.curToken.type_ = .IDENT := by
                have := has.1
                simpa [Parser.curTokenIs] using this
              have hq3 : p.nextToken.nextToken.nextToken.meas <
                  p.nextToken.nextToken.meas :=
                Parser.meas_nextToken_lt_cur _ (by rw [hcur2]; decide)
              by_cases hid : p.nextToken.nextToken.nextToken.curTokenIs .IDENT = true
              · rw [if_pos hid]
                have hlt : p.nextToken.nextToken.nextToken.meas < p.meas := by omega
                exact ⟨_, rfl, le_of_lt hlt, fun _ => hlt⟩
              · rw [if_neg hid]
                have hlt : p.nextToken.nextToken.nextToken.meas < p.meas := by omega
                exact ⟨_, rfl, le_of_lt hlt, fun _ => hlt⟩
            · rw [if_neg has]
              have hlt : p.nextToken.nextToken.meas < p.meas := by omega
              exact ⟨_, rfl, le_of_lt hlt, fun _ => hlt⟩
          · rw [if_neg hstr]
            by_cases hid : p.nextToken.curTokenIs .IDENT = true
            · rw [if_pos hid]
              exact ⟨_, rfl, le_of_lt hq1, fun _ => hq1⟩
            · rw [if_neg hid]
              exact ⟨_, rfl, le_of_lt hq1, fun _ => hq1⟩
      · rw [if_neg himp]
        refine ⟨_, rfl, le_refl _, fun hc => ?_⟩
        rcases hc with hc | hc
        · exact absurd (by simp [Parser.curTokenIs, hc] :
            p.curTokenIs .IMPORT = true) himp
        · exact absurd (by simp [Parser.curTokenIs, hc] :
            p.curTokenIs .FROM = true) hfrom

theorem importsLoopF_adq : ∀ (fuel : Nat) (acc : List ImportDecl) (p : Parser),
    16 * p.meas + 4 ≤ fuel →
    ∃ r, importsLoopF fuel acc p = some r ∧ r.2.meas ≤ p.meas := by
  intro fuel
  induction fuel with
  | zero => intro acc p h; omega
  | succ fuel ih =>
    intro acc p h
    simp only [importsLoopF]
    by_cases hg : p.curTokenIs .IMPORT = true ∨ p.curTokenIs .FROM = true
    · rw [if_pos hg]
      have hcur : p.curToken.type_ = .IMPORT ∨ p.curToken.type_ = .FROM := by
        rcases hg with hg | hg
        · exact Or.inl (by simpa [Parser.curTokenIs] using hg)
        · exact Or.inr (by simpa [Parser.curTokenIs] using hg)
      obtain ⟨⟨d, p2⟩, hr, hm, hstrict⟩ := parseImportDeclarationF_adq fuel p (by omega)
      have hlt : p2.meas < p.meas := hstrict hcur
      rw [hr]
      dsimp only
      obtain ⟨p3, hr2, hm2⟩ := skipCurNewlinesF_adq fuel p2 (by omega)
      rw [hr2]
      dsimp only
      rcases d with - | d
      · obtain ⟨r3, hr3, hm3⟩ := ih acc p3 (by omega)
        exact ⟨r3, hr3, by omega⟩
      · obtain ⟨r3, hr3, hm3⟩ := ih (acc ++ [d]) p3 (by omega)
        exact ⟨r3, hr3, by omega⟩
    · rw [if_neg hg]
      exact ⟨_, rfl, le_refl _⟩

theorem Parser.peek_noPrefixFnError (p : Parser) (t : TokenType) :
    (p.noPrefixFnError t).peekToken = p.peekToken := rfl

theorem Parser.cur_noPrefixFnError (p : Parser) (t : TokenType) :
    (p.noPrefixFnError t).curToken = p.curToken := rfl

theorem Parser.meas_withErrors (p : Parser) (e : List String) :
    (({ p with errors := e } : Parser)).meas = p.meas := rfl

/-! Direct computations in the drained states: when the current token is
already EOF the parser functions return without recursion, which settles the
corner where `nextToken` no longer shrinks the measure. -/

theorem parseExpressionF_at_EOF (fuel prec : Nat) (p : Parser) (hf : 1 ≤ fuel)
    (h : p.curToken.type_ = .EOF) :
    parseExpressionF fuel prec p = some (none, p.noPrefixFnError .EOF) := by
  obtain ⟨g, rfl⟩ : ∃ g, fuel = g + 1 := ⟨fuel - 1, by omega⟩
  simp only [parseExpressionF, h]

theorem parseExpressionStatementF_at_EOF (fuel : Nat) (p : Parser) (hf : 2 ≤ fuel)
    (h : p.curToken.type_ = .EOF) :
    parseExpressionStatementF fuel p = some (⟨none⟩, p.noPrefixFnError .EOF) := by
  obtain ⟨g, rfl⟩ : ∃ g, fuel = g + 1 := ⟨fuel - 1, by omega⟩
  simp only [parseExpressionStatementF]
  rw [parseExpressionF_at_EOF g LOWEST p (by omega) h]

theorem parseStatementF_at_EOF (fuel : Nat) (p : Parser) (hf : 3 ≤ fuel)
    (h : p.curToken.type_ = .EOF) :
    parseStatementF fuel p = some (.exprStmt ⟨none⟩, p.noPrefixFnError .EOF) := by
  obtain ⟨g, rfl⟩ : ∃ g, fuel = g + 1 := ⟨fuel - 1, by omega⟩
  simp only [parseStatementF, h]
  rw [parseExpressionStatementF_at_EOF g p (by omega) h]

theorem exprListLoopF_stop (fuel : Nat) (args : List (Option Expression)) (p : Parser)
    (hf : 1 ≤ fuel) (h : p.peekToken.type_ ≠ .COMMA) :
    exprListLoopF fuel args p = some (args, p) := by
  obtain ⟨g, rfl⟩ : ∃ g, fuel = g + 1 := ⟨fuel - 1, by omega⟩
  simp only [exprListLoopF]
  rw [if_neg (by simp [Parser.peekTokenIs, h])]

theorem blockLoopF_at_EOF (fuel : Nat) (acc : List Statement) (p : Parser)
    (hf : 1 ≤ fuel) (h : p.curToken.type_ = .EOF) :
    blockLoopF fuel acc p = some (acc, p) := by
  obtain ⟨g, rfl⟩ : ∃ g, fuel = g + 1 := ⟨fuel - 1, by omega⟩
  simp only [blockLoopF]
  rw [if_pos (by simp [Parser.curTokenIs, h])]

theorem statementsLoopF_at_EOF (fuel : Nat) (acc : List Statement) (p : Parser)
    (hf : 1 ≤ fuel) (h : p.curToken.type_ = .EOF) :
    statementsLoopF fuel acc p = some (acc, p) := by
  obtain ⟨g, rfl⟩ : ∃ g, fuel = g + 1 := ⟨fuel - 1, by omega⟩
  simp only [statementsLoopF]
  rw [if_neg (by simp [Parser.curTokenIs, h] : ¬ ¬ p.curTokenIs .EOF = true)]

/-- Adequacy of the mutually recursive statement/expression cluster: at fuel
`16 * meas + c` (per-function constants below) every function returns `some`,
with a result state no larger than the input state.  One induction on fuel;
the per-function constants order the non-consuming call edges
(`parseStatement` → handlers, `parseExpressionStatement` → `parseExpression`,
`parseExpression` → its loops, `parseBlockStatement` → its loop → back to
`parseStatement`, the struct loop → `parseFunctionDeclaration`). -/
theorem parserAdq : ∀ fuel : Nat,
    (∀ p : Parser, 16 * p.meas + 5 ≤ fuel →
      ∃ r, parseStatementF fuel p = some r ∧ r.2.meas ≤ p.meas) ∧
    (∀ p : Parser, 16 * p.meas + 4 ≤ fuel →
      ∃ r, parseFunctionDeclarationF fuel p = some r ∧ r.2.meas ≤ p.meas) ∧
    (∀ p : Parser, 16 * p.meas + 4 ≤ fuel →
      ∃ r, parseStructDeclarationF fuel p = some r ∧ r.2.meas ≤ p.meas) ∧
    (∀ (name : String) (fields : List Field) (methods : List FunctionDecl)
        (p : Parser), 16 * p.meas + 5 ≤ fuel →
      ∃ r, structLoopF fuel name fields methods p = some r ∧ r.2.meas ≤ p.meas) ∧
    (∀ p : Parser, 16 * p.meas + 4 ≤ fuel →
      ∃ r, parseVarDeclarationF fuel p = some r ∧ r.2.meas ≤ p.meas) ∧
    (∀ p : Parser, 16 * p.meas + 4 ≤ fuel →
      ∃ r, parseIfStatementF fuel p = some r ∧ r.2.meas ≤ p.meas) ∧
    (∀ p : Parser, 16 * p.meas + 4 ≤ fuel →
      ∃ r, parseForStatementF fuel p = some r ∧ r.2.meas ≤ p.meas) ∧
    (∀ p : Parser, 16 * p.meas + 4 ≤ fuel →
      ∃ r, parseWhileStatementF fuel p = some r ∧ r.2.meas ≤ p.meas) ∧
    (∀ p : Parser, 16 * p.meas + 4 ≤ fuel →
      ∃ r, parseReturnStatementF fuel p = some r ∧ r.2.meas ≤ p.meas) ∧
    (∀ p : Parser, 16 * p.meas + 4 ≤ fuel →
      ∃ r, parseExpressionStatementF fuel p = some r ∧ r.2.meas ≤ p.meas) ∧
    (∀ p : Parser, 16 * p.meas + 7 ≤ fuel →
      ∃ r, parseBlockStatementF fuel p = some r ∧ r.2.meas ≤ p.meas) ∧
    (∀ (acc : List Statement) (p : Parser), 16 * p.meas + 6 ≤ fuel →
      ∃ r, blockLoopF fuel acc p = some r ∧ r.2.meas ≤ p.meas) ∧
    (∀ (prec : Nat) (p : Parser), 16 * p.meas + 3 ≤ fuel →
      ∃ r, parseExpressionF fuel prec p = some r ∧ r.2.meas ≤ p.meas) ∧
    (∀ (prec : Nat) (leftExp : Option Expression) (p : Parser),
        16 * p.meas + 2 ≤ fuel →
      ∃ r, exprLoopF fuel prec leftExp p = some r ∧ r.2.meas ≤ p.meas) ∧
    (∀ (pairs : List (Option Expression × Option Expression)) (p : Parser),
        16 * p.meas + 4 ≤ fuel →
      ∃ r, mapPairsLoopF fuel pairs p = some r ∧ r.2.meas ≤ p.meas) ∧
    (∀ (endT : TokenType) (p : Parser), 16 * p.meas + 2 ≤ fuel →
      ∃ r, parseExpressionListF fuel endT p = some r ∧ r.2.meas ≤ p.meas) ∧
    (∀ (args : List (Option Expression)) (p : Parser), 16 * p.meas + 2 ≤ fuel →
      ∃ r, exprListLoopF fuel args p = some r ∧ r.2.meas ≤ p.meas) := by
  intro fuel
  induction fuel with
  | zero =>
    refine ⟨?_, ?_, ?_, ?_, ?_, ?_, ?_, ?_, ?_, ?_, ?_, ?_, ?_, ?_, ?_, ?_, ?_⟩ <;>
      (intros; omega)
  | succ fuel ih =>
    obtain ⟨ihPS, ihPFD, ihPSD, ihSL, ihPVD, ihPIf, ihPFor, ihPWh, ihPRet,
      ihPES, ihPBS, ihBL, ihPE, ihEL, ihMPL, ihPEL, ihELL⟩ := ih
    refine ⟨?_, ?_, ?_, ?_, ?_, ?_, ?_, ?_, ?_, ?_, ?_, ?_, ?_, ?_, ?_, ?_, ?_⟩
    · -- parseStatementF, c = 5
      intro p h
      simp only [parseStatementF]
      split
      · -- FUNC
        obtain ⟨⟨d, p2⟩, hr, hm⟩ := ihPFD p (by omega)
        have hm2 : p2.meas ≤ p.meas := hm
        rw [hr]
        exact ⟨_, rfl, hm2⟩
      · -- STRUCT
        obtain ⟨⟨d, p2⟩, hr, hm⟩ := ihPSD p (by omega)
        have hm2 : p2.meas ≤ p.meas := hm
        rw [hr]
        exact ⟨_, rfl, hm2⟩
      · -- VAR
        obtain ⟨⟨d, p2⟩, hr, hm⟩ := ihPVD p (by omega)
        have hm2 : p2.meas ≤ p.meas := hm
        rw [hr]
        exact ⟨_, rfl, hm2⟩
      · -- IF
        obtain ⟨⟨d, p2⟩, hr, hm⟩ := ihPIf p (by omega)
        have hm2 : p2.meas ≤ p.meas := hm
        rw [hr]
        exact ⟨_, rfl, hm2⟩
      · -- FOR
        obtain ⟨⟨d, p2⟩, hr, hm⟩ := ihPFor p (by omega)
        have hm2 : p2.meas ≤ p.meas := hm
        rw [hr]
        exact ⟨_, rfl, hm2⟩
      · -- WHILE
        obtain ⟨⟨d, p2⟩, hr, hm⟩ := ihPWh p (by omega)
        have hm2 : p2.meas ≤ p.meas := hm
        rw [hr]
        exact ⟨_, rfl, hm2⟩
      · -- RETURN
        obtain ⟨⟨d, p2⟩, hr, hm⟩ := ihPRet p (by omega)
        have hm2 : p2.meas ≤ p.meas := hm
        rw [hr]
        exact ⟨_, rfl, hm2⟩
      · -- IDENT
        by_cases hw : p.peekTokenIs .WALRUS = true ∨ p.peekTokenIs .ASSIGN = true
        · rw [if_pos hw]
          obtain ⟨⟨d, p2⟩, hr, hm⟩ := ihPVD p (by omega)
          have hm2 : p2.meas ≤ p.meas := hm
          rw [hr]
          exact ⟨_, rfl, hm2⟩
        · rw [if_neg hw]
          obtain ⟨⟨d, p2⟩, hr, hm⟩ := ihPES p (by omega)
          have hm2 : p2.meas ≤ p.meas := hm
          rw [hr]
          exact ⟨_, rfl, hm2⟩
      · -- default
        obtain ⟨⟨d, p2⟩, hr, hm⟩ := ihPES p (by omega)
        have hm2 : p2.meas ≤ p.meas := hm
        rw [hr]
        exact ⟨_, rfl, hm2⟩
    · -- parseFunctionDeclarationF, c = 4
      intro p h
      simp only [parseFunctionDeclarationF]
      rcases Parser.expectPeek_cases p .IDENT with ⟨he1, hp1⟩ | ⟨he1, hp1⟩
      · rw [he1]
        dsimp only
        have hq1 : p.nextToken.meas < p.meas :=
          p.meas_nextToken_lt_peek (by rw [hp1]; decide)
        rcases Parser.expectPeek_cases p.nextToken .LPAREN with ⟨he2, hp2⟩ | ⟨he2, hp2⟩
        · rw [he2]
          dsimp only
          have hq2 : p.nextToken.nextToken.meas < p.nextToken.meas :=
            Parser.meas_nextToken_lt_peek _ (by rw [hp2]; decide)
          obtain ⟨⟨params, p3⟩, hrP, hmP⟩ :=
            parseFunctionParametersF_adq fuel p.nextToken.nextToken (by omega)
          have hm3 : p3.meas ≤ p.nextToken.nextToken.meas := hmP
          rw [hrP]
          dsimp only
          rcases Parser.expectPeek_cases p3 .RPAREN with ⟨he3, hp3⟩ | ⟨he3, hp3⟩
          · rw [he3]
            dsimp only
            have hq4 : p3.nextToken.meas < p3.meas :=
              Parser.meas_nextToken_lt_peek _ (by rw [hp3]; decide)
            by_cases hrt : p3.nextToken.peekTokenIs .IDENT = true ∨
                p3.nextToken.peekTokenIs .LPAREN = true
            · rw [if_pos hrt]
              have hq5 : p3.nextToken.nextToken.meas ≤ p3.nextToken.meas :=
                Parser.meas_nextToken_le _
              obtain ⟨⟨rt, p5⟩, hrT, hmT⟩ :=
                parseTypeSpecF_adq fuel p3.nextToken.nextToken (by omega)
              have hm5 : p5.meas ≤ p3.nextToken.nextToken.meas := hmT
              rw [hrT]
              dsimp only
              rcases Parser.expectPeek_cases (p5) .COLON with ⟨he6, hp6⟩ | ⟨he6, hp6⟩
              · rw [he6]
                dsimp only
                have hq6 : (p5).nextToken.meas < (p5).meas :=
                  Parser.meas_nextToken_lt_peek _ (by rw [hp6]; decide)
                obtain ⟨p7, hrS, hmS⟩ := skipPeekNewlinesF_adq fuel ((p5).nextToken) (by omega)
                rw [hrS]
                dsimp only
                obtain ⟨⟨body, p8⟩, hrB, hmB⟩ := ihPBS p7 (by omega)
                have hm8 : p8.meas ≤ p7.meas := hmB
                rw [hrB]
                dsimp only
                refine ⟨_, rfl, ?_⟩
                dsimp only
                omega
              · rw [he6]
                dsimp only
                refine ⟨_, rfl, ?_⟩
                exact le_trans (le_of_eq (Parser.meas_peekError _ _)) (by omega)
            · rw [if_neg hrt]
              dsimp only
              rcases Parser.expectPeek_cases (p3.nextToken) .COLON with ⟨he6, hp6⟩ | ⟨he6, hp6⟩
              · rw [he6]
                dsimp only
                have hq6 : (p3.nextToken).nextToken.meas < (p3.nextToken).meas :=
                  Parser.meas_nextToken_lt_peek _ (by rw [hp6]; decide)
                obtain ⟨p7, hrS, hmS⟩ := skipPeekNewlinesF_adq fuel ((p3.nextToken).nextToken) (by omega)
                rw [hrS]
                dsimp only
                obtain ⟨⟨body, p8⟩, hrB, hmB⟩ := ihPBS p7 (by omega)
                have hm8 : p8.meas ≤ p7.meas := hmB
                rw [hrB]
                dsimp only
                refine ⟨_, rfl, ?_⟩
                dsimp only
                omega
              · rw [he6]
                dsimp only
                refine ⟨_, rfl, ?_⟩
                exact le_trans (le_of_eq (Parser.meas_peekError _ _)) (by omega)
          · rw [he3]
            dsimp only
            refine ⟨_, rfl, ?_⟩
            exact le_trans (le_of_eq (Parser.meas_peekError _ _)) (by omega)
        · rw [he2]
          dsimp only
          refine ⟨_, rfl, ?_⟩
          exact le_trans (le_of_eq (Parser.meas_peekError _ _)) (by omega)
      · rw [he1]
        dsimp only
        exact ⟨_, rfl, le_of_eq (Parser.meas_peekError _ _)⟩
    · -- parseStructDeclarationF, c = 4
      intro p h
      simp only [parseStructDeclarationF]
      rcases Parser.expectPeek_cases p .IDENT with ⟨he1, hp1⟩ | ⟨he1, hp1⟩
      · rw [he1]
        dsimp only
        have hq1 : p.nextToken.meas < p.meas :=
          p.meas_nextToken_lt_peek (by rw [hp1]; decide)
        rcases Parser.expectPeek_cases p.nextToken .COLON with ⟨he2, hp2⟩ | ⟨he2, hp2⟩
        · rw [he2]
          dsimp only
          have hq2 : p.nextToken.nextToken.meas < p.nextToken.meas :=
            Parser.meas_nextToken_lt_peek _ (by rw [hp2]; decide)
          obtain ⟨p3, hrS, hmS⟩ := skipPeekNewlinesF_adq fuel p.nextToken.nextToken (by omega)
          rw [hrS]
          dsimp only
          obtain ⟨⟨fm, p4⟩, hrL, hmL⟩ := ihSL (p.nextToken.curToken.Literal) [] [] p3 (by omega)
          have hm4 : p4.meas ≤ p3.meas := hmL
          rw [hrL]
          dsimp only
          refine ⟨_, rfl, ?_⟩
          dsimp only
          omega
        · rw [he2]
          dsimp only
          refine ⟨_, rfl, ?_⟩
          exact le_trans (le_of_eq (Parser.meas_peekError _ _)) (by omega)
      · rw [he1]
        dsimp only
        exact ⟨_, rfl, le_of_eq (Parser.meas_peekError _ _)⟩
    · -- structLoopF, c = 5
      intro name fields methods p h
      simp only [structLoopF]
      by_cases hg : (¬ p.curTokenIs .EOF = true ∧ p.curTokenIs .IDENT = true) ∨
          p.curTokenIs .FUNC = true
      · rw [if_pos hg]
        have hcurne : p.curToken.type_ ≠ .EOF := by
          rcases hg with ⟨hne, -⟩ | hf
          · intro hx
            exact hne (by simp [Parser.curTokenIs, hx])
          · intro hx
            have hf2 : p.curToken.type_ = .FUNC := by
              simpa [Parser.curTokenIs] using hf
            rw [hx] at hf2
            exact TokenType.noConfusion hf2
        have hp1 : 1 ≤ p.meas := p.meas_pos_of_cur hcurne
        by_cases hnl : p.curTokenIs .NEWLINE = true
        · rw [if_pos hnl]
          have hq1 : p.nextToken.meas < p.meas := p.meas_nextToken_lt_cur hcurne
          obtain ⟨r2, hr2, hm2⟩ := ihSL name fields methods p.nextToken (by omega)
          exact ⟨r2, hr2, by omega⟩
        · rw [if_neg hnl]
          by_cases hfn : p.curTokenIs .FUNC = true
          · rw [if_pos hfn]
            obtain ⟨⟨method, p2⟩, hrM, hmM⟩ := ihPFD p (by omega)
            have hm2 : p2.meas ≤ p.meas := hmM
            rw [hrM]
            dsimp only
            have hx : p2.nextToken.meas + 1 ≤ p.meas := by
              rcases p2.meas_nextToken with hlt2 | ⟨hex2, heq2⟩
              · omega
              · have h0 := p2.exhausted_meas hex2
                omega
            rcases method with - | m
            · dsimp only
              obtain ⟨r2, hr2, hm3⟩ := ihSL name fields methods p2.nextToken (by omega)
              exact ⟨r2, hr2, by omega⟩
            · dsimp only
              obtain ⟨r2, hr2, hm3⟩ :=
                ihSL name fields (methods ++ [setReceiver m name]) p2.nextToken (by omega)
              exact ⟨r2, hr2, by omega⟩
          · rw [if_neg hfn]
            have hq1 : p.nextToken.meas < p.meas := p.meas_nextToken_lt_cur hcurne
            by_cases hid1 : p.nextToken.curTokenIs .IDENT = true
            · rw [if_pos hid1]
              obtain ⟨⟨ft, p2⟩, hrT, hmT⟩ := parseTypeSpecF_adq fuel p.nextToken (by omega)
              have hm2 : p2.meas ≤ p.nextToken.meas := hmT
              rw [hrT]
              dsimp only
              have hq2 : p2.nextToken.meas ≤ p2.meas := Parser.meas_nextToken_le _
              obtain ⟨r2, hr2, hm3⟩ :=
                ihSL name (fields ++ [⟨p.curToken.Literal, ft, ""⟩]) methods
                  p2.nextToken (by omega)
              exact ⟨r2, hr2, by omega⟩
            · rw [if_neg hid1]
              dsimp only
              have hq2 : p.nextToken.nextToken.meas ≤ p.nextToken.meas :=
                Parser.meas_nextToken_le _
              obtain ⟨r2, hr2, hm3⟩ :=
                ihSL name (fields ++ [⟨p.curToken.Literal, none, ""⟩]) methods
                  p.nextToken.nextToken (by omega)
              exact ⟨r2, hr2, by omega⟩
      · rw [if_neg hg]
        exact ⟨_, rfl, le_refl _⟩
    · -- parseVarDeclarationF, c = 4
      intro p h
      simp only [parseVarDeclarationF]
      by_cases hvar : p.curTokenIs .VAR = true
      · rw [if_pos hvar]
        rcases Parser.expectPeek_cases p .IDENT with ⟨he1, hp1⟩ | ⟨he1, hp1⟩
        · rw [he1]
          dsimp only
          have hq1 : p.nextToken.meas < p.meas :=
            p.meas_nextToken_lt_peek (by rw [hp1]; decide)
          by_cases hpid : p.nextToken.peekTokenIs .IDENT = true
          · rw [if_pos hpid]
            have hq2 : p.nextToken.nextToken.meas < p.nextToken.meas :=
              Parser.meas_nextToken_lt_peek _
                (by rw [show p.nextToken.peekToken.type_ = .IDENT from by
                  simpa [Parser.peekTokenIs] using hpid]; decide)
            obtain ⟨⟨ts, p3⟩, hrT, hmT⟩ :=
              parseTypeSpecF_adq fuel p.nextToken.nextToken (by omega)
            have hm3 : p3.meas ≤ p.nextToken.nextToken.meas := hmT
            rw [hrT]
            dsimp only
            rcases Parser.expectPeek_cases p3 .ASSIGN with ⟨he2, hp2⟩ | ⟨he2, hp2⟩
            · rw [he2]
              dsimp only
              have hq4 : p3.nextToken.meas < p3.meas :=
                Parser.meas_nextToken_lt_peek _ (by rw [hp2]; decide)
              have hq5 : p3.nextToken.nextToken.meas ≤ p3.nextToken.meas :=
                Parser.meas_nextToken_le _
              obtain ⟨⟨v, p6⟩, hrE, hmE⟩ := ihPE LOWEST p3.nextToken.nextToken (by omega)
              have hm6 : p6.meas ≤ p3.nextToken.nextToken.meas := hmE
              rw [hrE]
              dsimp only
              refine ⟨_, rfl, ?_⟩
              dsimp only
              omega
            · rw [he2]
              dsimp only
              refine ⟨_, rfl, ?_⟩
              exact le_trans (le_of_eq (Parser.meas_peekError _ _)) (by omega)
          · rw [if_neg hpid]
            by_cases hpas : p.nextToken.peekTokenIs .ASSIGN = true
            · rw [if_pos hpas]
              have hq2 : p.nextToken.nextToken.meas < p.nextToken.meas :=
                Parser.meas_nextToken_lt_peek _
                  (by rw [show p.nextToken.peekToken.type_ = .ASSIGN from by
                    simpa [Parser.peekTokenIs] using hpas]; decide)
              have hq3 : p.nextToken.nextToken.nextToken.meas ≤
                  p.nextToken.nextToken.meas := Parser.meas_nextToken_le _
              obtain ⟨⟨v, p4⟩, hrE, hmE⟩ :=
                ihPE LOWEST p.nextToken.nextToken.nextToken (by omega)
              have hm4 : p4.meas ≤ p.nextToken.nextToken.nextToken.meas := hmE
              rw [hrE]
              dsimp only
              refine ⟨_, rfl, ?_⟩
              dsimp only
              omega
            · rw [if_neg hpas]
              refine ⟨_, rfl, ?_⟩
              dsimp only
              omega
        · rw [he1]
          dsimp only
          exact ⟨_, rfl, le_of_eq (Parser.meas_peekError _ _)⟩
      · rw [if_neg hvar]
        by_cases hidc : p.curTokenIs .IDENT = true
        · rw [if_pos hidc]
          by_cases hwal : p.peekTokenIs .WALRUS = true
          · rw [if_pos hwal]
            have hq1 : p.nextToken.meas < p.meas :=
              p.meas_nextToken_lt_peek
                (by rw [show p.peekToken.type_ = .WALRUS from by
                  simpa [Parser.peekTokenIs] using hwal]; decide)
            have hq2 : p.nextToken.nextToken.meas ≤ p.nextToken.meas :=
              Parser.meas_nextToken_le _
            obtain ⟨⟨v, p3⟩, hrE, hmE⟩ := ihPE LOWEST p.nextToken.nextToken (by omega)
            have hm3 : p3.meas ≤ p.nextToken.nextToken.meas := hmE
            rw [hrE]
            dsimp only
            refine ⟨_, rfl, ?_⟩
            dsimp only
            omega
          · rw [if_neg hwal]
            by_cases hass : p.peekTokenIs .ASSIGN = true
            · rw [if_pos hass]
              have hq1 : p.nextToken.meas < p.meas :=
                p.meas_nextToken_lt_peek
                  (by rw [show p.peekToken.type_ = .ASSIGN from by
                    simpa [Parser.peekTokenIs] using hass]; decide)
              have hq2 : p.nextToken.nextToken.meas ≤ p.nextToken.meas :=
                Parser.meas_nextToken_le _
              obtain ⟨⟨v, p3⟩, hrE, hmE⟩ := ihPE LOWEST p.nextToken.nextToken (by omega)
              have hm3 : p3.meas ≤ p.nextToken.nextToken.meas := hmE
              rw [hrE]
              dsimp only
              refine ⟨_, rfl, ?_⟩
              dsimp only
              omega
            · rw [if_neg hass]
              exact ⟨_, rfl, le_refl _⟩
        · rw [if_neg hidc]
          exact ⟨_, rfl, le_refl _⟩
    · -- parseIfStatementF, c = 4
      intro p h
      simp only [parseIfStatementF]
      have hq0 : p.nextToken.meas ≤ p.meas := Parser.meas_nextToken_le _
      obtain ⟨⟨cond, p2⟩, hrC, hmC⟩ := ihPE LOWEST p.nextToken (by omega)
      have hm2 : p2.meas ≤ p.nextToken.meas := hmC
      rw [hrC]
      dsimp only
      rcases Parser.expectPeek_cases p2 .COLON with ⟨he1, hp1⟩ | ⟨he1, hp1⟩
      · rw [he1]
        dsimp only
        have hq3 : p2.nextToken.meas < p2.meas :=
          Parser.meas_nextToken_lt_peek _ (by rw [hp1]; decide)
        obtain ⟨p4, hrS, hmS⟩ := skipPeekNewlinesF_adq fuel p2.nextToken (by omega)
        rw [hrS]
        dsimp only
        obtain ⟨⟨thenB, p5⟩, hrB, hmB⟩ := ihPBS p4 (by omega)
        have hm5 : p5.meas ≤ p4.meas := hmB
        rw [hrB]
        dsimp only
        by_cases hee : p5.peekTokenIs .ELIF = true ∨ p5.peekTokenIs .ELSE = true
        · rw [if_pos hee]
          have hq6 : p5.nextToken.meas < p5.meas := by
            refine Parser.meas_nextToken_lt_peek _ ?_
            rcases hee with hx | hx
            · rw [show p5.peekToken.type_ = .ELIF from by
                simpa [Parser.peekTokenIs] using hx]
              decide
            · rw [show p5.peekToken.type_ = .ELSE from by
                simpa [Parser.peekTokenIs] using hx]
              decide
          by_cases helif : p5.nextToken.curTokenIs .ELIF = true
          · rw [if_pos helif]
            obtain ⟨⟨elseIf, p7⟩, hrI, hmI⟩ := ihPIf p5.nextToken (by omega)
            have hm7 : p7.meas ≤ p5.nextToken.meas := hmI
            rw [hrI]
            dsimp only
            refine ⟨_, rfl, ?_⟩
            dsimp only
            omega
          · rw [if_neg helif]
            rcases Parser.expectPeek_cases p5.nextToken .COLON with ⟨he2, hp2⟩ | ⟨he2, hp2⟩
            · rw [he2]
              dsimp only
              have hq8 : p5.nextToken.nextToken.meas < p5.nextToken.meas :=
                Parser.meas_nextToken_lt_peek _ (by rw [hp2]; decide)
              obtain ⟨p9, hrS2, hmS2⟩ :=
                skipPeekNewlinesF_adq fuel p5.nextToken.nextToken (by omega)
              rw [hrS2]
              dsimp only
              obtain ⟨⟨elseB, p10⟩, hrB2, hmB2⟩ := ihPBS p9 (by omega)
              have hm10 : p10.meas ≤ p9.meas := hmB2
              rw [hrB2]
              dsimp only
              refine ⟨_, rfl, ?_⟩
              dsimp only
              omega
            · rw [he2]
              dsimp only
              refine ⟨_, rfl, ?_⟩
              exact le_trans (le_of_eq (Parser.meas_peekError _ _)) (by omega)
        · rw [if_neg hee]
          refine ⟨_, rfl, ?_⟩
          dsimp only
          omega
      · rw [he1]
        dsimp only
        refine ⟨_, rfl, ?_⟩
        exact le_trans (le_of_eq (Parser.meas_peekError _ _)) (by omega)
    · -- parseForStatementF, c = 4
      intro p h
      simp only [parseForStatementF]
      have hq0 : p.nextToken.meas ≤ p.meas := Parser.meas_nextToken_le _
      by_cases hin : p.nextToken.peekTokenIs .IN = true
      · rw [if_pos hin]
        have hq1 : p.nextToken.nextToken.meas < p.nextToken.meas :=
          Parser.meas_nextToken_lt_peek _
            (by rw [show p.nextToken.peekToken.type_ = .IN from by
              simpa [Parser.peekTokenIs] using hin]; decide)
        have hq2 : p.nextToken.nextToken.nextToken.meas ≤
            p.nextToken.nextToken.meas := Parser.meas_nextToken_le _
        obtain ⟨⟨re, p4⟩, hrE, hmE⟩ :=
          ihPE LOWEST p.nextToken.nextToken.nextToken (by omega)
        have hm4 : p4.meas ≤ p.nextToken.nextToken.nextToken.meas := hmE
        rw [hrE]
        dsimp only
        rcases Parser.expectPeek_cases p4 .COLON with ⟨he1, hp1⟩ | ⟨he1, hp1⟩
        · rw [he1]
          dsimp only
          have hq5 : p4.nextToken.meas < p4.meas :=
            Parser.meas_nextToken_lt_peek _ (by rw [hp1]; decide)
          obtain ⟨p6, hrS, hmS⟩ := skipPeekNewlinesF_adq fuel p4.nextToken (by omega)
          rw [hrS]
          dsimp only
          obtain ⟨⟨body, p7⟩, hrB, hmB⟩ := ihPBS p6 (by omega)
          have hm7 : p7.meas ≤ p6.meas := hmB
          rw [hrB]
          dsimp only
          refine ⟨_, rfl, ?_⟩
          dsimp only
          omega
        · rw [he1]
          dsimp only
          refine ⟨_, rfl, ?_⟩
          exact le_trans (le_of_eq (Parser.meas_peekError _ _)) (by omega)
      · rw [if_neg hin]
        rcases p.meas_nextToken with hlt1 | ⟨hex, hmeq⟩
        · obtain ⟨⟨ini, p2⟩, hrI, hmI⟩ := ihPS p.nextToken (by omega)
          have hm2 : p2.meas ≤ p.nextToken.meas := hmI
          rw [hrI]
          dsimp only
          rcases Parser.expectPeek_cases p2 .SEMICOLON with ⟨he1, hp1⟩ | ⟨he1, hp1⟩
          · rw [he1]
            dsimp only
            have hq3 : p2.nextToken.meas < p2.meas :=
              Parser.meas_nextToken_lt_peek _ (by rw [hp1]; decide)
            have hq4 : p2.nextToken.nextToken.meas ≤ p2.nextToken.meas :=
              Parser.meas_nextToken_le _
            obtain ⟨⟨cond, p5⟩, hrE, hmE⟩ :=
              ihPE LOWEST p2.nextToken.nextToken (by omega)
            have hm5 : p5.meas ≤ p2.nextToken.nextToken.meas := hmE
            rw [hrE]
            dsimp only
            rcases Parser.expectPeek_cases p5 .SEMICOLON with ⟨he2, hp2⟩ | ⟨he2, hp2⟩
            · rw [he2]
              dsimp only
              have hq6 : p5.nextToken.meas < p5.meas :=
                Parser.meas_nextToken_lt_peek _ (by rw [hp2]; decide)
              have hq7 : p5.nextToken.nextToken.meas ≤ p5.nextToken.meas :=
                Parser.meas_nextToken_le _
              obtain ⟨⟨upd, p8⟩, hrU, hmU⟩ := ihPS p5.nextToken.nextToken (by omega)
              have hm8 : p8.meas ≤ p5.nextToken.nextToken.meas := hmU
              rw [hrU]
              dsimp only
              rcases Parser.expectPeek_cases p8 .COLON with ⟨he3, hp3⟩ | ⟨he3, hp3⟩
              · rw [he3]
                dsimp only
                have hq9 : p8.nextToken.meas < p8.meas :=
                  Parser.meas_nextToken_lt_peek _ (by rw [hp3]; decide)
                obtain ⟨p10, hrS, hmS⟩ :=
                  skipPeekNewlinesF_adq fuel p8.nextToken (by omega)
                rw [hrS]
                dsimp only
                obtain ⟨⟨body, p11⟩, hrB, hmB⟩ := ihPBS p10 (by omega)
                have hm11 : p11.meas ≤ p10.meas := hmB
                rw [hrB]
                dsimp only
                refine ⟨_, rfl, ?_⟩
                dsimp only
                omega
              · rw [he3]
                dsimp only
                refine ⟨_, rfl, ?_⟩
                exact le_trans (le_of_eq (Parser.meas_peekError _ _)) (by omega)
            · rw [he2]
              dsimp only
              refine ⟨_, rfl, ?_⟩
              exact le_trans (le_of_eq (Parser.meas_peekError _ _)) (by omega)
          · rw [he1]
            dsimp only
            refine ⟨_, rfl, ?_⟩
            exact le_trans (le_of_eq (Parser.meas_peekError _ _)) (by omega)
        · -- drained state: parseStatement returns at once, expectPeek fails
          have h0 := p.exhausted_meas hex
          have hex1 := p.exhausted_nextToken hex
          rw [parseStatementF_at_EOF fuel p.nextToken (by omega) hex1.2.2]
          dsimp only
          rcases Parser.expectPeek_cases (p.nextToken.noPrefixFnError .EOF) .SEMICOLON
            with ⟨he1, hp1⟩ | ⟨he1, hp1⟩
          · exfalso
            rw [Parser.peek_noPrefixFnError] at hp1
            rw [hex1.2.1] at hp1
            exact TokenType.noConfusion hp1
          · rw [he1]
            dsimp only
            refine ⟨_, rfl, ?_⟩
            dsimp only
            have h1 := Parser.meas_peekError (p.nextToken.noPrefixFnError .EOF) .SEMICOLON
            have h2 := Parser.meas_noPrefixFnError p.nextToken .EOF
            have h3 := Parser.meas_nextToken_le p
            omega
    · -- parseWhileStatementF, c = 4
      intro p h
      simp only [parseWhileStatementF]
      have hq0 : p.nextToken.meas ≤ p.meas := Parser.meas_nextToken_le _
      obtain ⟨⟨cond, p2⟩, hrC, hmC⟩ := ihPE LOWEST p.nextToken (by omega)
      have hm2 : p2.meas ≤ p.nextToken.meas := hmC
      rw [hrC]
      dsimp only
      rcases Parser.expectPeek_cases p2 .COLON with ⟨he1, hp1⟩ | ⟨he1, hp1⟩
      · rw [he1]
        dsimp only
        have hq3 : p2.nextToken.meas < p2.meas :=
          Parser.meas_nextToken_lt_peek _ (by rw [hp1]; decide)
        obtain ⟨p4, hrS, hmS⟩ := skipPeekNewlinesF_adq fuel p2.nextToken (by omega)
        rw [hrS]
        dsimp only
        obtain ⟨⟨body, p5⟩, hrB, hmB⟩ := ihPBS p4 (by omega)
        have hm5 : p5.meas ≤ p4.meas := hmB
        rw [hrB]
        dsimp only
        refine ⟨_, rfl, ?_⟩
        dsimp only
        omega
      · rw [he1]
        dsimp only
        refine ⟨_, rfl, ?_⟩
        exact le_trans (le_of_eq (Parser.meas_peekError _ _)) (by omega)
    · -- parseReturnStatementF, c = 4
      intro p h
      simp only [parseReturnStatementF]
      by_cases hgr : ¬ p.peekTokenIs .NEWLINE = true ∧ ¬ p.peekTokenIs .EOF = true
      · rw [if_pos hgr]
        have hq1 : p.nextToken.meas < p.meas :=
          p.meas_nextToken_lt_peek
            (fun hx => hgr.2 (by simp [Parser.peekTokenIs, hx]))
        obtain ⟨⟨v, p2⟩, hrE, hmE⟩ := ihPE LOWEST p.nextToken (by omega)
        have hm2 : p2.meas ≤ p.nextToken.meas := hmE
        rw [hrE]
        dsimp only
        refine ⟨_, rfl, ?_⟩
        dsimp only
        omega
      · rw [if_neg hgr]
        exact ⟨_, rfl, le_refl _⟩
    · -- parseExpressionStatementF, c = 4
      intro p h
      obtain ⟨⟨e, p2⟩, hrE, hmE⟩ := ihPE LOWEST p (by omega)
      have hm2 : p2.meas ≤ p.meas := hmE
      simp only [parseExpressionStatementF]
      rw [hrE]
      dsimp only
      exact ⟨_, rfl, hm2⟩
    · -- parseBlockStatementF, c = 7
      intro p h
      obtain ⟨⟨stmts, p2⟩, hrL, hmL⟩ := ihBL [] p (by omega)
      have hm2 : p2.meas ≤ p.meas := hmL
      simp only [parseBlockStatementF]
      rw [hrL]
      dsimp only
      exact ⟨_, rfl, hm2⟩
    · -- blockLoopF, c = 6
      intro acc p h
      simp only [blockLoopF]
      by_cases heof : p.curTokenIs .EOF = true
      · rw [if_pos heof]
        exact ⟨_, rfl, le_refl _⟩
      · rw [if_neg heof]
        have hcurne : p.curToken.type_ ≠ .EOF :=
          fun hx => heof (by simp [Parser.curTokenIs, hx])
        by_cases hnl : p.curTokenIs .NEWLINE = true
        · rw [if_pos hnl]
          have hq1 : p.nextToken.meas < p.meas := p.meas_nextToken_lt_cur hcurne
          obtain ⟨r2, hr2, hm2⟩ := ihBL acc p.nextToken (by omega)
          exact ⟨r2, hr2, by omega⟩
        · rw [if_neg hnl]
          by_cases hfn : p.curTokenIs .FUNC = true
          · rw [if_pos hfn]
            exact ⟨_, rfl, le_refl _⟩
          · rw [if_neg hfn]
            obtain ⟨⟨stmt, p2⟩, hrS, hmS⟩ := ihPS p (by omega)
            have hm2 : p2.meas ≤ p.meas := hmS
            rw [hrS]
            dsimp only
            by_cases heof2 : p2.curTokenIs .EOF = true
            · rw [if_neg (not_not_intro heof2)]
              have hc2 : p2.curToken.type_ = .EOF := by
                simpa [Parser.curTokenIs] using heof2
              exact ⟨_, blockLoopF_at_EOF fuel (acc ++ [stmt]) p2 (by omega) hc2,
                by dsimp only; omega⟩
            · rw [if_pos heof2]
              have hcurne2 : p2.curToken.type_ ≠ .EOF :=
                fun hx => heof2 (by simp [Parser.curTokenIs, hx])
              have hq2 : p2.nextToken.meas < p2.meas := p2.meas_nextToken_lt_cur hcurne2
              obtain ⟨r2, hr2, hm3⟩ := ihBL (acc ++ [stmt]) p2.nextToken (by omega)
              exact ⟨r2, hr2, by omega⟩
    · -- parseExpressionF, c = 3
      intro prec p h
      simp only [parseExpressionF]
      split
      · -- IDENT
        obtain ⟨r2, hr2, hm2⟩ :=
          ihEL prec (some (.identifier p.curToken.Literal)) p (by omega)
        exact ⟨r2, hr2, hm2⟩
      · -- INT
        rcases hgp : goParseInt p.curToken.Literal with - | v
        · dsimp only
          obtain ⟨r2, hr2, hm2⟩ := ihEL prec none
            { p with errors := p.errors ++
                ["could not parse " ++ goQuote p.curToken.Literal ++ " as integer"] }
            (by rw [Parser.meas_withErrors]; omega)
          exact ⟨r2, hr2, le_trans hm2 (le_of_eq (Parser.meas_withErrors _ _))⟩
        · dsimp only
          obtain ⟨r2, hr2, hm2⟩ :=
            ihEL prec (some (.literal "int" (.intVal v))) p (by omega)
          exact ⟨r2, hr2, hm2⟩
      · -- FLOAT
        by_cases hfl : goParseFloatOk p.curToken.Literal = true
        · rw [if_pos hfl]
          obtain ⟨r2, hr2, hm2⟩ :=
            ihEL prec (some (.literal "float" (.floatVal p.curToken.Literal))) p (by omega)
          exact ⟨r2, hr2, hm2⟩
        · rw [if_neg hfl]
          obtain ⟨r2, hr2, hm2⟩ := ihEL prec none
            { p with errors := p.errors ++
                ["could not parse " ++ goQuote p.curToken.Literal ++ " as float"] }
            (by rw [Parser.meas_withErrors]; omega)
          exact ⟨r2, hr2, le_trans hm2 (le_of_eq (Parser.meas_withErrors _ _))⟩
      · -- STRING
        obtain ⟨r2, hr2, hm2⟩ :=
          ihEL prec (some (.literal "string" (.strVal p.curToken.Literal))) p (by omega)
        exact ⟨r2, hr2, hm2⟩
      · -- TRUE
        obtain ⟨r2, hr2, hm2⟩ :=
          ihEL prec (some (.literal "bool" (.boolVal (p.curTokenIs .TRUE)))) p (by omega)
        exact ⟨r2, hr2, hm2⟩
      · -- FALSE
        obtain ⟨r2, hr2, hm2⟩ :=
          ihEL prec (some (.literal "bool" (.boolVal (p.curTokenIs .TRUE)))) p (by omega)
        exact ⟨r2, hr2, hm2⟩
      · -- NIL
        obtain ⟨r2, hr2, hm2⟩ :=
          ihEL prec (some (.literal "nil" .nilVal)) p (by omega)
        exact ⟨r2, hr2, hm2⟩
      · -- MINUS
        rename_i heq
        have hq1 : p.nextToken.meas < p.meas :=
          p.meas_nextToken_lt_cur (by rw [heq]; decide)
        obtain ⟨⟨operand, p2⟩, hrO, hmO⟩ := ihPE PREFIX p.nextToken (by omega)
        have hm2 : p2.meas ≤ p.nextToken.meas := hmO
        rw [hrO]
        dsimp only
        obtain ⟨r2, hr2, hm3⟩ :=
          ihEL prec (some (.unaryExpr p.curToken.Literal operand)) p2 (by omega)
        exact ⟨r2, hr2, by omega⟩
      · -- NOT
        rename_i heq
        have hq1 : p.nextToken.meas < p.meas :=
          p.meas_nextToken_lt_cur (by rw [heq]; decide)
        obtain ⟨⟨operand, p2⟩, hrO, hmO⟩ := ihPE PREFIX p.nextToken (by omega)
        have hm2 : p2.meas ≤ p.nextToken.meas := hmO
        rw [hrO]
        dsimp only
        obtain ⟨r2, hr2, hm3⟩ :=
          ihEL prec (some (.unaryExpr p.curToken.Literal operand)) p2 (by omega)
        exact ⟨r2, hr2, by omega⟩
      · -- LPAREN
        rename_i heq
        have hq1 : p.nextToken.meas < p.meas :=
          p.meas_nextToken_lt_cur (by rw [heq]; decide)
        obtain ⟨⟨e, p2⟩, hrG, hmG⟩ := ihPE LOWEST p.nextToken (by omega)
        have hm2 : p2.meas ≤ p.nextToken.meas := hmG
        rw [hrG]
        dsimp only
        rcases Parser.expectPeek_cases p2 .RPAREN with ⟨he, hp⟩ | ⟨he, hp⟩
        · rw [he]
          dsimp only
          have hq3 : p2.nextToken.meas < p2.meas :=
            Parser.meas_nextToken_lt_peek _ (by rw [hp]; decide)
          obtain ⟨r2, hr2, hm3⟩ := ihEL prec e p2.nextToken (by omega)
          exact ⟨r2, hr2, by omega⟩
        · rw [he]
          dsimp only
          obtain ⟨r2, hr2, hm3⟩ := ihEL prec none (p2.peekError .RPAREN)
            (by have hpe := Parser.meas_peekError p2 .RPAREN; omega)
          exact ⟨r2, hr2, by have hpe := Parser.meas_peekError p2 .RPAREN; omega⟩
      · -- LBRACKET
        obtain ⟨⟨elems, p2⟩, hrA, hmA⟩ := ihPEL .RBRACKET p (by omega)
        have hm2 : p2.meas ≤ p.meas := hmA
        rw [hrA]
        dsimp only
        obtain ⟨r2, hr2, hm3⟩ :=
          ihEL prec (some (.arrayLiteral elems)) p2 (by omega)
        exact ⟨r2, hr2, by omega⟩
      · -- LBRACE
        rename_i heq
        by_cases hrb : p.peekTokenIs .RBRACE = true
        · rw [if_pos hrb]
          have hq1 : p.nextToken.meas < p.meas :=
            p.meas_nextToken_lt_peek
              (by rw [show p.peekToken.type_ = .RBRACE from by
                simpa [Parser.peekTokenIs] using hrb]; decide)
          obtain ⟨r2, hr2, hm2⟩ :=
            ihEL prec (some (.mapLiteral [])) p.nextToken (by omega)
          exact ⟨r2, hr2, by omega⟩
        · rw [if_neg hrb]
          have hq1 : p.nextToken.meas < p.meas :=
            p.meas_nextToken_lt_cur (by rw [heq]; decide)
          obtain ⟨⟨po, p2⟩, hrM, hmM⟩ := ihMPL [] p.nextToken (by omega)
          have hm2 : p2.meas ≤ p.nextToken.meas := hmM
          rw [hrM]
          rcases po with - | pairs
          · dsimp only
            obtain ⟨r2, hr2, hm3⟩ := ihEL prec none p2 (by omega)
            exact ⟨r2, hr2, by omega⟩
          · dsimp only
            rcases Parser.expectPeek_cases p2 .RBRACE with ⟨he, hp⟩ | ⟨he, hp⟩
            · rw [he]
              dsimp only
              have hq3 : p2.nextToken.meas < p2.meas :=
                Parser.meas_nextToken_lt_peek _ (by rw [hp]; decide)
              obtain ⟨r2, hr2, hm3⟩ :=
                ihEL prec (some (.mapLiteral pairs)) p2.nextToken (by omega)
              exact ⟨r2, hr2, by omega⟩
            · rw [he]
              dsimp only
              obtain ⟨r2, hr2, hm3⟩ := ihEL prec none (p2.peekError .RBRACE)
                (by have hpe := Parser.meas_peekError p2 .RBRACE; omega)
              exact ⟨r2, hr2, by have hpe := Parser.meas_peekError p2 .RBRACE; omega⟩
      · -- default: no prefix parse function
        exact ⟨_, rfl, le_of_eq (Parser.meas_noPrefixFnError _ _)⟩
    · -- exprLoopF, c = 2
      intro precedence leftExp p h
      simp only [exprLoopF]
      by_cases hg : ¬ p.peekTokenIs .NEWLINE = true ∧ ¬ p.peekTokenIs .EOF = true ∧
          ¬ p.peekTokenIs .INDENT = true ∧ ¬ p.peekTokenIs .DEDENT = true ∧
          precedence < p.peekPrecedence
      · rw [if_pos hg]
        have hpkne : p.peekToken.type_ ≠ .EOF :=
          fun hx => hg.2.1 (by simp [Parser.peekTokenIs, hx])
        have hq1 : p.nextToken.meas < p.meas := p.meas_nextToken_lt_peek hpkne
        by_cases hinf : hasInfixFn p.peekToken.type_ = true
        · rw [if_pos hinf]
          split
          · -- LPAREN: call expression
            obtain ⟨⟨args, p2⟩, hrA, hmA⟩ := ihPEL .RPAREN p.nextToken (by omega)
            have hm2 : p2.meas ≤ p.nextToken.meas := hmA
            rw [hrA]
            dsimp only
            obtain ⟨r2, hr2, hm3⟩ :=
              ihEL precedence (some (.callExpr leftExp args)) p2 (by omega)
            exact ⟨r2, hr2, by omega⟩
          · -- LBRACKET: index expression
            rename_i heq1
            have hq2 : p.nextToken.nextToken.meas < p.nextToken.meas :=
              Parser.meas_nextToken_lt_cur _ (by rw [heq1]; decide)
            obtain ⟨⟨idx, p2⟩, hrI, hmI⟩ := ihPE LOWEST p.nextToken.nextToken (by omega)
            have hm2 : p2.meas ≤ p.nextToken.nextToken.meas := hmI
            rw [hrI]
            dsimp only
            rcases Parser.expectPeek_cases p2 .RBRACKET with ⟨he, hp⟩ | ⟨he, hp⟩
            · rw [he]
              dsimp only
              have hq3 : p2.nextToken.meas < p2.meas :=
                Parser.meas_nextToken_lt_peek _ (by rw [hp]; decide)
              obtain ⟨r2, hr2, hm3⟩ :=
                ihEL precedence (some (.indexExpr leftExp idx)) p2.nextToken (by omega)
              exact ⟨r2, hr2, by omega⟩
            · rw [he]
              dsimp only
              obtain ⟨r2, hr2, hm3⟩ := ihEL precedence none (p2.peekError .RBRACKET)
                (by have hpe := Parser.meas_peekError p2 .RBRACKET; omega)
              exact ⟨r2, hr2, by have hpe := Parser.meas_peekError p2 .RBRACKET; omega⟩
          · -- DOT: selector expression
            rcases Parser.expectPeek_cases p.nextToken .IDENT with ⟨he, hp⟩ | ⟨he, hp⟩
            · rw [he]
              dsimp only
              have hq2 : p.nextToken.nextToken.meas < p.nextToken.meas :=
                Parser.meas_nextToken_lt_peek _ (by rw [hp]; decide)
              obtain ⟨r2, hr2, hm3⟩ := ihEL precedence
                (some (.selectorExpr leftExp p.nextToken.nextToken.curToken.Literal))
                p.nextToken.nextToken (by omega)
              exact ⟨r2, hr2, by omega⟩
            · rw [he]
              dsimp only
              obtain ⟨r2, hr2, hm3⟩ := ihEL precedence none (p.nextToken.peekError .IDENT)
                (by have hpe := Parser.meas_peekError p.nextToken .IDENT; omega)
              exact ⟨r2, hr2,
                by have hpe := Parser.meas_peekError p.nextToken .IDENT; omega⟩
          · -- default: binary infix expression
            have hcm : p.nextToken.curToken.type_ ≠ .EOF := by
              rw [Parser.cur_nextToken]
              exact hpkne
            have hq2 : p.nextToken.nextToken.meas < p.nextToken.meas :=
              Parser.meas_nextToken_lt_cur _ hcm
            obtain ⟨⟨right, p2⟩, hrR, hmR⟩ :=
              ihPE (p.nextToken.curPrecedence) p.nextToken.nextToken (by omega)
            have hm2 : p2.meas ≤ p.nextToken.nextToken.meas := hmR
            rw [hrR]
            dsimp only
            obtain ⟨r2, hr2, hm3⟩ := ihEL precedence
              (some (.binaryExpr leftExp (p.nextToken.curToken.Literal) right)) p2 (by omega)
            exact ⟨r2, hr2, by omega⟩
        · rw [if_neg hinf]
          exact ⟨_, rfl, le_refl _⟩
      · rw [if_neg hg]
        exact ⟨_, rfl, le_refl _⟩
    · -- mapPairsLoopF, c = 4
      intro pairs p h
      simp only [mapPairsLoopF]
      obtain ⟨⟨key, p2⟩, hrK, hmK⟩ := ihPE LOWEST p (by omega)
      have hm2 : p2.meas ≤ p.meas := hmK
      rw [hrK]
      dsimp only
      rcases Parser.expectPeek_cases p2 .COLON with ⟨he, hp⟩ | ⟨he, hp⟩
      · rw [he]
        dsimp only
        have hq3 : p2.nextToken.meas < p2.meas :=
          Parser.meas_nextToken_lt_peek _ (by rw [hp]; decide)
        have hc3 : p2.nextToken.curToken.type_ = .COLON := by
          rw [Parser.cur_nextToken, hp]
        have hq4 : p2.nextToken.nextToken.meas < p2.nextToken.meas :=
          Parser.meas_nextToken_lt_cur _ (by rw [hc3]; decide)
        obtain ⟨⟨value, p5⟩, hrV, hmV⟩ := ihPE LOWEST p2.nextToken.nextToken (by omega)
        have hm5 : p5.meas ≤ p2.nextToken.nextToken.meas := hmV
        rw [hrV]
        dsimp only
        by_cases hcm : p5.peekTokenIs .COMMA = true
        · rw [if_neg (not_not_intro hcm)]
          have hq6 : p5.nextToken.meas < p5.meas :=
            Parser.meas_nextToken_lt_peek _
              (by rw [show p5.peekToken.type_ = .COMMA from by
                simpa [Parser.peekTokenIs] using hcm]; decide)
          have hq7 : p5.nextToken.nextToken.meas ≤ p5.nextToken.meas :=
            Parser.meas_nextToken_le _
          obtain ⟨r2, hr2, hm3⟩ :=
            ihMPL (pairs ++ [(key, value)]) p5.nextToken.nextToken (by omega)
          exact ⟨r2, hr2, by omega⟩
        · rw [if_pos hcm]
          refine ⟨_, rfl, ?_⟩
          dsimp only
          omega
      · rw [he]
        dsimp only
        refine ⟨_, rfl, ?_⟩
        dsimp only
        have hpe := Parser.meas_peekError p2 .COLON
        omega
    · -- parseExpressionListF, c = 2
      intro endT p h
      simp only [parseExpressionListF]
      by_cases hend : p.peekTokenIs endT = true
      · rw [if_pos hend]
        exact ⟨_, rfl, Parser.meas_nextToken_le _⟩
      · rw [if_neg hend]
        rcases p.meas_nextToken with hlt | ⟨hex, hmeq⟩
        · obtain ⟨⟨e, p2⟩, hrE, hmE⟩ := ihPE LOWEST p.nextToken (by omega)
          have hm2 : p2.meas ≤ p.nextToken.meas := hmE
          rw [hrE]
          dsimp only
          obtain ⟨⟨args, p3⟩, hrL, hmL⟩ := ihELL [e] p2 (by omega)
          have hm3 : p3.meas ≤ p2.meas := hmL
          rw [hrL]
          dsimp only
          rcases Parser.expectPeek_cases p3 endT with ⟨he, hp⟩ | ⟨he, hp⟩
          · rw [he]
            dsimp only
            refine ⟨_, rfl, ?_⟩
            dsimp only
            have := Parser.meas_nextToken_le p3
            omega
          · rw [he]
            dsimp only
            refine ⟨_, rfl, ?_⟩
            dsimp only
            have hpe := Parser.meas_peekError p3 endT
            omega
        · -- drained state: the element parse errors out and the list aborts
          have h0 := p.exhausted_meas hex
          have hex1 := p.exhausted_nextToken hex
          rw [parseExpressionF_at_EOF fuel LOWEST p.nextToken (by omega) hex1.2.2]
          dsimp only
          have hpk2 : ((p.nextToken.noPrefixFnError .EOF)).peekToken.type_ ≠ .COMMA := by
            rw [Parser.peek_noPrefixFnError, hex1.2.1]
            decide
          rw [exprListLoopF_stop fuel [none] _ (by omega) hpk2]
          dsimp only
          rcases Parser.expectPeek_cases (p.nextToken.noPrefixFnError .EOF) endT
            with ⟨he, hp⟩ | ⟨he, hp⟩
          · exfalso
            rw [Parser.peek_noPrefixFnError, hex1.2.1] at hp
            exact hend (by simp [Parser.peekTokenIs, hex.2.1, ← hp])
          · rw [he]
            dsimp only
            refine ⟨_, rfl, ?_⟩
            dsimp only
            have h1 := Parser.meas_peekError (p.nextToken.noPrefixFnError .EOF) endT
            have h2 := Parser.meas_noPrefixFnError p.nextToken .EOF
            have h3 := Parser.meas_nextToken_le p
            omega
    · -- exprListLoopF, c = 2
      intro args p h
      simp only [exprListLoopF]
      by_cases hcm : p.peekTokenIs .COMMA = true
      · rw [if_pos hcm]
        have hq1 : p.nextToken.meas < p.meas :=
          p.meas_nextToken_lt_peek
            (by rw [show p.peekToken.type_ = .COMMA from by
              simpa [Parser.peekTokenIs] using hcm]; decide)
        have hq2 : p.nextToken.nextToken.meas ≤ p.nextToken.meas :=
          Parser.meas_nextToken_le _
        obtain ⟨⟨e, p2⟩, hrE, hmE⟩ := ihPE LOWEST p.nextToken.nextToken (by omega)
        have hm2 : p2.meas ≤ p.nextToken.nextToken.meas := hmE
        rw [hrE]
        dsimp only
        obtain ⟨r2, hr2, hm3⟩ := ihELL (args ++ [e]) p2 (by omega)
        exact ⟨r2, hr2, by omega⟩
      · rw [if_neg hcm]
        exact ⟨_, rfl, le_refl _⟩

theorem statementsLoopF_adq : ∀ (fuel : Nat) (acc : List Statement) (p : Parser),
    16 * p.meas + 6 ≤ fuel →
    ∃ r, statementsLoopF fuel acc p = some r ∧ r.2.meas ≤ p.meas := by
  intro fuel
  induction fuel with
  | zero => intro acc p h; omega
  | succ fuel ih =>
    intro acc p h
    simp only [statementsLoopF]
    by_cases heof : p.curTokenIs .EOF = true
    · rw [if_neg (not_not_intro heof)]
      exact ⟨_, rfl, le_refl _⟩
    · rw [if_pos heof]
      have hcurne : p.curToken.type_ ≠ .EOF :=
        fun hx => heof (by simp [Parser.curTokenIs, hx])
      by_cases hskip : p.curTokenIs .NEWLINE = true ∨ p.curTokenIs .INDENT = true ∨
          p.curTokenIs .DEDENT = true
      · rw [if_pos hskip]
        have hq1 : p.nextToken.meas < p.meas := p.meas_nextToken_lt_cur hcurne
        obtain ⟨r2, hr2, hm2⟩ := ih acc p.nextToken (by omega)
        exact ⟨r2, hr2, by omega⟩
      · rw [if_neg hskip]
        obtain ⟨⟨stmt, p2⟩, hrS, hmS⟩ := (parserAdq fuel).1 p (by omega)
        have hm2 : p2.meas ≤ p.meas := hmS
        rw [hrS]
        dsimp only
        by_cases heof2 : p2.curTokenIs .EOF = true
        · rw [if_neg (not_not_intro heof2)]
          have hc2 : p2.curToken.type_ = .EOF := by
            simpa [Parser.curTokenIs] using heof2
          exact ⟨_, statementsLoopF_at_EOF fuel (acc ++ [stmt]) p2 (by omega) hc2,
            by dsimp only; omega⟩
        · rw [if_pos heof2]
          have hcurne2 : p2.curToken.type_ ≠ .EOF :=
            fun hx => heof2 (by simp [Parser.curTokenIs, hx])
          have hq2 : p2.nextToken.meas < p2.meas := p2.meas_nextToken_lt_cur hcurne2
          obtain ⟨r2, hr2, hm3⟩ := ih (acc ++ [stmt]) p2.nextToken (by omega)
          exact ⟨r2, hr2, by omega⟩

theorem ParseProgramF_adq : ∀ (fuel : Nat) (p : Parser),
    16 * p.meas + 8 ≤ fuel →
    ∃ r, ParseProgramF fuel p = some r ∧ r.2.meas ≤ p.meas := by
  intro fuel p h
  match fuel with
  | 0 => omega
  | fuel+1 =>
    simp only [ParseProgramF]
    by_cases hpkg : p.curTokenIs .PACKAGE = true
    · rw [if_pos hpkg]
      have hcur : p.curToken.type_ = .PACKAGE := by
        simpa [Parser.curTokenIs] using hpkg
      have hq1 : p.nextToken.meas < p.meas :=
        p.meas_nextToken_lt_cur (by rw [hcur]; decide)
      by_cases hid : p.nextToken.curTokenIs .IDENT = true
      · rw [if_pos hid]
        dsimp only
        have hq2 : p.nextToken.nextToken.meas ≤ p.nextToken.meas :=
          Parser.meas_nextToken_le _
        obtain ⟨p3, hrS, hmS⟩ := skipCurNewlinesF_adq fuel (p.nextToken.nextToken) (by omega)
        rw [hrS]
        dsimp only
        obtain ⟨⟨imports, p4⟩, hrI, hmI⟩ := importsLoopF_adq fuel [] p3 (by omega)
        have hm4 : p4.meas ≤ p3.meas := hmI
        rw [hrI]
        dsimp only
        obtain ⟨⟨stmts, p5⟩, hrL, hmL⟩ := statementsLoopF_adq fuel [] p4 (by omega)
        have hm5 : p5.meas ≤ p4.meas := hmL
        rw [hrL]
        dsimp only
        refine ⟨_, rfl, ?_⟩
        dsimp only
        omega
      · rw [if_neg hid]
        dsimp only
        obtain ⟨p3, hrS, hmS⟩ := skipCurNewlinesF_adq fuel (p.nextToken) (by omega)
        rw [hrS]
        dsimp only
        obtain ⟨⟨imports, p4⟩, hrI, hmI⟩ := importsLoopF_adq fuel [] p3 (by omega)
        have hm4 : p4.meas ≤ p3.meas := hmI
        rw [hrI]
        dsimp only
        obtain ⟨⟨stmts, p5⟩, hrL, hmL⟩ := statementsLoopF_adq fuel [] p4 (by omega)
        have hm5 : p5.meas ≤ p4.meas := hmL
        rw [hrL]
        dsimp only
        refine ⟨_, rfl, ?_⟩
        dsimp only
        omega
    · rw [if_neg hpkg]
      dsimp only
      obtain ⟨p3, hrS, hmS⟩ := skipCurNewlinesF_adq fuel (p) (by omega)
      rw [hrS]
      dsimp only
      obtain ⟨⟨imports, p4⟩, hrI, hmI⟩ := importsLoopF_adq fuel [] p3 (by omega)
      have hm4 : p4.meas ≤ p3.meas := hmI
      rw [hrI]
      dsimp only
      obtain ⟨⟨stmts, p5⟩, hrL, hmL⟩ := statementsLoopF_adq fuel [] p4 (by omega)
      have hm5 : p5.meas ≤ p4.meas := hmL
      rw [hrL]
      dsimp only
      refine ⟨_, rfl, ?_⟩
      dsimp only
      omega

/-- **C2**: every finite token stream is parsed to completion — at the
canonical fuel `16 * meas + 8` the fueled `ParseProgramF` always returns a
result, which is the termination of the Go `ParseProgram` recursion, whose
call tree the fuel merely instruments (the embedding is total, so no panic
is modelled anywhere on the way); and on the specific malformed source
`func main(` + newline + indented `print("x")` the parser terminates with
exactly one accumulated error, a non-empty error list. -/
theorem claim_C2_termination :
    (∀ toks : List Token, ∃ r, ParseProgramF (16 * (Parser.new toks).meas + 8)
        (Parser.new toks) = some r) ∧
    ((parseInput "func main(\n    print(\"x\")").map (fun r => r.2.errors) =
      some ["expected next token to be RPAREN, got LPAREN instead"]) := by
  constructor
  · intro toks
    obtain ⟨r, hr, -⟩ := ParseProgramF_adq (16 * (Parser.new toks).meas + 8)
      (Parser.new toks) (le_refl _)
    exact ⟨r, hr⟩
  · with_unfolding_all decide

end GoScript
